import Mathlib

/-!
# Timestamp microservice: embedding of `main.go`

The program is a thin layer over the Go standard library (`strconv`, `time`,
`encoding/json`).  The functions of `main.go` are embedded below under their own names;
the library functions they call are embedded in the namespaces `strconv`, `time` and
`json`, following the library sources (Go 1.21, 64-bit `int`).

Conventions.
* A Go `string` is a byte sequence; it is a `List Char` here, one `Char` per byte, and
  byte comparisons such as `'0' <= c && c <= '9'` are comparisons of `c.toNat`.
* `int`, `int64` are `Int`, `uint64` is `Nat`; where the library relies on wrap-around
  the reduction modulo `2^64` is explicit (`wrap64`, `toUint64`).
* A Go `error` result is an `Option`: `none` is `nil`.
-/

namespace Timestampms

/-- A Go string: a sequence of bytes, one `Char` per byte. -/
abbrev GoString := List Char

/-- Conversion of an integer to `int64` (two's complement wrap-around). -/
def wrap64 (x : Int) : Int := (x + 9223372036854775808) % 18446744073709551616 - 9223372036854775808

/-- Conversion of an integer to `uint64`. -/
def toUint64 (x : Int) : Nat := (x % 18446744073709551616).toNat

/-- The byte `'0' + d`. -/
def digitByte (d : Nat) : Char := Char.ofNat (48 + d)

/-- The digit loop of `time.appendInt` and of `strconv.formatBits`
(`for u >= 10 { q := u / 10; buf[i] = '0' + u - q*10; u = q }` and the last digit):
the decimal digits of `u` in front of `buf`.  Both library loops fill a buffer from
the right, one round per digit after the first; a `uint64` has at most 20 digits, so
19 rounds are enough (`toDigits_eq_decimalLoop`). -/
def decimalLoop : Nat → Nat → GoString → GoString
  | 0, u, buf => digitByte (u % 10) :: buf
  | fuel + 1, u, buf =>
    if u ≥ 10 then
      let q := u / 10
      decimalLoop fuel q (digitByte (u - q * 10) :: buf)
    else digitByte u :: buf

/-! ## Package `time`: calendar arithmetic (`time.go`) -/

namespace time

def secondsPerMinute : Nat := 60
def secondsPerHour : Nat := 60 * secondsPerMinute
def secondsPerDay : Nat := 24 * secondsPerHour
def daysPer400Years : Nat := 365 * 400 + 97
def daysPer100Years : Nat := 365 * 100 + 24
def daysPer4Years : Nat := 365 * 4 + 1

/-- The year of the zero of the absolute time scale. -/
def absoluteZeroYear : Int := -292277022399
/-- The year of the zero of the internal time scale. -/
def internalYear : Int := 1

/-- Offset between the absolute and the internal scale:
`(absoluteZeroYear - internalYear) * 365.2425 * secondsPerDay`. -/
def absoluteToInternal : Int := (absoluteZeroYear - internalYear) * 3652425 / 10000 * 86400
def internalToAbsolute : Int := -absoluteToInternal
def unixToInternal : Int := (1969 * 365 + 1969 / 4 - 1969 / 100 + 1969 / 400) * 86400
def internalToUnix : Int := -unixToInternal
def wallToInternal : Int := (1884 * 365 + 1884 / 4 - 1884 / 100 + 1884 / 400) * 86400

def hasMonotonic : Nat := 9223372036854775808
def nsecMask : Nat := 1073741823
def nsecShift : Nat := 30

/-- A `time.Time`: the `wall` (`uint64`) and `ext` (`int64`) words.  The location
pointer is not part of the model: the program calls `UTC()` before the only
location-dependent operation, `String()`, and `Parse` builds its result in UTC. -/
structure Time where
  wall : Nat
  ext : Int
deriving DecidableEq

/-- Seconds since January 1, year 1 (`Time.sec`). -/
def Time.sec (t : Time) : Int :=
  if t.wall / hasMonotonic % 2 ≠ 0 then
    wrap64 (wallToInternal + (t.wall * 2 % 18446744073709551616 / 2 ^ (nsecShift + 1) : Nat))
  else t.ext

/-- Seconds since January 1, 1970 (`Time.unixSec`). -/
def Time.unixSec (t : Time) : Int := wrap64 (t.sec + internalToUnix)

/-- `Time.Unix`. -/
def Time.Unix (t : Time) : Int := t.unixSec

/-- `Time.nsec`. -/
def Time.nsec (t : Time) : Nat := t.wall % (nsecMask + 1)

/-- `Time.Nanosecond`. -/
def Time.Nanosecond (t : Time) : Nat := t.nsec

/-- `unixTime`. -/
def unixTime (sec : Int) (nsec : Nat) : Time := ⟨nsec, wrap64 (sec + unixToInternal)⟩

/-- `time.Unix`, for `0 ≤ nsec < 1e9` (the program passes `nsec = 0`, so the
normalisation branch of the library function is not taken). -/
def Unix (sec : Int) (nsec : Nat) : Time := unixTime sec nsec

/-- `Time.UTC`: sets the location to UTC; the `wall` and `ext` words are unchanged. -/
def Time.UTC (t : Time) : Time := t

/-- `Time.locabs` at the UTC location: zone name, offset, absolute seconds. -/
def Time.locabs (t : Time) : GoString × Int × Nat :=
  ("UTC".toList, 0, toUint64 (t.unixSec + (unixToInternal + internalToAbsolute)))

/-- `isLeap`; Go's `%` truncates, which is `Int.tmod`. -/
def isLeap (year : Int) : Bool :=
  Int.tmod year 4 == 0 && (Int.tmod year 100 != 0 || Int.tmod year 400 == 0)

/-- The table `daysBefore`: `daysBefore[m]` is the number of days in a non-leap year
before month `m+1`. -/
def daysBefore : List Nat := [0, 31, 59, 90, 120, 151, 181, 212, 243, 273, 304, 334, 365]

/-- The tail of `absDate`: the month (1-based) and the day of the month of a day of
the year from which the leap day has been removed. -/
def monthDay (day : Nat) : Nat × Nat :=
  -- Estimate month on assumption that every month has 31 days.
  -- The estimate may be too low by at most one month, so adjust.
  let month := day / 31
  let e := daysBefore.getD (month + 1) 0
  if day ≥ e then (month + 1 + 1, day - e + 1)
  else (month + 1, day - daysBefore.getD month 0 + 1)

/-- `absDate` with `full = true`: year, month, day of the month and day of the year of
an absolute time. -/
def absDate (abs : Nat) : Int × Nat × Nat × Nat :=
  -- Split into time and day.
  let d := abs / secondsPerDay
  -- Account for 400 year cycles.
  let n := d / daysPer400Years
  let y := 400 * n
  let d := d - daysPer400Years * n
  -- Cut off 100-year cycles.
  let n := d / daysPer100Years
  let n := n - n / 4
  let y := y + 100 * n
  let d := d - daysPer100Years * n
  -- Cut off 4-year cycles.
  let n := d / daysPer4Years
  let y := y + 4 * n
  let d := d - daysPer4Years * n
  -- Cut off years within a 4-year cycle.
  let n := d / 365
  let n := n - n / 4
  let y := y + n
  let d := d - 365 * n
  let year : Int := (y : Int) + absoluteZeroYear
  let yday := d
  let day := yday
  if isLeap year then
    if day > 31 + 29 - 1 then
      -- After leap day; pretend it wasn't there.
      ((year, (monthDay (day - 1)).1, (monthDay (day - 1)).2, yday))
    else if day = 31 + 29 - 1 then
      -- Leap day.
      (year, 2, 29, yday)
    else (year, (monthDay day).1, (monthDay day).2, yday)
  else (year, (monthDay day).1, (monthDay day).2, yday)

/-- `absClock`: hour, minute and second of an absolute time. -/
def absClock (abs : Nat) : Nat × Nat × Nat :=
  let sec := abs % secondsPerDay
  let hour := sec / secondsPerHour
  let sec := sec - hour * secondsPerHour
  let min := sec / secondsPerMinute
  let sec := sec - min * secondsPerMinute
  (hour, min, sec)

/-- `daysIn`: the number of days in month `m` of `year`. -/
def daysIn (m : Int) (year : Int) : Int :=
  if m = 2 ∧ isLeap year then 29
  else (daysBefore.getD m.toNat 0 : Int) - (daysBefore.getD (m - 1).toNat 0 : Int)

/-- `norm`: returns `nhi, nlo` such that `hi * base + lo == nhi * base + nlo` and
`0 <= nlo < base`. -/
def norm (hi lo base : Int) : Int × Int :=
  let p : Int × Int :=
    if lo < 0 then
      let n := Int.tdiv (-lo - 1) base + 1
      (hi - n, lo + n * base)
    else (hi, lo)
  if p.2 ≥ base then
    let n := Int.tdiv p.2 base
    (p.1 + n, p.2 - n * base)
  else p

/-- `daysSinceEpoch`: the number of days from the absolute epoch to the start of
`year` (`uint64`). -/
def daysSinceEpoch (year : Int) : Nat :=
  let y := toUint64 (year - absoluteZeroYear)
  -- Add in days from 400-year cycles.
  let n := y / 400
  let y := y - 400 * n
  let d := daysPer400Years * n
  -- Add in 100-year cycles.
  let n := y / 100
  let y := y - 100 * n
  let d := d + daysPer100Years * n
  -- Add in 4-year cycles.
  let n := y / 4
  let y := y - 4 * n
  let d := d + daysPer4Years * n
  -- Add in non-leap years.
  let n := y
  let d := d + 365 * n
  d % 18446744073709551616

/-- `time.Date` at the UTC location (zone offset 0, so no zone adjustment). -/
def Date (year month day hour min sec nsec : Int) : Time :=
  -- Normalize month, overflowing into year.
  let m := month - 1
  let (year, m) := norm year m 12
  let month := m + 1
  -- Normalize nsec, sec, min, hour, overflowing into day.
  let (sec, nsec) := norm sec nsec 1000000000
  let (min, sec) := norm min sec 60
  let (hour, min) := norm hour min 60
  let (day, hour) := norm day hour 24
  -- Compute days since the absolute epoch.
  let d : Int := daysSinceEpoch year
  -- Add in days before this month.
  let d := d + (daysBefore.getD (month - 1).toNat 0 : Int)
  let d := if isLeap year ∧ month ≥ 3 then d + 1 else d
  -- Add in days before today.
  let d := d + (day - 1)
  -- Add in time elapsed today.
  let abs := toUint64 (d * secondsPerDay + (hour * secondsPerHour + min * secondsPerMinute + sec))
  let unix := wrap64 (wrap64 abs + (absoluteToInternal + internalToUnix))
  unixTime unix nsec.toNat

/-! ## Package `time`: formatting (`format.go`) -/

/-- The layout elements that occur in the two layouts this program uses. -/
inductive Std
  | stdLongMonth   -- "January"
  | stdUnderDay    -- "_2"
  | stdLongYear    -- "2006"
  | stdZeroMonth   -- "01"
  | stdZeroDay     -- "02"
  | stdHour        -- "15"
  | stdZeroMinute  -- "04"
  | stdZeroSecond  -- "05"
  | stdFracSecond9 -- ".999999999"
  | stdNumTZ       -- "-0700"
  | stdTZ          -- "MST"
deriving DecidableEq

/-- One result of `nextStdChunk`: the literal text before the element, the element,
and the text of the element in the layout. -/
structure Chunk where
  pfx : GoString
  std : Std
  stdstr : GoString
deriving DecidableEq

/-- A layout string together with the sequence of chunks `nextStdChunk` cuts it into
and the literal text after the last element. -/
structure Layout where
  text : GoString
  chunks : List Chunk
  rest : GoString
deriving DecidableEq

/-- The layout of `Time.String`, `"2006-01-02 15:04:05.999999999 -0700 MST"`. -/
def stringLayout : Layout :=
  { text := "2006-01-02 15:04:05.999999999 -0700 MST".toList
    chunks :=
      [⟨[], .stdLongYear, "2006".toList⟩, ⟨"-".toList, .stdZeroMonth, "01".toList⟩,
       ⟨"-".toList, .stdZeroDay, "02".toList⟩, ⟨" ".toList, .stdHour, "15".toList⟩,
       ⟨":".toList, .stdZeroMinute, "04".toList⟩, ⟨":".toList, .stdZeroSecond, "05".toList⟩,
       ⟨[], .stdFracSecond9, ".999999999".toList⟩, ⟨" ".toList, .stdNumTZ, "-0700".toList⟩,
       ⟨" ".toList, .stdTZ, "MST".toList⟩]
    rest := [] }

/-- The layout of `parseTimestring`, `"January _2, 2006"`. -/
def dateLayout : Layout :=
  { text := "January _2, 2006".toList
    chunks :=
      [⟨[], .stdLongMonth, "January".toList⟩, ⟨" ".toList, .stdUnderDay, "_2".toList⟩,
       ⟨", ".toList, .stdLongYear, "2006".toList⟩]
    rest := [] }

/-- The digit count of `appendInt` (`for u2 := u; u2 > 0; u2 /= 10 { n++ }`); a
`uint64` has at most 20 digits. -/
def countDigits : Nat → Nat → Nat → Nat
  | 0, _, n => n
  | fuel + 1, u2, n => if u2 > 0 then countDigits fuel (u2 / 10) (n + 1) else n

/-- `appendInt`: appends the decimal form of `x` to `b`; if the decimal form
(excluding sign) is shorter than `width`, the result is padded with leading 0's. -/
def appendInt (b : GoString) (x : Int) (width : Nat) : GoString :=
  let b := if x < 0 then b ++ ['-'] else b
  let u := if x < 0 then toUint64 (-x) else toUint64 x
  -- 2-digit and 4-digit fields are the most common in time formats.
  if width = 2 ∧ u < 100 then b ++ [digitByte (u / 10), digitByte (u % 10)]
  else if width = 4 ∧ u < 10000 then
    b ++ [digitByte (u / 1000), digitByte (u / 100 % 10), digitByte (u / 10 % 10),
      digitByte (u % 10)]
  else
    -- Compute the number of decimal digits.
    let n := countDigits 20 u (if u = 0 then 1 else 0)
    -- Add 0-padding, then assemble decimal in reverse order.
    b ++ List.replicate (width - n) '0' ++ decimalLoop 19 u []

/-- The digit loop of `formatNano`: the nine decimal digits of `u`. -/
def nanoDigits : Nat → Nat → GoString → GoString
  | 0, _, buf => buf
  | k + 1, u, buf => nanoDigits k (u / 10) (digitByte (u % 10) :: buf)

/-- The trimming loop of `formatNano`: the number of leading digits kept once the
trailing zeros are removed. -/
def trimZeros (buf : GoString) : Nat → Nat
  | 0 => 0
  | n + 1 => if buf.getD n 'x' = '0' then trimZeros buf n else n + 1

/-- `formatNano` for the element `.999999999` (nine digits, separator `.`, trailing
zeros removed). -/
def formatNano (b : GoString) (nanosec : Nat) : GoString :=
  let buf := nanoDigits 9 nanosec []
  let n := trimZeros buf 9
  if n = 0 then b else b ++ ['.'] ++ buf.take n

/-- One round of the loop of `Time.AppendFormat`: writes the literal text of a chunk and
then its element. -/
def appendChunk (t : Time) (b : GoString) (c : Chunk) : GoString :=
  let name := t.locabs.1
  let offset := t.locabs.2.1
  let abs := t.locabs.2.2
  let year := (absDate abs).1
  let month := (absDate abs).2.1
  let day := (absDate abs).2.2.1
  let hour := (absClock abs).1
  let min := (absClock abs).2.1
  let sec := (absClock abs).2.2
  let b := b ++ c.pfx
  match c.std with
  | .stdLongYear => appendInt b year 4
  | .stdZeroMonth => appendInt b month 2
  | .stdZeroDay => appendInt b day 2
  | .stdHour => appendInt b hour 2
  | .stdZeroMinute => appendInt b min 2
  | .stdZeroSecond => appendInt b sec 2
  | .stdFracSecond9 => formatNano b t.Nanosecond
  | .stdNumTZ =>
    let zone := Int.tdiv offset 60
    let b := if zone < 0 then b ++ ['-'] else b ++ ['+']
    let zone := if zone < 0 then -zone else zone
    appendInt (appendInt b (Int.tdiv zone 60) 2) (Int.tmod zone 60) 2
  | .stdTZ => b ++ name
  | .stdLongMonth => b
  | .stdUnderDay => b

/-- `Time.AppendFormat`. -/
def Time.AppendFormat (t : Time) (b : GoString) (layout : Layout) : GoString :=
  layout.chunks.foldl (appendChunk t) b ++ layout.rest

/-- `Time.Format`. -/
def Time.Format (t : Time) (layout : Layout) : GoString := t.AppendFormat [] layout

/-- `Time.String`: the time formatted with
`"2006-01-02 15:04:05.999999999 -0700 MST"`, followed by the monotonic clock reading
when the time has one. -/
def Time.String (t : Time) : GoString :=
  let s := t.Format stringLayout
  if t.wall / hasMonotonic % 2 ≠ 0 then
    let m2 := if t.ext < 0 then toUint64 (-t.ext) else toUint64 t.ext
    let sign := if t.ext < 0 then '-' else '+'
    let m1 := m2 / 1000000000
    let m2 := m2 % 1000000000
    let m0 := m1 / 1000000000
    let m1 := m1 % 1000000000
    let buf := " m=".toList ++ [sign]
    let buf := if m0 ≠ 0 then appendInt buf m0 0 else buf
    let wid := if m0 ≠ 0 then 9 else 0
    let buf := appendInt buf m1 wid
    let buf := buf ++ ['.']
    let buf := appendInt buf m2 9
    s ++ buf
  else s

/-! ## Package `time`: parsing (`format.go`) -/

/-- A `time.ParseError`. -/
structure ParseError where
  Layout : GoString
  Value : GoString
  LayoutElem : GoString
  ValueElem : GoString
  Message : GoString
deriving DecidableEq

/-- The table `lowerhex`. -/
def lowerhex (d : Nat) : Char := "0123456789abcdef".toList.getD d '0'

/-- The function `quote` of `format.go`.  The library walks the runes of `s`; a byte
below `' '` and every byte of a rune at or above `runeSelf` (a well-formed multi-byte
rune, or one invalid byte) is written `\xNN`, a double quote or backslash is preceded
by a backslash, and any other byte is copied.  Byte by byte that is the map below. -/
def quote (s : GoString) : GoString :=
  [Char.ofNat 34] ++
    s.flatMap (fun c =>
      if c.toNat ≥ 128 ∨ c.toNat < 32 then
        ['\\', 'x', lowerhex (c.toNat / 16 % 16), lowerhex (c.toNat % 16)]
      else if c = Char.ofNat 34 ∨ c = '\\' then ['\\', c]
      else [c]) ++
    [Char.ofNat 34]

/-- `ParseError.Error`. -/
def ParseError.Error (e : ParseError) : GoString :=
  if e.Message = [] then
    "parsing time ".toList ++ quote e.Value ++ " as ".toList ++ quote e.Layout ++
      ": cannot parse ".toList ++ quote e.ValueElem ++ " as ".toList ++ quote e.LayoutElem
  else "parsing time ".toList ++ quote e.Value ++ e.Message

/-- `isDigit`: reports whether `s[i]` is in range and is a decimal digit. -/
def isDigit (s : GoString) (i : Nat) : Bool :=
  match s.get? i with
  | none => false
  | some c => 48 ≤ c.toNat && c.toNat ≤ 57

/-- `getnum`: parses `s[0:1]` or `s[0:2]` (`fixed` forces the latter) as a decimal
integer and returns the integer and the remainder of the string; `none` is `errBad`. -/
def getnum (s : GoString) (fixed : Bool) : Option (Int × GoString) :=
  if !isDigit s 0 then none
  else if !isDigit s 1 then
    if fixed then none
    else some (((s.getD 0 '0').toNat - 48 : Nat), s.drop 1)
  else some ((((s.getD 0 '0').toNat - 48) * 10 + ((s.getD 1 '0').toNat - 48) : Nat), s.drop 2)

/-- `cutspace`. -/
def cutspace : GoString → GoString
  | [] => []
  | c :: s => if c = ' ' then cutspace s else c :: s

/-- The loop of `skip`, by recursion on the literal text `pfx`; a run of spaces in
`pfx` is consumed by `cutspace` in one round, so each round drops at least one byte of
`pfx` and `pfx.length` rounds are enough (`skipLoop_rounds`).  The result is the
remaining value and whether `errBad` was returned. -/
def skipLoop : Nat → GoString → GoString → GoString × Bool
  | 0, value, _ => (value, false)
  | fuel + 1, value, pfx =>
    match pfx with
    | [] => (value, false)
    | p :: ps =>
      if p = ' ' then
        if value.length > 0 ∧ value.head? ≠ some ' ' then (value, true)
        else skipLoop fuel (cutspace value) (cutspace (p :: ps))
      else if value.length = 0 ∨ value.head? ≠ some p then (value, true)
      else skipLoop fuel (value.drop 1) ps

/-- `skip`: removes the given literal text from the front of `value`, treating runs of
space characters as equivalent. -/
def skip (value pfx : GoString) : GoString × Bool := skipLoop pfx.length value pfx

/-- `match`: reports whether `s1` and `s2` match ignoring case; it is assumed that
`s1` and `s2` are the same length. -/
def match_ : GoString → GoString → Bool
  | c1 :: s1, c2 :: s2 =>
    if c1 ≠ c2 then
      -- Switch to lower-case; 'a'-'A' is known to be a single bit.
      let l1 := c1.toNat ||| 32
      let l2 := c2.toNat ||| 32
      if l1 ≠ l2 ∨ l1 < 97 ∨ l1 > 122 then false else match_ s1 s2
    else match_ s1 s2
  | _, _ => true

/-- The loop of `lookup`, from index `i` of the table. -/
def lookupFrom (i : Nat) : List GoString → GoString → Option (Nat × GoString)
  | [], _ => none
  | v :: tab, val =>
    if val.length ≥ v.length ∧ match_ (val.take v.length) v then some (i, val.drop v.length)
    else lookupFrom (i + 1) tab val

/-- `lookup`: the index of the first table entry that `val` starts with (ignoring
case) and the rest of `val`; `none` is `errBad`. -/
def lookup (tab : List GoString) (val : GoString) : Option (Nat × GoString) :=
  lookupFrom 0 tab val

/-- The table `longMonthNames`. -/
def longMonthNames : List GoString :=
  ["January".toList, "February".toList, "March".toList, "April".toList, "May".toList,
   "June".toList, "July".toList, "August".toList, "September".toList, "October".toList,
   "November".toList, "December".toList]

/-- The loop of `leadingInt`: consumes leading digits; `none` is `errLeadingInt`
(overflow). -/
def leadingIntLoop : GoString → Nat → Option (Nat × GoString)
  | [], x => some (x, [])
  | c :: s, x =>
    if c.toNat < 48 ∨ c.toNat > 57 then some (x, c :: s)
    else if x > 9223372036854775808 / 10 then none
    else
      let x := x * 10 + c.toNat - 48
      if x > 9223372036854775808 then none else leadingIntLoop s x

/-- `leadingInt`: consumes the leading `[0-9]*` from `s`. -/
def leadingInt (s : GoString) : Option (Nat × GoString) := leadingIntLoop s 0

/-- `atoi` of package `time`; `none` is `errAtoi`. -/
def atoi (s : GoString) : Option Int :=
  let neg := s.head? = some '-'
  let s := if s.head? = some '-' ∨ s.head? = some '+' then s.drop 1 else s
  match leadingInt s with
  | none => none
  | some (q, rem) =>
    if rem ≠ [] then none
    else if neg then some (wrap64 (-(wrap64 q))) else some (wrap64 q)

/-- The fields of the time being constructed by `parse` that the elements of
`dateLayout` can set; the others (`hour`, `min`, `sec`, `nsec`, zone) keep their
initial value zero and `yday` its initial value `-1`. -/
structure Fields where
  year : Int
  month : Int
  day : Int
deriving DecidableEq

/-- The `switch std & stdMask` of `parse`: reads one layout element from the front of
`value`; `none` is an error (`err != nil`). -/
def parseElem (std : Std) (value : GoString) (f : Fields) : Option (Fields × GoString) :=
  match std with
  | .stdLongYear =>
    if value.length < 4 ∨ !isDigit value 0 then none
    else
      match atoi (value.take 4) with
      | none => none
      | some year => some ({ f with year := year }, value.drop 4)
  | .stdLongMonth =>
    match lookup longMonthNames value with
    | none => none
    | some (month, value) => some ({ f with month := (month : Int) + 1 }, value)
  | .stdUnderDay =>
    let value := if value.length > 0 ∧ value.head? = some ' ' then value.drop 1 else value
    match getnum value false with
    | none => none
    | some (day, value) => some ({ f with day := day }, value)
  | _ => none

/-- The loop of `parse`: each round processes one chunk of the layout. -/
def parseLoop (alayout avalue : GoString) :
    List Chunk → GoString → Fields → Except ParseError (Fields × GoString)
  | [], value, f => .ok (f, value)
  | c :: cs, value, f =>
    match skip value c.pfx with
    | (value, true) => .error ⟨alayout, avalue, c.pfx, value, []⟩
    | (value, false) =>
      let hold := value
      match parseElem c.std value f with
      | none => .error ⟨alayout, avalue, c.stdstr, hold, []⟩
      | some (f, value) => parseLoop alayout avalue cs value f

/-- `parse` with `defaultLocation = UTC`, for layouts without zone elements. -/
def parse (layout : Layout) (avalue : GoString) : Except ParseError Time :=
  match parseLoop layout.text avalue layout.chunks avalue ⟨0, -1, -1⟩ with
  | .error e => .error e
  | .ok (f, value) =>
    -- the last result of `nextStdChunk` has `std == 0`
    match skip value layout.rest with
    | (value, true) => .error ⟨layout.text, avalue, layout.rest, value, []⟩
    | (value, false) =>
      if value.length ≠ 0 then
        .error ⟨layout.text, avalue, [], value, ": extra text: ".toList ++ quote value⟩
      else
        let month := if f.month < 0 then 1 else f.month
        let day := if f.day < 0 then 1 else f.day
        -- Validate the day of the month.
        if day < 1 ∨ day > daysIn month f.year then
          .error ⟨layout.text, avalue, [], value, ": day out of range".toList⟩
        else .ok (Date f.year month day 0 0 0 0)

/-- `time.Parse`. -/
def Parse (layout : Layout) (value : GoString) : Except ParseError Time := parse layout value

end time

/-! ## Package `strconv` (`atoi.go`, `itoa.go`) -/

namespace strconv

/-- The two causes of a `NumError`: `ErrSyntax` and `ErrRange`. -/
inductive NumErrKind
  | syntaxErr
  | rangeErr
deriving DecidableEq

/-- A `strconv.NumError`. -/
structure NumError where
  Func : GoString
  Num : GoString
  Err : NumErrKind
deriving DecidableEq

/-- `lower(c)`: `c | ('x' - 'X')`. -/
def lower (c : Nat) : Nat := c ||| 32

/-- The digit loop of `ParseUint` for a fixed base (`base != 0`, so underscores are
not accepted). -/
def parseUintLoop (s0 : GoString) (base cutoff maxVal : Nat) :
    GoString → Nat → Nat × Option NumError
  | [], n => (n, none)
  | ch :: s, n =>
    let c := ch.toNat
    if 48 ≤ c ∧ c ≤ 57 ∨ 97 ≤ lower c ∧ lower c ≤ 122 then
      let d := if 48 ≤ c ∧ c ≤ 57 then c - 48 else lower c - 97 + 10
      if d ≥ base then (0, some ⟨"ParseUint".toList, s0, .syntaxErr⟩)
      else if n ≥ cutoff then
        -- n*base overflows
        (maxVal, some ⟨"ParseUint".toList, s0, .rangeErr⟩)
      else
        let n := n * base
        let n1 := (n + d) % 18446744073709551616
        if n1 < n ∨ n1 > maxVal then
          -- n+d overflows
          (maxVal, some ⟨"ParseUint".toList, s0, .rangeErr⟩)
        else parseUintLoop s0 base cutoff maxVal s n1
    else (0, some ⟨"ParseUint".toList, s0, .syntaxErr⟩)

/-- `strconv.ParseUint` for `2 ≤ base ≤ 36` and `0 < bitSize ≤ 64` (the program passes
`10` and `64`). -/
def ParseUint (s : GoString) (base bitSize : Nat) : Nat × Option NumError :=
  if s = [] then (0, some ⟨"ParseUint".toList, s, .syntaxErr⟩)
  else
    -- Cutoff is the smallest number such that cutoff*base > maxUint64.
    let cutoff := 18446744073709551615 / base + 1
    let maxVal := 2 ^ bitSize - 1
    parseUintLoop s base cutoff maxVal s 0

/-- `strconv.ParseInt` for `2 ≤ base ≤ 36` and `0 < bitSize ≤ 64`. -/
def ParseInt (s : GoString) (base bitSize : Nat) : Int × Option NumError :=
  if s = [] then (0, some ⟨"ParseInt".toList, s, .syntaxErr⟩)
  else
    -- Pick off leading sign.
    let s0 := s
    let neg := s.head? = some '-'
    let s := if s.head? = some '+' ∨ s.head? = some '-' then s.drop 1 else s
    -- Convert unsigned and check range.
    match ParseUint s base bitSize with
    | (_, some ⟨_, _, .syntaxErr⟩) => (0, some ⟨"ParseInt".toList, s0, .syntaxErr⟩)
    | (un, _) =>
      let cutoff := 2 ^ (bitSize - 1)
      if !neg ∧ un ≥ cutoff then ((cutoff : Int) - 1, some ⟨"ParseInt".toList, s0, .rangeErr⟩)
      else if neg ∧ un > cutoff then (-(cutoff : Int), some ⟨"ParseInt".toList, s0, .rangeErr⟩)
      else
        let n := wrap64 un
        (if neg then wrap64 (-n) else n, none)

/-- `formatBits` in base 10: an optional minus sign and the decimal digits of `u`.
The library produces the digits two at a time from a table (and `FormatInt` reads
values below 100 from the same table); the text is that of the plain digit loop. -/
def formatBits (u : Nat) (neg : Bool) : GoString :=
  (if neg then ['-'] else []) ++ decimalLoop 19 u []

/-- `strconv.FormatInt(i, 10)` (also `AppendInt`). -/
def FormatInt (i : Int) : GoString :=
  formatBits (if i < 0 then toUint64 (-i) else toUint64 i) (i < 0)

end strconv

/-! ## Package `encoding/json` (`encode.go`, `stream.go`) -/

namespace json

/-- The table `hex`. -/
def hex (d : Nat) : Char := "0123456789abcdef".toList.getD d '0'

/-- The table `htmlSafeSet`: the ASCII bytes that need no escaping in a JSON string
embedded in HTML: all from `' '` to `0x7f` except the double quote, `&`, `<`, `>` and
the backslash. -/
def htmlSafeSet (b : Nat) : Bool :=
  32 ≤ b && b < 128 && b != 34 && b != 38 && b != 60 && b != 62 && b != 92

/-- Continuation byte of a UTF-8 sequence. -/
def isCont (b : Nat) : Bool := 128 ≤ b && b ≤ 191

/-- The width reported by `utf8.DecodeRuneInString` on a string that starts with a byte
at or above `RuneSelf`: the length of the well-formed sequence at the front, `1` with
`RuneError` (coded as `0` here) when there is none. -/
def runeSize (s : List Nat) : Nat :=
  match s with
  | b0 :: b1 :: rest =>
    if 194 ≤ b0 ∧ b0 ≤ 223 then (if isCont b1 then 2 else 0)
    else
      match rest with
      | b2 :: rest =>
        if 224 ≤ b0 ∧ b0 ≤ 239 then
          let lo := if b0 = 224 then 160 else 128
          let hi := if b0 = 237 then 159 else 191
          if lo ≤ b1 ∧ b1 ≤ hi ∧ isCont b2 then 3 else 0
        else
          match rest with
          | b3 :: _ =>
            if 240 ≤ b0 ∧ b0 ≤ 244 then
              let lo := if b0 = 240 then 144 else 128
              let hi := if b0 = 244 then 143 else 191
              if lo ≤ b1 ∧ b1 ≤ hi ∧ isCont b2 ∧ isCont b3 then 4 else 0
            else 0
          | [] => 0
      | [] => 0
  | _ => 0

/-- The loop of `encodeState.string` with `escapeHTML = true`: the text between the
quotes.  Each round consumes at least one byte, so `s.length` rounds are enough
(`stringLoop_rounds`). -/
def stringLoop : Nat → GoString → GoString
  | 0, _ => []
  | _, [] => []
  | fuel + 1, ch :: s =>
    let b := ch.toNat
    if b < 128 then
      if htmlSafeSet b then ch :: stringLoop fuel s
      else if ch = '\\' ∨ b = 34 then '\\' :: ch :: stringLoop fuel s
      else if ch = '\n' then '\\' :: 'n' :: stringLoop fuel s
      else if ch = '\r' then '\\' :: 'r' :: stringLoop fuel s
      else if ch = '\t' then '\\' :: 't' :: stringLoop fuel s
      else
        -- This encodes bytes < 0x20 except for \t, \n and \r, and <, > and &.
        '\\' :: 'u' :: '0' :: '0' :: hex (b / 16) :: hex (b % 16) :: stringLoop fuel s
    else
      let size := runeSize ((ch :: s).map Char.toNat)
      if size = 0 then "\\ufffd".toList ++ stringLoop fuel s
      else if (ch :: s).take 3 = [Char.ofNat 226, Char.ofNat 128, Char.ofNat 168] then
        "\\u2028".toList ++ stringLoop fuel (s.drop 2)
      else if (ch :: s).take 3 = [Char.ofNat 226, Char.ofNat 128, Char.ofNat 169] then
        "\\u2029".toList ++ stringLoop fuel (s.drop 2)
      else (ch :: s).take size ++ stringLoop fuel (s.drop (size - 1))

/-- `encodeState.string`: a JSON string literal. -/
def encodeString (s : GoString) : GoString :=
  [Char.ofNat 34] ++ stringLoop s.length s ++ [Char.ofNat 34]

end json

/-! ## `main.go` -/

/-- Timestamp represents the timestamp returned to the user. -/
structure Timestamp where
  Unix : Option Int
  Natural : Option GoString
deriving DecidableEq

/-- The Go errors this program produces: the result of `errors.New` and a
`*time.ParseError`. -/
inductive GoError
  | errorString (s : GoString)
  | parseError (e : time.ParseError)
deriving DecidableEq

/-- The method `Error` of the two error types. -/
def GoError.Error : GoError → GoString
  | .errorString s => s
  | .parseError e => e.Error

/-- Function parseTimestamp will parse a unix timestamp into a Timestamp struct to
return as json. -/
def parseTimestamp (timestamp : Int) : Timestamp × Option GoError :=
  if timestamp < 0 then
    (⟨none, none⟩, some (.errorString "Invalid Timestamp: less than 0".toList))
  else
    let t := time.Unix timestamp 0
    let unix := t.Unix
    let natural := t.UTC.String
    (⟨some unix, some natural⟩, none)

/-- Function parseTimestring will parse a human readable date format matching the
specified layout into a Timestamp struct. -/
def parseTimestring (timestamp : GoString) : Timestamp × Option GoError :=
  let layout := time.dateLayout
  match time.Parse layout timestamp with
  | .error err => (⟨none, none⟩, some (.parseError err))
  | .ok t =>
    let unix := t.Unix
    let natural := t.UTC.String
    (⟨some unix, some natural⟩, none)

/-- The resolve step of `dateParserMiddleware` (lines 49-60): check for integer value;
if integer parse timestamp, if string parse string. -/
def resolve (timeArg : GoString) : Timestamp × Option GoError :=
  match strconv.ParseInt timeArg 10 64 with
  | (tInt, none) => parseTimestamp tInt
  | (_, some _) => parseTimestring timeArg

/-- The JSON encoding of a `Timestamp` (`json.Marshal`): the two fields in
declaration order under their tags; a nil pointer is `null`. -/
def Timestamp.marshal (t : Timestamp) : GoString :=
  "\x7b\"unix\":".toList ++
    (match t.Unix with
     | none => "null".toList
     | some u => strconv.FormatInt u) ++
    ",\"natural\":".toList ++
    (match t.Natural with
     | none => "null".toList
     | some s => json.encodeString s) ++
    "\x7d".toList

/-- An `http.ResponseWriter` as the test server records it: the header map, the status
code (`0` until `WriteHeader` is called) and the body written so far. -/
structure ResponseWriter where
  header : List (GoString × GoString)
  status : Nat
  body : GoString
deriving DecidableEq

/-- The part of an `http.Request` the handlers read: the route variable `date`
(`mux.Vars(r)["date"]`) and the context value stored under `timestampType`. -/
structure Request where
  date : GoString
  ctx : Option Timestamp
deriving DecidableEq

/-- An `http.HandlerFunc`; `none` is a panic. -/
abbrev HandlerFunc := ResponseWriter → Request → Option ResponseWriter

/-- `w.Header().Set(key, value)`. -/
def ResponseWriter.Set (w : ResponseWriter) (key value : GoString) : ResponseWriter :=
  { w with header := (w.header.filter (fun kv => kv.1 ≠ key)) ++ [(key, value)] }

/-- `w.WriteHeader(code)`: the first call fixes the status code. -/
def ResponseWriter.WriteHeader (w : ResponseWriter) (code : Nat) : ResponseWriter :=
  if w.status = 0 then { w with status := code } else w

/-- `json.NewEncoder(w).Encode(t)`: writes the JSON encoding of `t` to the stream,
followed by a newline character; writing the body fixes the status code to 200 if
none was written. -/
def ResponseWriter.Encode (w : ResponseWriter) (t : Timestamp) : ResponseWriter :=
  let w := if w.status = 0 then { w with status := 200 } else w
  { w with body := w.body ++ t.marshal ++ ['\n'] }

def StatusOK : Nat := 200
def StatusBadRequest : Nat := 400

/-- Function errorHandler handles responses to bad requests to the api endpoints. -/
def errorHandler : HandlerFunc := fun w _ =>
  let w := w.Set "X-Status-Reason".toList
    "Invalid date time format, refer to documentation.".toList
  let w := w.WriteHeader StatusBadRequest
  some (w.Encode ⟨none, none⟩)

/-- Function unixTimeStamp will handle a request to process a unix style integer
timestamp. -/
def unixTimeStamp : HandlerFunc := fun w r =>
  match r.ctx with
  | none => none
  | some t =>
    let w := w.WriteHeader StatusOK
    some (w.Encode t)

/-- Function naturalTimeStamp will process a human readable timestamp in the format
January 2, 2017. -/
def naturalTimeStamp : HandlerFunc := fun w r =>
  match r.ctx with
  | none => none
  | some t =>
    let w := w.WriteHeader StatusOK
    some (w.Encode t)

def jsonMiddleware (h : HandlerFunc) : HandlerFunc := fun w r =>
  let w := w.Set "Content-Type".toList "application/json; charset=UTF-8".toList
  h w r

def dateParserMiddleware (h : HandlerFunc) : HandlerFunc := fun w r =>
  -- Get date from route parameter
  let timeArg := r.date
  if timeArg = [] then errorHandler w r
  else
    let (t, e) := resolve timeArg
    -- If either parse function returned an error, call the error handler and
    -- return early
    if e ≠ none then errorHandler w r
    else
      -- create new context with Timestamp
      let r := { r with ctx := some t }
      h w r

/-- The routes registered by `app`, and the outcome of the router that runs no handler
of this program. -/
inductive Route
  | index        -- "/"
  | unixRoute    -- "/{date:[0-9]+}"
  | naturalRoute -- "/{date}"
  | noRoute      -- 301 to the clean path when the path is not clean, 404 otherwise
deriving DecidableEq

/-- The route the router of `app` selects for the path `"/" ++ seg` (the path after
percent-decoding).  A path that `path.Clean` changes is redirected before matching
(`"/."`, `"/.."`, and paths with an empty, `.` or `..` segment); routes are tried in
registration order; a variable without a pattern matches `[^/]+`; patterns are
anchored, so a path of more than one segment matches no route. -/
def app (seg : GoString) : Route :=
  if seg = ".".toList ∨ seg = "..".toList ∨ seg.any (fun c => c = '/') then .noRoute
  else if seg = [] then .index
  else if seg.all (fun c => 48 ≤ c.toNat ∧ c.toNat ≤ 57) then .unixRoute
  else .naturalRoute

/-- The handler registered for a JSON route. -/
def Route.handler : Route → Option HandlerFunc
  | .unixRoute => some (jsonMiddleware (dateParserMiddleware unixTimeStamp))
  | .naturalRoute => some (jsonMiddleware (dateParserMiddleware naturalTimeStamp))
  | _ => none

/-- The response of a handler to a fresh request whose route variable `date` is
`seg`. -/
def serveWith (h : HandlerFunc) (seg : GoString) : Option ResponseWriter :=
  h ⟨[], 0, []⟩ ⟨seg, none⟩

/-- The response of `app` to `GET /seg` when a JSON route is selected. -/
def serve (seg : GoString) : Option ResponseWriter :=
  match (app seg).handler with
  | none => none
  | some h => serveWith h seg

/-! ## The specification side

The calendar of the specification is the proleptic Gregorian calendar, defined by
counting: a day number is the number of days of the years and months that precede
it.  Decimal text is `Nat.toDigits 10`. -/

namespace Spec

/-- Leap years of the Gregorian calendar. -/
def isLeapYear (y : Nat) : Bool := y % 4 = 0 && (y % 100 ≠ 0 || y % 400 = 0)

/-- Number of days of year `y`. -/
def daysInYear (y : Nat) : Nat := if isLeapYear y then 366 else 365

/-- Number of days of month `m` (1 to 12) of year `y`. -/
def daysInMonth (y m : Nat) : Nat :=
  match m with
  | 1 => 31 | 2 => if isLeapYear y then 29 else 28 | 3 => 31 | 4 => 30
  | 5 => 31 | 6 => 30 | 7 => 31 | 8 => 31
  | 9 => 30 | 10 => 31 | 11 => 30 | 12 => 31
  | _ => 0

/-- Number of days in the years `0 .. y-1`. -/
def daysBeforeYear : Nat → Nat
  | 0 => 0
  | y + 1 => daysBeforeYear y + daysInYear y

/-- Number of days in the months `1 .. k` of year `y`. -/
def daysInMonths (y : Nat) : Nat → Nat
  | 0 => 0
  | k + 1 => daysInMonths y k + daysInMonth y (k + 1)

/-- Number of the day `y-m-d`, counted from `0000-01-01`. -/
def dayNumber (y m d : Nat) : Nat := daysBeforeYear y + daysInMonths y (m - 1) + (d - 1)

/-- Number of days from `1970-01-01` to `y-m-d` (negative before 1970). -/
def daysSinceUnixEpoch (y m d : Nat) : Int := (dayNumber y m d : Int) - dayNumber 1970 1 1

/-- The triple `y-m-d` names a calendar date. -/
def validDate (y m d : Nat) : Prop := 1 ≤ m ∧ m ≤ 12 ∧ 1 ≤ d ∧ d ≤ daysInMonth y m

/-- Epoch seconds of the instant `y-m-d H:M:S` UTC. -/
def epochSeconds (y m d H M S : Nat) : Int :=
  86400 * daysSinceUnixEpoch y m d + 3600 * H + 60 * M + S

/-- Decimal text of `n`, padded with zeros on the left to at least `w` digits. -/
def pad (w n : Nat) : GoString :=
  List.replicate (w - (Nat.toDigits 10 n).length) '0' ++ Nat.toDigits 10 n

/-- Decimal text of an integer. -/
def decimal (i : Int) : GoString :=
  if i < 0 then '-' :: Nat.toDigits 10 i.natAbs else Nat.toDigits 10 i.natAbs

/-- Value of a string of decimal digits. -/
def decimalValue (s : GoString) : Nat := s.foldl (fun a c => 10 * a + (c.toNat - 48)) 0

/-- The string is a non-empty run of decimal digits (it matches `[0-9]+`). -/
def isDigits (s : GoString) : Prop := s ≠ [] ∧ ∀ c ∈ s, 48 ≤ c.toNat ∧ c.toNat ≤ 57

/-- The natural rendering `YYYY-MM-DD HH:MM:SS +0000 UTC` of a UTC instant (the year
has more than four digits from year 10000 on). -/
def render (y m d H M S : Nat) : GoString :=
  pad 4 y ++ "-".toList ++ pad 2 m ++ "-".toList ++ pad 2 d ++ " ".toList ++
    pad 2 H ++ ":".toList ++ pad 2 M ++ ":".toList ++ pad 2 S ++ " +0000 UTC".toList

/-- The fixed shape `YYYY-MM-DD HH:MM:SS +0000 UTC`: a 4-digit year, 2-digit month in
01..12, 2-digit day in 01..31, 2-digit hour in 00..23, 2-digit minute and second in
00..59, and the literal suffix ` +0000 UTC`. -/
def fixedShape (s : GoString) : Prop :=
  ∃ Y Mo D h mi se : Nat, Y ≤ 9999 ∧ 1 ≤ Mo ∧ Mo ≤ 12 ∧ 1 ≤ D ∧ D ≤ 31 ∧ h ≤ 23 ∧ mi ≤ 59 ∧
    se ≤ 59 ∧
    s = [digitByte (Y / 1000), digitByte (Y / 100 % 10), digitByte (Y / 10 % 10),
          digitByte (Y % 10), '-', digitByte (Mo / 10), digitByte (Mo % 10), '-',
          digitByte (D / 10), digitByte (D % 10), ' ', digitByte (h / 10), digitByte (h % 10),
          ':', digitByte (mi / 10), digitByte (mi % 10), ':', digitByte (se / 10),
          digitByte (se % 10)] ++ " +0000 UTC".toList

/-- Full English month names. -/
def monthName (m : Nat) : GoString :=
  match m with
  | 1 => "January".toList | 2 => "February".toList | 3 => "March".toList
  | 4 => "April".toList | 5 => "May".toList | 6 => "June".toList
  | 7 => "July".toList | 8 => "August".toList | 9 => "September".toList
  | 10 => "October".toList | 11 => "November".toList | 12 => "December".toList
  | _ => []

/-- The date string `<full month name> <day>, <4-digit year>`. -/
def dateString (y m d : Nat) : GoString :=
  monthName m ++ " ".toList ++ Nat.toDigits 10 d ++ ", ".toList ++ pad 4 y

/-- The string is spelled `<full month name> <day>, <4-digit year>` to the letter, as
`dateString` spells it, whether or not the day exists in that month. -/
def isDateLayout (s : GoString) : Prop :=
  ∃ y m d : Nat, y ≤ 9999 ∧ 1 ≤ m ∧ m ≤ 12 ∧ 1 ≤ d ∧ d ≤ 99 ∧ s = dateString y m d

/-- The code of a character with ASCII upper-case letters replaced by their lower-case
form. -/
def lowerCode (c : Char) : Nat :=
  if 65 ≤ c.toNat ∧ c.toNat ≤ 90 then c.toNat + 32 else c.toNat

/-- The two strings are equal up to the case of ASCII letters. -/
def sameLetters (a b : GoString) : Prop := a.map lowerCode = b.map lowerCode

/-- The string reads as the date layout `<full month name> <day>, <4-digit year>` when
the case of letters is ignored and a space of the layout stands for one or more
spaces: a full English month name in any letter case, one or more spaces, a day of
one or two digits, a comma, one or more spaces, and a year of four digits.  Whether
the day exists in that month is not part of the layout. -/
def readsAsDate (s : GoString) : Prop :=
  ∃ (m : Nat) (name : GoString) (j k : Nat) (day year : GoString),
    1 ≤ m ∧ m ≤ 12 ∧ sameLetters name (monthName m) ∧ 1 ≤ j ∧ 1 ≤ k ∧
    isDigits day ∧ day.length ≤ 2 ∧ isDigits year ∧ year.length = 4 ∧
    s = name ++ List.replicate j ' ' ++ day ++ [','] ++ List.replicate k ' ' ++ year

/-- The success body `\x7b"unix":<n>,"natural":"<s>"\x7d`. -/
def successBody (u : Int) (s : GoString) : GoString :=
  "\x7b\"unix\":".toList ++ decimal u ++ ",\"natural\":\"".toList ++ s ++ "\"\x7d".toList

/-- The failure body `\x7b"unix":null,"natural":null\x7d`. -/
def nullBody : GoString := "\x7b\"unix\":null,\"natural\":null\x7d".toList

/-- The success response of the JSON routes: status 200, the JSON content type, and
the success body followed by a line feed. -/
def okResponse (u : Int) (s : GoString) : ResponseWriter :=
  { header := [("Content-Type".toList, "application/json; charset=UTF-8".toList)]
    status := 200
    body := successBody u s ++ ['\n'] }

/-- The failure response of the JSON routes: status 400, the JSON content type, the
diagnostic header, and the null body followed by a line feed. -/
def errorResponse : ResponseWriter :=
  { header := [("Content-Type".toList, "application/json; charset=UTF-8".toList),
      ("X-Status-Reason".toList, "Invalid date time format, refer to documentation.".toList)]
    status := 400
    body := nullBody ++ ['\n'] }

end Spec

/-! ## Proofs: calendar arithmetic -/

open time strconv

theorem Spec.daysBeforeYear_closed (y : Nat) :
    Spec.daysBeforeYear y + (y + 99) / 100 = 365 * y + (y + 3) / 4 + (y + 399) / 400 := by
  induction y with
  | zero => rfl
  | succ y ih =>
    simp only [Spec.daysBeforeYear, Spec.daysInYear, Spec.isLeapYear]
    by_cases h4 : y % 4 = 0 <;> by_cases h100 : y % 100 = 0 <;> by_cases h400 : y % 400 = 0 <;>
      simp [h4, h100, h400] <;> omega

theorem isLeap_eq (year : Int) (h : 0 ≤ year) : isLeap year = Spec.isLeapYear year.toNat := by
  obtain ⟨y, rfl⟩ := Int.eq_ofNat_of_zero_le h
  simp only [isLeap, Spec.isLeapYear, Int.toNat_ofNat]
  have e4 : Int.tmod (y : Int) 4 = ((y % 4 : Nat) : Int) := by
    rw [Int.tmod_eq_emod (by omega) (by omega)]; omega
  have e100 : Int.tmod (y : Int) 100 = ((y % 100 : Nat) : Int) := by
    rw [Int.tmod_eq_emod (by omega) (by omega)]; omega
  have e400 : Int.tmod (y : Int) 400 = ((y % 400 : Nat) : Int) := by
    rw [Int.tmod_eq_emod (by omega) (by omega)]; omega
  rw [e4, e100, e400]
  by_cases h4 : y % 4 = 0 <;> by_cases h100 : y % 100 = 0 <;> by_cases h400 : y % 400 = 0 <;>
    simp [h4, h100, h400] <;> omega

/-- The cycle arithmetic of `absDate`: the years elapsed and the day of the year. -/
theorem cycles_spec (d n400 d1 n100 d2 n4 d3 n1 yday y : Nat)
    (h1 : n400 = d / 146097) (h2 : d1 = d - 146097 * n400)
    (h3 : n100 = d1 / 36524 - d1 / 36524 / 4) (h4 : d2 = d1 - 36524 * n100)
    (h5 : n4 = d2 / 1461) (h6 : d3 = d2 - 1461 * n4)
    (h7 : n1 = d3 / 365 - d3 / 365 / 4) (h8 : yday = d3 - 365 * n1)
    (h9 : y = 400 * n400 + 100 * n100 + 4 * n4 + n1) :
    d + y / 100 = 365 * y + y / 4 + y / 400 + yday ∧
      (yday < 365 ∨ yday = 365 ∧ (y + 1) % 4 = 0 ∧ ((y + 1) % 100 ≠ 0 ∨ (y + 1) % 400 = 0)) := by
  have a1 : d = 146097 * n400 + d1 ∧ d1 < 146097 := by omega
  have a2 : d1 = 36524 * n100 + d2 ∧ n100 ≤ 3 ∧ (d2 < 36524 ∨ n100 = 3 ∧ d2 = 36524) := by
    omega
  have a3 : d2 = 1461 * n4 + d3 ∧ d3 < 1461 ∧ n4 ≤ 24 ∧ (n4 = 24 → d3 = 1460 → n100 = 3) := by
    omega
  have a4 : d3 = 365 * n1 + yday ∧ n1 ≤ 3 ∧ (yday < 365 ∨ n1 = 3 ∧ yday = 365 ∧ d3 = 1460) := by
    omega
  have b1 : y / 4 = 100 * n400 + 25 * n100 + n4 := by omega
  have b2 : y / 100 = 4 * n400 + n100 := by omega
  have b3 : y / 400 = n400 := by omega
  refine ⟨by omega, ?_⟩
  rcases a4.2.2 with h | ⟨h, h', h''⟩
  · exact Or.inl h
  · refine Or.inr ⟨h', by omega, ?_⟩
    by_cases hn : n4 = 24
    · have := a3.2.2.2 hn h''
      right; omega
    · left; omega

theorem monthDay_spec (day : Nat) (h : day < 365) :
    1 ≤ (monthDay day).1 ∧ (monthDay day).1 ≤ 12 ∧ 1 ≤ (monthDay day).2 ∧
      daysBefore.getD ((monthDay day).1 - 1) 0 + (monthDay day).2 = day + 1 ∧
      day < daysBefore.getD (monthDay day).1 0 := by
  have hm : day / 31 = 0 ∨ day / 31 = 1 ∨ day / 31 = 2 ∨ day / 31 = 3 ∨ day / 31 = 4 ∨
      day / 31 = 5 ∨ day / 31 = 6 ∨ day / 31 = 7 ∨ day / 31 = 8 ∨ day / 31 = 9 ∨
      day / 31 = 10 ∨ day / 31 = 11 := by omega
  unfold monthDay
  rcases hm with hm | hm | hm | hm | hm | hm | hm | hm | hm | hm | hm | hm <;>
    simp [hm, daysBefore] <;> split_ifs <;> simp <;> omega

theorem daysInMonths_eq (y m : Nat) (h1 : 1 ≤ m) (h2 : m ≤ 13) :
    Spec.daysInMonths y (m - 1) =
      daysBefore.getD (m - 1) 0 + (if Spec.isLeapYear y = true ∧ 3 ≤ m then 1 else 0) := by
  have hm : m = 1 ∨ m = 2 ∨ m = 3 ∨ m = 4 ∨ m = 5 ∨ m = 6 ∨ m = 7 ∨ m = 8 ∨ m = 9 ∨
      m = 10 ∨ m = 11 ∨ m = 12 ∨ m = 13 := by omega
  rcases hm with rfl | rfl | rfl | rfl | rfl | rfl | rfl | rfl | rfl | rfl | rfl | rfl | rfl <;>
    cases hl : Spec.isLeapYear y <;>
    simp [Spec.daysInMonths, Spec.daysInMonth, daysBefore, hl]

theorem daysInMonth_eq (y m : Nat) (h1 : 1 ≤ m) (h2 : m ≤ 12) :
    Spec.daysInMonth y m + daysBefore.getD (m - 1) 0 =
      daysBefore.getD m 0 + (if Spec.isLeapYear y = true ∧ m = 2 then 1 else 0) := by
  have hm : m = 1 ∨ m = 2 ∨ m = 3 ∨ m = 4 ∨ m = 5 ∨ m = 6 ∨ m = 7 ∨ m = 8 ∨ m = 9 ∨
      m = 10 ∨ m = 11 ∨ m = 12 := by omega
  rcases hm with rfl | rfl | rfl | rfl | rfl | rfl | rfl | rfl | rfl | rfl | rfl | rfl <;>
    cases hl : Spec.isLeapYear y <;>
    simp [Spec.daysInMonth, daysBefore, hl]

theorem absDate_unfold (abs : Nat) :
    ∃ n400 d1 n100 d2 n4 d3 n1 yday y : Nat,
      n400 = abs / 86400 / 146097 ∧ d1 = abs / 86400 - 146097 * n400 ∧
      n100 = d1 / 36524 - d1 / 36524 / 4 ∧ d2 = d1 - 36524 * n100 ∧
      n4 = d2 / 1461 ∧ d3 = d2 - 1461 * n4 ∧
      n1 = d3 / 365 - d3 / 365 / 4 ∧ yday = d3 - 365 * n1 ∧
      y = 400 * n400 + 100 * n100 + 4 * n4 + n1 ∧
      absDate abs =
        (if isLeap ((y : Int) + absoluteZeroYear) then
          if yday > 59 then
            (((y : Int) + absoluteZeroYear, (monthDay (yday - 1)).1, (monthDay (yday - 1)).2, yday))
          else if yday = 59 then ((y : Int) + absoluteZeroYear, 2, 29, yday)
          else ((y : Int) + absoluteZeroYear, (monthDay yday).1, (monthDay yday).2, yday)
        else ((y : Int) + absoluteZeroYear, (monthDay yday).1, (monthDay yday).2, yday)) :=
  ⟨_, _, _, _, _, _, _, _, _, rfl, rfl, rfl, rfl, rfl, rfl, rfl, rfl, rfl, rfl⟩

theorem Spec.dayNumber_epoch : Spec.dayNumber 1970 1 1 = 719528 := by
  have h := Spec.daysBeforeYear_closed 1970
  simp only [Spec.dayNumber, Spec.daysInMonths]
  omega

/-- Month and day of the month of a day of the year, without leap day. -/
theorem monthDay_valid (yr day : Nat) (off : Nat) (h : day < 365)
    (hoff : off = if Spec.isLeapYear yr = true ∧ 3 ≤ (monthDay day).1 then 1 else 0) :
    Spec.validDate yr (monthDay day).1 (monthDay day).2 ∧
      Spec.daysInMonths yr ((monthDay day).1 - 1) + ((monthDay day).2 - 1) = day + off := by
  obtain ⟨m1, m12, d1, hsum, hlt⟩ := monthDay_spec day h
  have e1 := daysInMonths_eq yr _ m1 (by omega)
  have e2 := daysInMonth_eq yr _ m1 m12
  have e3 : daysBefore.getD (monthDay day).1 0 ≤
      Spec.daysInMonth yr (monthDay day).1 + daysBefore.getD ((monthDay day).1 - 1) 0 := by
    rw [e2]; omega
  rw [← hoff] at e1
  refine ⟨⟨m1, m12, d1, ?_⟩, ?_⟩ <;> omega

theorem monthDay_ge (day : Nat) (h : day < 365) :
    (59 ≤ day → 3 ≤ (monthDay day).1) ∧ (day < 59 → (monthDay day).1 ≤ 2) := by
  obtain ⟨m1, m12, d1, hsum, hlt⟩ := monthDay_spec day h
  have hm : (monthDay day).1 = 1 ∨ (monthDay day).1 = 2 ∨ 3 ≤ (monthDay day).1 := by omega
  rcases hm with hm | hm | hm
  · rw [hm] at hlt hsum ⊢; simp [daysBefore] at hlt hsum; omega
  · rw [hm] at hlt hsum ⊢; simp [daysBefore] at hlt hsum; omega
  · have : (monthDay day).1 - 1 = 2 ∨ (monthDay day).1 - 1 = 3 ∨ (monthDay day).1 - 1 = 4 ∨
        (monthDay day).1 - 1 = 5 ∨ (monthDay day).1 - 1 = 6 ∨ (monthDay day).1 - 1 = 7 ∨
        (monthDay day).1 - 1 = 8 ∨ (monthDay day).1 - 1 = 9 ∨ (monthDay day).1 - 1 = 10 ∨
        (monthDay day).1 - 1 = 11 := by omega
    rcases this with e | e | e | e | e | e | e | e | e | e <;> rw [e] at hsum <;>
      simp [daysBefore] at hsum <;> omega

theorem year_arith (dd y yday : Nat)
    (c1 : dd + 106751990353566 + y / 100 = 365 * y + y / 4 + y / 400 + yday)
    (c2 : yday < 365 ∨ yday = 365 ∧ (y + 1) % 4 = 0 ∧ ((y + 1) % 100 ≠ 0 ∨ (y + 1) % 400 = 0)) :
    292277022399 ≤ y := by
  omega

theorem base_arith (dd y yr yday dby : Nat)
    (c1 : dd + 106751990353566 + y / 100 = 365 * y + y / 4 + y / 400 + yday)
    (hy : y = yr + 292277022399)
    (hclosed : dby + (yr + 99) / 100 = 365 * yr + (yr + 3) / 4 + (yr + 399) / 400) :
    dby + yday = dd := by
  omega

theorem leap_arith (y yr : Nat) (hy : y = yr + 292277022399) :
    Spec.isLeapYear yr = true ↔
      (y + 1) % 4 = 0 ∧ ((y + 1) % 100 ≠ 0 ∨ (y + 1) % 400 = 0) := by
  simp only [Spec.isLeapYear, Bool.and_eq_true, Bool.or_eq_true, decide_eq_true_eq, hy,
    Bool.decide_eq_true, bne_iff_ne, ne_eq, decide_not, Bool.not_eq_true', decide_eq_false_iff_not]
  omega

/-- The date `absDate` computes for an absolute time in year 0 or later: a calendar
date whose day number is the number of whole days elapsed since `0000-01-01`. -/
theorem absDate_spec (abs dd : Nat) (habs : abs / 86400 = dd + 106751990353566) :
    ∃ yr : Nat, (absDate abs).1 = (yr : Int) ∧
      Spec.validDate yr (absDate abs).2.1 (absDate abs).2.2.1 ∧
      Spec.dayNumber yr (absDate abs).2.1 (absDate abs).2.2.1 = dd := by
  obtain ⟨n400, d1, n100, d2, n4, d3, n1, yday, y, h1, h2, h3, h4, h5, h6, h7, h8, h9, he⟩ :=
    absDate_unfold abs
  obtain ⟨c1, c2⟩ := cycles_spec _ n400 d1 n100 d2 n4 d3 n1 yday y h1 h2 h3 h4 h5 h6 h7 h8 h9
  rw [habs] at c1
  clear h1 h2 h3 h4 h5 h6 h7 h8 h9 habs
  have hy0 := year_arith _ _ _ c1 c2
  obtain ⟨yr, hy⟩ : ∃ yr : Nat, y = yr + 292277022399 := ⟨y - 292277022399, by omega⟩
  have hyr : (y : Int) + absoluteZeroYear = (yr : Int) := by
    simp only [absoluteZeroYear]; omega
  have hleap : isLeap ((y : Int) + absoluteZeroYear) = Spec.isLeapYear yr := by
    rw [hyr, isLeap_eq _ (by omega)]; simp
  have hleapP := leap_arith y yr hy
  have hbase := base_arith _ _ _ _ _ c1 hy (Spec.daysBeforeYear_closed yr)
  have hyd : yday < 365 ∨ yday = 365 ∧ Spec.isLeapYear yr = true := by
    rcases c2 with c | ⟨c, c'⟩
    · exact Or.inl c
    · exact Or.inr ⟨c, hleapP.2 c'⟩
  clear c1 c2 hleapP
  refine ⟨yr, ?_, ?_⟩
  · rw [he, ← hyr]; split_ifs <;> rfl
  rw [he, hleap]
  simp only [Spec.dayNumber]
  by_cases hl : Spec.isLeapYear yr = true
  · rw [if_pos hl]
    by_cases g1 : yday > 59
    · rw [if_pos g1]; dsimp only
      have hlt : yday - 1 < 365 := by omega
      have hge := (monthDay_ge (yday - 1) hlt).1 (by omega)
      obtain ⟨v, s⟩ := monthDay_valid yr (yday - 1) 1 hlt (by rw [if_pos ⟨hl, hge⟩])
      exact ⟨v, by omega⟩
    · rw [if_neg g1]
      by_cases g2 : yday = 59
      · rw [if_pos g2]; dsimp only
        refine ⟨⟨by omega, by omega, by omega, ?_⟩, ?_⟩
        · simp [Spec.daysInMonth, hl]
        · simp [Spec.daysInMonths, Spec.daysInMonth]; omega
      · rw [if_neg g2]; dsimp only
        have hlt : yday < 365 := by omega
        have hle := (monthDay_ge yday hlt).2 (by omega)
        obtain ⟨v, s⟩ := monthDay_valid yr yday 0 hlt
          (if_neg (fun h => absurd h.2 (by omega))).symm
        exact ⟨v, by omega⟩
  · rw [if_neg hl]; dsimp only
    have hlt : yday < 365 := by
      rcases hyd with c | ⟨_, c⟩
      · exact c
      · exact absurd c hl
    obtain ⟨v, s⟩ := monthDay_valid yr yday 0 hlt (if_neg (fun h => hl h.1)).symm
    exact ⟨v, by omega⟩

/-! ## Proofs: the loops run to completion -/
theorem cutspace_length (s : GoString) : (cutspace s).length ≤ s.length := by
  induction s with
  | nil => exact Nat.le_refl _
  | cons c s ih =>
    unfold cutspace
    split_ifs
    · simp only [List.length_cons]; omega
    · exact Nat.le_refl _

/-- The loop of `skip` does not depend on the number of rounds allowed once that
number reaches the length of the literal text: `skip` never stops for lack of rounds. -/
theorem skipLoop_rounds (n : Nat) : ∀ (m : Nat) (value pfx : GoString),
    pfx.length ≤ n → pfx.length ≤ m → skipLoop n value pfx = skipLoop m value pfx := by
  induction n with
  | zero =>
    intro m value pfx h1 _
    have : pfx = [] := List.length_eq_zero.mp (by omega)
    subst this
    cases m <;> rfl
  | succ n ih =>
    intro m value pfx h1 h2
    cases pfx with
    | nil => cases m <;> rfl
    | cons p ps =>
      obtain ⟨m, rfl⟩ : ∃ k, m = k + 1 := ⟨m - 1, by simp only [List.length_cons] at h2; omega⟩
      simp only [List.length_cons] at h1 h2
      have hc := cutspace_length (p :: ps)
      simp only [skipLoop]
      split_ifs with hp
      · rfl
      · have hlen : (cutspace (p :: ps)).length ≤ ps.length := by
          unfold cutspace; rw [if_pos hp]; exact cutspace_length ps
        exact ih _ _ _ (by omega) (by omega)
      · rfl
      · exact ih _ _ _ (by omega) (by omega)

/-- The loop of `encodeState.string` does not depend on the number of rounds allowed
once that number reaches the length of the string. -/
theorem stringLoop_rounds (n : Nat) : ∀ (m : Nat) (s : GoString),
    s.length ≤ n → s.length ≤ m → json.stringLoop n s = json.stringLoop m s := by
  induction n with
  | zero =>
    intro m s h1 _
    have : s = [] := List.length_eq_zero.mp (by omega)
    subst this
    cases m <;> rfl
  | succ n ih =>
    intro m s h1 h2
    cases s with
    | nil => cases m <;> rfl
    | cons c s =>
      obtain ⟨m, rfl⟩ : ∃ k, m = k + 1 := ⟨m - 1, by simp only [List.length_cons] at h2; omega⟩
      simp only [List.length_cons] at h1 h2
      have e1 := ih m s (by omega) (by omega)
      have e2 := fun k => ih m (s.drop k) (by rw [List.length_drop]; omega)
        (by rw [List.length_drop]; omega)
      simp only [json.stringLoop, e1, e2]

/-! ## Proofs: decimal text -/

theorem digitChar_eq (d : Nat) (h : d < 10) : Nat.digitChar d = digitByte d := by
  have hd : d = 0 ∨ d = 1 ∨ d = 2 ∨ d = 3 ∨ d = 4 ∨ d = 5 ∨ d = 6 ∨ d = 7 ∨ d = 8 ∨ d = 9 := by
    omega
  rcases hd with rfl | rfl | rfl | rfl | rfl | rfl | rfl | rfl | rfl | rfl <;> rfl

theorem digitByte_toNat (d : Nat) (h : d < 10) : (digitByte d).toNat = 48 + d := by
  have hd : d = 0 ∨ d = 1 ∨ d = 2 ∨ d = 3 ∨ d = 4 ∨ d = 5 ∨ d = 6 ∨ d = 7 ∨ d = 8 ∨ d = 9 := by
    omega
  rcases hd with rfl | rfl | rfl | rfl | rfl | rfl | rfl | rfl | rfl | rfl <;> rfl

theorem toDigitsCore_eq_decimalLoop (fuel : Nat) :
    ∀ (F u : Nat) (buf : GoString), u < 10 ^ (fuel + 1) → u < F →
      Nat.toDigitsCore 10 F u buf = decimalLoop fuel u buf := by
  induction fuel with
  | zero =>
    intro F u buf h1 h2
    obtain ⟨F, rfl⟩ : ∃ F', F = F' + 1 := ⟨F - 1, by omega⟩
    have h3 : u / 10 = 0 := by omega
    simp only [Nat.toDigitsCore, h3, if_true, decimalLoop]
    rw [digitChar_eq _ (by omega)]
  | succ fuel ih =>
    intro F u buf h1 h2
    obtain ⟨F, rfl⟩ : ∃ F', F = F' + 1 := ⟨F - 1, by omega⟩
    simp only [Nat.toDigitsCore, decimalLoop]
    have hmod : u - u / 10 * 10 = u % 10 := by omega
    by_cases h : u ≥ 10
    · have h3 : u / 10 ≠ 0 := by omega
      rw [if_neg h3, if_pos h, hmod, digitChar_eq _ (by omega)]
      apply ih
      · rw [pow_succ] at h1; omega
      · omega
    · have h3 : u / 10 = 0 := by omega
      rw [if_pos h3, if_neg h, digitChar_eq _ (by omega)]
      congr 2; omega

theorem toDigits_eq_decimalLoop (fuel u : Nat) (h : u < 10 ^ (fuel + 1)) :
    Nat.toDigits 10 u = decimalLoop fuel u [] :=
  toDigitsCore_eq_decimalLoop fuel (u + 1) u [] h (by omega)

theorem decimalLoop_acc (fuel : Nat) : ∀ (u : Nat) (buf : GoString),
    decimalLoop fuel u buf = decimalLoop fuel u [] ++ buf := by
  induction fuel with
  | zero => intro u buf; simp [decimalLoop]
  | succ fuel ih =>
    intro u buf
    simp only [decimalLoop]
    split
    · rw [ih, ih _ [_]]; simp
    · simp

/-- Decimal text, digit by digit. -/
theorem toDigits_step (u : Nat) (h : 10 ≤ u) :
    Nat.toDigits 10 u = Nat.toDigits 10 (u / 10) ++ [digitByte (u % 10)] := by
  have hlt : u < 10 ^ (u + 1 + 1) := by
    calc u < 2 ^ u := Nat.lt_two_pow u
      _ ≤ 10 ^ u := Nat.pow_le_pow_left (by omega) u
      _ ≤ 10 ^ (u + 1 + 1) := Nat.pow_le_pow_right (by omega) (by omega)
  have hlt' : u / 10 < 10 ^ (u + 1) := by
    rw [pow_succ 10 (u + 1)] at hlt; omega
  rw [toDigits_eq_decimalLoop (u + 1) u hlt, toDigits_eq_decimalLoop u (u / 10) hlt']
  simp only [decimalLoop]
  rw [if_pos h, decimalLoop_acc]
  congr 3; omega

theorem toDigits_small (u : Nat) (h : u < 10) : Nat.toDigits 10 u = [digitByte u] := by
  rw [toDigits_eq_decimalLoop 0 u (by omega)]
  simp only [decimalLoop]
  congr 2; omega

theorem toDigits_two (u : Nat) (h1 : 10 ≤ u) (h2 : u < 100) :
    Nat.toDigits 10 u = [digitByte (u / 10), digitByte (u % 10)] := by
  rw [toDigits_step u h1, toDigits_small _ (by omega)]; rfl

theorem pad2 (u : Nat) (h : u < 100) : Spec.pad 2 u = [digitByte (u / 10), digitByte (u % 10)] := by
  unfold Spec.pad
  by_cases h1 : 10 ≤ u
  · rw [toDigits_two u h1 h]; rfl
  · rw [toDigits_small u (by omega)]
    have e1 : u / 10 = 0 := by omega
    have e2 : u % 10 = u := by omega
    rw [e1, e2]; rfl

theorem pad4 (u : Nat) (h : u < 10000) :
    Spec.pad 4 u =
      [digitByte (u / 1000), digitByte (u / 100 % 10), digitByte (u / 10 % 10),
        digitByte (u % 10)] := by
  unfold Spec.pad
  by_cases h1 : 10 ≤ u
  · by_cases h2 : 100 ≤ u
    · by_cases h3 : 1000 ≤ u
      · rw [toDigits_step u h1, toDigits_step (u / 10) (by omega),
          toDigits_two (u / 10 / 10) (by omega) (by omega)]
        have e1 : u / 10 / 10 / 10 = u / 1000 := by omega
        have e2 : u / 10 / 10 % 10 = u / 100 % 10 := by omega
        rw [e1, e2]; rfl
      · rw [toDigits_step u h1, toDigits_two (u / 10) (by omega) (by omega)]
        have e1 : u / 1000 = 0 := by omega
        have e2 : u / 10 / 10 = u / 100 % 10 := by omega
        rw [e1, e2]; rfl
    · rw [toDigits_two u h1 (by omega)]
      have e1 : u / 1000 = 0 := by omega
      have e2 : u / 100 % 10 = 0 := by omega
      have e3 : u / 10 % 10 = u / 10 := by omega
      rw [e1, e2, e3]; rfl
  · rw [toDigits_small u (by omega)]
    have e1 : u / 1000 = 0 := by omega
    have e2 : u / 100 % 10 = 0 := by omega
    have e3 : u / 10 % 10 = 0 := by omega
    have e4 : u % 10 = u := by omega
    rw [e1, e2, e3, e4]; rfl

theorem countDigits_zero (fuel n : Nat) : countDigits fuel 0 n = n := by
  cases fuel <;> simp [countDigits]

theorem countDigits_eq (fuel : Nat) : ∀ (u n : Nat), 0 < u → u < 10 ^ fuel →
    countDigits fuel u n = n + (Nat.toDigits 10 u).length := by
  induction fuel with
  | zero => intro u n h0 h1; simp only [pow_zero] at h1; omega
  | succ fuel ih =>
    intro u n h0 h1
    simp only [countDigits, h0, if_true]
    by_cases h : 10 ≤ u
    · rw [ih (u / 10) (n + 1) (by omega) (by rw [pow_succ] at h1; omega), toDigits_step u h]
      simp only [List.length_append, List.length_singleton]; omega
    · have e : u / 10 = 0 := by omega
      rw [e, countDigits_zero, toDigits_small u (by omega)]; rfl

theorem appendInt_nonneg (b : GoString) (x : Nat) (w : Nat) (h : x < 18446744073709551616) :
    appendInt b (x : Int) w = b ++ Spec.pad w x := by
  unfold appendInt
  have hx : ¬ ((x : Int) < 0) := by omega
  simp only [hx, if_false]
  have hu : toUint64 (x : Int) = x := by
    unfold toUint64; omega
  rw [hu]
  by_cases h2 : w = 2 ∧ x < 100
  · rw [if_pos h2, h2.1, pad2 x h2.2]
  · rw [if_neg h2]
    by_cases h4 : w = 4 ∧ x < 10000
    · rw [if_pos h4, h4.1, pad4 x h4.2]
    · rw [if_neg h4]
      have hn : countDigits 20 x (if x = 0 then 1 else 0) = (Nat.toDigits 10 x).length := by
        by_cases h0 : x = 0
        · subst h0; rfl
        · rw [if_neg h0, countDigits_eq 20 x 0 (by omega) (by omega)]; omega
      simp only [hn]
      unfold Spec.pad
      rw [← toDigits_eq_decimalLoop 19 x (by omega), List.append_assoc]

/-! ## Proofs: `Time.Unix` and `Time.String` -/

theorem unixTime_Unix (u : Int) (h1 : -9223372036854775808 ≤ u) (h2 : u < 9223372036854775808) :
    (unixTime u 0).Unix = u := by
  simp only [Time.Unix, Time.unixSec, Time.sec, unixTime, hasMonotonic, wrap64, unixToInternal,
    internalToUnix]
  norm_num
  omega

theorem unixTime_locabs (u : Int) (h1 : -9223372028715321600 ≤ u)
    (h2 : u < 9223372036854775808) :
    (unixTime u 0).locabs = ("UTC".toList, 0, (u + 9223372028715321600).toNat) := by
  have hu := unixTime_Unix u (by omega) h2
  simp only [Time.Unix] at hu
  simp only [Time.locabs, hu, toUint64, unixToInternal, internalToAbsolute, absoluteToInternal,
    absoluteZeroYear, internalYear]
  norm_num
  omega

theorem absClock_spec (abs : Nat) :
    (absClock abs).1 < 24 ∧ (absClock abs).2.1 < 60 ∧ (absClock abs).2.2 < 60 ∧
      3600 * (absClock abs).1 + 60 * (absClock abs).2.1 + (absClock abs).2.2 = abs % 86400 := by
  simp only [absClock, secondsPerDay, secondsPerHour, secondsPerMinute]
  omega

theorem formatNano_zero (b : GoString) : formatNano b 0 = b := rfl

theorem String_of_locabs (t : Time) (abs : Nat) (yr m d : Nat) (hw : t.wall = 0)
    (hloc : t.locabs = ("UTC".toList, 0, abs))
    (hy : (absDate abs).1 = (yr : Int)) (hmo : (absDate abs).2.1 = m)
    (hda : (absDate abs).2.2.1 = d)
    (hyr : yr < 18446744073709551616) (hm : m ≤ 12) (hd : d ≤ 31) :
    t.String =
      Spec.render yr m d (absClock abs).1 (absClock abs).2.1 (absClock abs).2.2 := by
  obtain ⟨c1, c2, c3, -⟩ := absClock_spec abs
  have hnano : t.Nanosecond = 0 := by simp [Time.Nanosecond, Time.nsec, hw]
  have hmono : ¬ (t.wall / hasMonotonic % 2 ≠ 0) := by simp [hw]
  unfold Time.String
  rw [if_neg hmono]
  simp only [Time.Format, Time.AppendFormat, stringLayout, List.foldl, appendChunk, hloc, hnano,
    hy, hmo, hda]
  have hz0 : Int.tdiv 0 60 = 0 := by decide
  have hz1 : ¬ ((0 : Int) < 0) := by decide
  have hz2 : Int.tmod 0 60 = 0 := by decide
  simp only [hz0, hz1, hz2, if_false, formatNano_zero]
  have e0 := fun b => appendInt_nonneg b 0 2 (by omega)
  simp only [Nat.cast_zero] at e0
  rw [appendInt_nonneg _ yr 4 hyr, appendInt_nonneg _ m 2 (by omega),
    appendInt_nonneg _ d 2 (by omega), appendInt_nonneg _ _ 2 (by omega),
    appendInt_nonneg _ _ 2 (by omega), appendInt_nonneg _ _ 2 (by omega), e0, e0]
  have hp : Spec.pad 2 0 = "00".toList := by decide
  rw [hp]
  simp only [Spec.render, List.append_assoc, List.nil_append, List.append_nil]
  rfl

theorem Spec.daysInMonth_le (y m : Nat) : Spec.daysInMonth y m ≤ 31 := by
  unfold Spec.daysInMonth
  split <;> try omega
  split <;> omega

theorem Spec.year_bound (yr m d dd : Nat) (h : Spec.dayNumber yr m d = dd) :
    365 * yr ≤ dd ∧ (dd < 3652425 → yr ≤ 9999) := by
  have hc := Spec.daysBeforeYear_closed yr
  unfold Spec.dayNumber at h
  refine ⟨by omega, by omega⟩

/-- The text `Time.String` gives for a Unix time from year 0 on is the natural
rendering of the calendar date and clock time of that instant. -/
theorem String_unix (u : Int) (hlo : -62167219200 ≤ u) (hhi : u < 9223372036854775808) :
    ∃ yr m d H M S : Nat, Spec.validDate yr m d ∧ H < 24 ∧ M < 60 ∧ S < 60 ∧
      Spec.epochSeconds yr m d H M S = u ∧
      (unixTime u 0).String = Spec.render yr m d H M S ∧
      (u < 253402300800 → yr ≤ 9999) := by
  obtain ⟨dd, hdd⟩ : ∃ dd : Nat,
      (u + 9223372028715321600).toNat / 86400 = dd + 106751990353566 :=
    ⟨(u + 9223372028715321600).toNat / 86400 - 106751990353566, by omega⟩
  obtain ⟨yr, hy, hv, hn⟩ := absDate_spec _ dd hdd
  obtain ⟨c1, c2, c3, c4⟩ := absClock_spec (u + 9223372028715321600).toNat
  have hb := Spec.year_bound yr _ _ dd hn
  have hm31 := Spec.daysInMonth_le yr (absDate (u + 9223372028715321600).toNat).2.1
  refine ⟨yr, _, _, _, _, _, hv, c1, c2, c3, ?_, ?_, ?_⟩
  · simp only [Spec.epochSeconds, Spec.daysSinceUnixEpoch, Spec.dayNumber_epoch, hn]
    omega
  · exact String_of_locabs _ _ yr _ _ rfl (unixTime_locabs u (by omega) hhi) hy rfl rfl
      (by omega) hv.2.1 (by have := hv.2.2.2; omega)
  · intro h; exact hb.2 (by omega)

/-! ## Proofs: `time.Date` -/

theorem norm_id (hi lo base : Int) (h1 : 0 ≤ lo) (h2 : lo < base) : time.norm hi lo base = (hi, lo) := by
  have h : ¬ lo < 0 := by omega
  have h' : ¬ lo ≥ base := by omega
  simp only [time.norm, h, h', if_false]

theorem epoch_arith (Y n400 Y1 n100 Y2 n4 Y3 : Nat)
    (h1 : n400 = Y / 400) (h2 : Y1 = Y - 400 * n400) (h3 : n100 = Y1 / 100)
    (h4 : Y2 = Y1 - 100 * n100) (h5 : n4 = Y2 / 4) (h6 : Y3 = Y2 - 4 * n4) :
    146097 * n400 + 36524 * n100 + 1461 * n4 + 365 * Y3 + Y / 100 =
      365 * Y + Y / 4 + Y / 400 := by
  omega

theorem epoch_final (D Y yr dby : Nat) (e : D + Y / 100 = 365 * Y + Y / 4 + Y / 400)
    (hY : Y = yr + 292277022399)
    (hc : dby + (yr + 99) / 100 = 365 * yr + (yr + 3) / 4 + (yr + 399) / 400)
    (h : yr < 1000000) : D % 18446744073709551616 = dby + 106751990353566 := by
  have h1 : D = dby + 106751990353566 := by omega
  have h2 : dby ≤ 366 * yr := by omega
  omega

theorem daysSinceEpoch_spec (yr : Nat) (h : yr < 1000000) :
    daysSinceEpoch (yr : Int) = Spec.daysBeforeYear yr + 106751990353566 := by
  have hc := Spec.daysBeforeYear_closed yr
  have hY : toUint64 ((yr : Int) - absoluteZeroYear) = yr + 292277022399 := by
    simp only [toUint64, absoluteZeroYear]; omega
  have e := epoch_arith (yr + 292277022399) _ _ _ _ _ _ rfl rfl rfl rfl rfl rfl
  unfold daysSinceEpoch
  rw [hY]
  exact epoch_final _ _ yr _ e rfl hc h

theorem date_wrap (X : Int) (h0 : 0 ≤ X) (h1 : X ≤ 366000400) :
    wrap64 (wrap64 (toUint64 ((X + 106751990353566) * 86400)) + -9223372028715321600) =
      86400 * (X - 719528) := by
  have e1 : (X + 106751990353566) * 86400 % 18446744073709551616 =
      (X + 106751990353566) * 86400 := Int.emod_eq_of_lt (by omega) (by omega)
  simp only [toUint64, wrap64]
  rw [e1, Int.toNat_of_nonneg (by omega)]
  omega

theorem daysBefore_le (m : Nat) : daysBefore.getD m 0 ≤ 365 := by
  by_cases h : m ≤ 12
  · have hm : m = 0 ∨ m = 1 ∨ m = 2 ∨ m = 3 ∨ m = 4 ∨ m = 5 ∨ m = 6 ∨ m = 7 ∨ m = 8 ∨ m = 9 ∨
      m = 10 ∨ m = 11 ∨ m = 12 := by omega
    rcases hm with rfl | rfl | rfl | rfl | rfl | rfl | rfl | rfl | rfl | rfl | rfl | rfl | rfl <;>
      simp [daysBefore]
  · rw [List.getD_eq_default _ _ (by simp [daysBefore]; omega)]; omega

/-- The time `time.Date` builds for a calendar date at midnight UTC. -/
theorem Date_spec (yr m d : Nat) (hy : yr < 1000000) (hv : Spec.validDate yr m d) :
    Date yr m d 0 0 0 0 = unixTime (86400 * Spec.daysSinceUnixEpoch yr m d) 0 := by
  obtain ⟨m1, m12, d1, dle⟩ := hv
  have hm31 := Spec.daysInMonth_le yr m
  have e1 := daysInMonths_eq yr m m1 (by omega)
  have hleap : isLeap (yr : Int) = Spec.isLeapYear yr := by
    rw [isLeap_eq _ (by omega)]; simp
  have hdb : ((m : Int) - 1 + 1 - 1).toNat = m - 1 := by omega
  have hc : absoluteToInternal + internalToUnix = -9223372028715321600 := by decide
  have hcl := Spec.daysBeforeYear_closed yr
  have hb : Spec.daysBeforeYear yr ≤ 366 * yr := by omega
  have hday := daysBefore_le (m - 1)
  have hiff : (Spec.isLeapYear yr = true ∧ (m : Int) - 1 + 1 ≥ 3) ↔
      (Spec.isLeapYear yr = true ∧ 3 ≤ m) :=
    ⟨fun h => ⟨h.1, by omega⟩, fun h => ⟨h.1, by omega⟩⟩
  have hX : Spec.dayNumber yr m d ≤ 366000400 := by
    simp only [Spec.dayNumber, e1]; split_ifs <;> omega
  have key : ∀ E : Int, E = ((Spec.dayNumber yr m d : Int) + 106751990353566) * 86400 →
      unixTime (wrap64 (wrap64 (toUint64 E) + -9223372028715321600)) (Int.toNat 0) =
        unixTime (86400 * ((Spec.dayNumber yr m d : Int) - 719528)) 0 := by
    intro E hE
    rw [hE, date_wrap _ (by omega) (by omega)]
    rfl
  unfold Date
  simp only [norm_id (yr : Int) ((m : Int) - 1) 12 (by omega) (by omega),
    norm_id 0 0 1000000000 (by omega) (by omega), norm_id 0 0 60 (by omega) (by omega),
    norm_id (d : Int) 0 24 (by omega) (by omega), daysSinceEpoch_spec yr hy, hleap, hdb,
    secondsPerDay, secondsPerHour, secondsPerMinute, hc, hiff, Spec.daysSinceUnixEpoch,
    Spec.dayNumber_epoch, Nat.cast_ofNat]
  refine key _ ?_
  simp only [Spec.dayNumber, e1]
  clear key hX hiff hcl hc hdb hleap e1 hm31 dle
  generalize Spec.daysBeforeYear yr = a at *
  generalize daysBefore.getD (m - 1) 0 = b at *
  split_ifs with hl
  · push_cast
    omega
  · push_cast
    omega

/-! ## Proofs: `time.Parse` -/

theorem skip_nil (v : GoString) : skip v [] = (v, false) := rfl

theorem getnum_bound (s : GoString) (fixed : Bool) (day : Int) (v : GoString)
    (h : getnum s fixed = some (day, v)) : ∃ k : Nat, day = (k : Int) := by
  unfold getnum at h
  split_ifs at h
  · simp only [Option.some.injEq, Prod.mk.injEq] at h; exact ⟨_, h.1.symm⟩
  · simp only [Option.some.injEq, Prod.mk.injEq] at h; exact ⟨_, h.1.symm⟩

theorem Parse_ok_inv (s : GoString) (t : Time) (h : Parse dateLayout s = .ok t) :
    ∃ (i : Nat) (day year : Int) (v1 v2 v3 v4 : GoString),
      lookup longMonthNames s = some (i, v1) ∧
      skip v1 " ".toList = (v2, false) ∧
      getnum (if v2.length > 0 ∧ v2.head? = some ' ' then v2.drop 1 else v2) false
        = some (day, v3) ∧
      skip v3 ", ".toList = (v4, false) ∧
      ¬ (v4.length < 4 ∨ (!isDigit v4 0) = true) ∧
      atoi (v4.take 4) = some year ∧
      v4.drop 4 = [] ∧
      ¬ (day < 1 ∨ day > daysIn ((i : Int) + 1) year) ∧
      t = Date year ((i : Int) + 1) day 0 0 0 0 := by
  simp only [Parse, parse, dateLayout, parseLoop, parseElem, skip_nil] at h
  rcases hlk : lookup longMonthNames s with _ | ⟨i, v1⟩
  · simp only [hlk, reduceCtorEq, ↓reduceIte, if_true, if_false] at h
  rcases hsk : skip v1 " ".toList with ⟨v2, b⟩
  cases b
  swap
  · simp only [hlk, hsk, reduceCtorEq, ↓reduceIte, if_true, if_false] at h
  rcases hgn : getnum (if v2.length > 0 ∧ v2.head? = some ' ' then v2.drop 1 else v2) false
    with _ | ⟨day, v3⟩
  · simp only [hlk, hsk, hgn, reduceCtorEq, ↓reduceIte, if_true, if_false] at h
  rcases hsk2 : skip v3 ", ".toList with ⟨v4, b⟩
  cases b
  swap
  · simp only [hlk, hsk, hgn, hsk2, reduceCtorEq, ↓reduceIte, if_true, if_false] at h
  by_cases hlen : v4.length < 4 ∨ (!isDigit v4 0) = true
  · simp only [hlk, hsk, hgn, hsk2, hlen, reduceCtorEq, ↓reduceIte, if_true, if_false] at h
  rcases hat : atoi (v4.take 4) with _ | year
  · simp only [hlk, hsk, hgn, hsk2, hlen, hat, reduceCtorEq, ↓reduceIte, if_true, if_false] at h
  obtain ⟨k, hk⟩ := getnum_bound _ _ _ _ hgn
  have hm : ¬ ((i : Int) + 1 < 0) := by omega
  have hd : ¬ (day < 0) := by omega
  simp only [hlk, hsk, hgn, hsk2, hlen, hat, if_false, hm, hd] at h
  by_cases hex : (List.drop 4 v4).length ≠ 0
  · rw [if_pos hex] at h; exact absurd h (by simp)
  rw [if_neg hex] at h
  by_cases hrange : day < 1 ∨ day > daysIn ((i : Int) + 1) year
  · rw [if_pos hrange] at h; exact absurd h (by simp)
  rw [if_neg hrange] at h
  refine ⟨i, day, year, v1, v2, v3, v4, rfl, hsk, hgn, hsk2, hlen, hat, ?_, hrange, ?_⟩
  · exact List.length_eq_zero.mp (by omega)
  · simp only [Except.ok.injEq] at h; exact h.symm

theorem lookupFrom_bound (tab : List GoString) : ∀ (k : Nat) (s : GoString) (i : Nat)
    (v : GoString), lookupFrom k tab s = some (i, v) → k ≤ i ∧ i < k + tab.length := by
  induction tab with
  | nil => intro k s i v h; simp [lookupFrom] at h
  | cons x tab ih =>
    intro k s i v h
    unfold lookupFrom at h
    split_ifs at h
    · simp only [Option.some.injEq, Prod.mk.injEq] at h
      simp only [List.length_cons]; omega
    · have := ih _ _ _ _ h
      simp only [List.length_cons]; omega

theorem leadingIntLoop_bound : ∀ (s : GoString) (x q : Nat) (rem : GoString),
    leadingIntLoop s x = some (q, rem) → q + 1 ≤ (x + 1) * 10 ^ s.length := by
  intro s
  induction s with
  | nil =>
    intro x q rem h
    simp only [leadingIntLoop, Option.some.injEq, Prod.mk.injEq] at h
    simp only [List.length_nil, pow_zero]; omega
  | cons c s ih =>
    intro x q rem h
    have hp : 0 < 10 ^ s.length := Nat.pow_pos (by omega)
    unfold leadingIntLoop at h
    simp only [List.length_cons, pow_succ]
    simp only at h
    split_ifs at h with h1 h2 h3
    · simp only [Option.some.injEq, Prod.mk.injEq] at h
      have : (x + 1) * 1 ≤ (x + 1) * (10 ^ s.length * 10) := Nat.mul_le_mul_left _ (by omega)
      omega
    · have h' := ih _ _ _ h
      have : (x * 10 + c.toNat - 48 + 1) * 10 ^ s.length ≤ (x * 10 + 10) * 10 ^ s.length :=
        Nat.mul_le_mul_right _ (by omega)
      have e : (x * 10 + 10) * 10 ^ s.length = (x + 1) * (10 ^ s.length * 10) := by ring
      omega

theorem atoi_year (v : GoString) (year : Int)
    (h1 : ¬ (v.length < 4 ∨ (!isDigit v 0) = true)) (h2 : atoi (v.take 4) = some year) :
    ∃ y : Nat, year = (y : Int) ∧ y ≤ 9999 := by
  obtain ⟨c, rest, rfl⟩ : ∃ c rest, v = c :: rest := by
    cases v with
    | nil => simp at h1
    | cons c rest => exact ⟨c, rest, rfl⟩
  have hd : 48 ≤ c.toNat ∧ c.toNat ≤ 57 := by
    simp [isDigit] at h1; exact h1.2
  have hsign : ¬ (c = '-') ∧ ¬ (c = '+') := by
    constructor <;> (rintro rfl; simp at hd)
  unfold atoi at h2
  simp only [List.take_succ_cons, List.head?_cons, Option.some.injEq, hsign.1, hsign.2, or_self,
    if_false] at h2
  rcases hl : leadingInt (c :: List.take 3 rest) with _ | ⟨q, rem⟩
  · simp [hl] at h2
  simp only [hl] at h2
  split_ifs at h2
  have hb := leadingIntLoop_bound _ _ _ _ hl
  have hlen : (c :: List.take 3 rest).length ≤ 4 := by
    simp only [List.length_cons, List.length_take]; omega
  have hpow : 10 ^ (c :: List.take 3 rest).length ≤ 10 ^ 4 := Nat.pow_le_pow_right (by omega) hlen
  simp only [Option.some.injEq] at h2
  refine ⟨q, ?_, by omega⟩
  rw [← h2]; unfold wrap64; omega

theorem daysIn_spec (y m : Nat) (h1 : 1 ≤ m) (h2 : m ≤ 12) :
    daysIn (m : Int) (y : Int) = (Spec.daysInMonth y m : Int) := by
  have hleap : isLeap (y : Int) = Spec.isLeapYear y := by
    rw [isLeap_eq _ (by omega)]; simp
  unfold daysIn
  rw [hleap]
  have hm : m = 1 ∨ m = 2 ∨ m = 3 ∨ m = 4 ∨ m = 5 ∨ m = 6 ∨ m = 7 ∨ m = 8 ∨ m = 9 ∨
      m = 10 ∨ m = 11 ∨ m = 12 := by omega
  rcases hm with rfl | rfl | rfl | rfl | rfl | rfl | rfl | rfl | rfl | rfl | rfl | rfl <;>
    cases hl : Spec.isLeapYear y <;>
    simp [Spec.daysInMonth, daysBefore, hl]

/-- A successful `Parse` with the date layout yields midnight UTC of a calendar date
in the years 0 to 9999. -/
theorem Parse_ok_spec (s : GoString) (t : Time) (h : Parse dateLayout s = .ok t) :
    ∃ y m d : Nat, y ≤ 9999 ∧ Spec.validDate y m d ∧
      t = unixTime (86400 * Spec.daysSinceUnixEpoch y m d) 0 := by
  obtain ⟨i, day, year, v1, v2, v3, v4, hlk, -, hgn, -, hlen, hat, -, hrange, ht⟩ :=
    Parse_ok_inv s t h
  obtain ⟨-, hi⟩ := lookupFrom_bound _ _ _ _ _ hlk
  simp only [longMonthNames, List.length_cons, List.length_nil] at hi
  obtain ⟨k, rfl⟩ := getnum_bound _ _ _ _ hgn
  obtain ⟨y, rfl, hy⟩ := atoi_year v4 year hlen hat
  have hcast : ((i : Int) + 1) = ((i + 1 : Nat) : Int) := by push_cast; rfl
  rw [hcast] at hrange ht
  rw [daysIn_spec y (i + 1) (by omega) (by omega)] at hrange
  have hv : Spec.validDate y (i + 1) k := ⟨by omega, by omega, by omega, by omega⟩
  exact ⟨y, i + 1, k, hy, hv, by rw [ht, Date_spec y (i + 1) k (by omega) hv]⟩

theorem lookup_monthName (m : Nat) (h1 : 1 ≤ m) (h2 : m ≤ 12) (rest : GoString) :
    lookup longMonthNames (Spec.monthName m ++ rest) = some (m - 1, rest) := by
  have hm : m = 1 ∨ m = 2 ∨ m = 3 ∨ m = 4 ∨ m = 5 ∨ m = 6 ∨ m = 7 ∨ m = 8 ∨ m = 9 ∨
      m = 10 ∨ m = 11 ∨ m = 12 := by omega
  rcases hm with rfl | rfl | rfl | rfl | rfl | rfl | rfl | rfl | rfl | rfl | rfl | rfl <;>
    simp [lookup, lookupFrom, longMonthNames, Spec.monthName, match_]

theorem digitByte_ne_space (k : Nat) (h : k < 10) : digitByte k ≠ ' ' := by
  intro e
  have := digitByte_toNat k h
  rw [e] at this
  simp at this
  omega

theorem cutspace_digit (k : Nat) (h : k < 10) (rest : GoString) :
    cutspace (digitByte k :: rest) = digitByte k :: rest := by
  simp [cutspace, digitByte_ne_space k h]

theorem skip_space (k : Nat) (h : k < 10) (rest : GoString) :
    skip (' ' :: digitByte k :: rest) " ".toList = (digitByte k :: rest, false) := by
  simp [skip, skipLoop, cutspace, digitByte_ne_space k h]

theorem skip_comma_space (k : Nat) (h : k < 10) (rest : GoString) :
    skip (',' :: ' ' :: digitByte k :: rest) ", ".toList = (digitByte k :: rest, false) := by
  simp [skip, skipLoop, cutspace, digitByte_ne_space k h]

theorem isDigit_zero (k : Nat) (h : k < 10) (rest : GoString) :
    isDigit (digitByte k :: rest) 0 = true := by
  simp [isDigit, digitByte_toNat k h]; omega

theorem getnum_one (k : Nat) (h : k < 10) (rest : GoString) :
    getnum (digitByte k :: ',' :: rest) false = some ((k : Int), ',' :: rest) := by
  simp [getnum, isDigit, digitByte_toNat k h]; omega

theorem getnum_two (a b : Nat) (ha : a < 10) (hb : b < 10) (rest : GoString) :
    getnum (digitByte a :: digitByte b :: rest) false = some (((a * 10 + b : Nat) : Int), rest) := by
  simp [getnum, isDigit, digitByte_toNat a ha, digitByte_toNat b hb]; omega

theorem leadingInt_four (a b c e : Nat) (ha : a < 10) (hb : b < 10) (hc : c < 10) (he : e < 10) :
    leadingInt [digitByte a, digitByte b, digitByte c, digitByte e] =
      some (a * 1000 + b * 100 + c * 10 + e, []) := by
  have h1 := digitByte_toNat a ha
  have h2 := digitByte_toNat b hb
  have h3 := digitByte_toNat c hc
  have h4 := digitByte_toNat e he
  have g1 : ¬ (48 + a < 48 ∨ 48 + a > 57) := by omega
  have g2 : ¬ (48 + b < 48 ∨ 48 + b > 57) := by omega
  have g3 : ¬ (48 + c < 48 ∨ 48 + c > 57) := by omega
  have g4 : ¬ (48 + e < 48 ∨ 48 + e > 57) := by omega
  have k0 : ¬ (0 > 9223372036854775808 / 10) := by omega
  have k1 : ¬ (0 * 10 + (48 + a) - 48 > 9223372036854775808) := by omega
  have k2 : ¬ (0 * 10 + (48 + a) - 48 > 9223372036854775808 / 10) := by omega
  have k3 : ¬ ((0 * 10 + (48 + a) - 48) * 10 + (48 + b) - 48 > 9223372036854775808) := by omega
  have k4 : ¬ ((0 * 10 + (48 + a) - 48) * 10 + (48 + b) - 48 > 9223372036854775808 / 10) := by
    omega
  have k5 : ¬ (((0 * 10 + (48 + a) - 48) * 10 + (48 + b) - 48) * 10 + (48 + c) - 48 >
      9223372036854775808) := by omega
  have k6 : ¬ (((0 * 10 + (48 + a) - 48) * 10 + (48 + b) - 48) * 10 + (48 + c) - 48 >
      9223372036854775808 / 10) := by omega
  have k7 : ¬ ((((0 * 10 + (48 + a) - 48) * 10 + (48 + b) - 48) * 10 + (48 + c) - 48) * 10 +
      (48 + e) - 48 > 9223372036854775808) := by omega
  simp only [leadingInt, leadingIntLoop, h1, h2, h3, h4, g1, g2, g3, g4, k0, k1, k2, k3, k4, k5,
    k6, k7, if_false, Option.some.injEq, Prod.mk.injEq, and_true]
  omega

theorem parseElem_year (y : Nat) (hy : y ≤ 9999) (f : Fields) :
    parseElem .stdLongYear (Spec.pad 4 y) f = some ({ f with year := (y : Int) }, []) := by
  rw [pad4 y (by omega)]
  have hl := leadingInt_four (y / 1000) (y / 100 % 10) (y / 10 % 10) (y % 10) (by omega)
    (by omega) (by omega) (by omega)
  have hdig := isDigit_zero (y / 1000) (by omega)
    [digitByte (y / 100 % 10), digitByte (y / 10 % 10), digitByte (y % 10)]
  have hne1 : digitByte (y / 1000) ≠ '-' := by
    intro e; have := digitByte_toNat (y / 1000) (by omega); rw [e] at this; simp at this; omega
  have hne2 : digitByte (y / 1000) ≠ '+' := by
    intro e; have := digitByte_toNat (y / 1000) (by omega); rw [e] at this; simp at this; omega
  have hval : y / 1000 * 1000 + y / 100 % 10 * 100 + y / 10 % 10 * 10 + y % 10 = y := by omega
  simp only [parseElem, hdig, atoi, List.length_cons, List.length_nil, List.take, List.drop,
    List.head?_cons, Option.some.injEq, hne1, hne2, or_self, if_false, hl, hval]
  simp [wrap64]
  omega

theorem pad4_cons (y : Nat) (hy : y ≤ 9999) :
    ∃ k rest, k < 10 ∧ Spec.pad 4 y = digitByte k :: rest :=
  ⟨y / 1000, _, by omega, pad4 y (by omega)⟩

/-- The day element of the date string is read back as the day. -/
theorem parse_day (d : Nat) (h1 : 1 ≤ d) (h2 : d ≤ 31) (rest : GoString) :
    ∃ k tail, k < 10 ∧ Nat.toDigits 10 d ++ ',' :: rest = digitByte k :: tail ∧
      getnum (digitByte k :: tail) false = some ((d : Int), ',' :: rest) := by
  by_cases h : 10 ≤ d
  · refine ⟨d / 10, digitByte (d % 10) :: ',' :: rest, by omega, ?_, ?_⟩
    · rw [toDigits_two d h (by omega)]; rfl
    · rw [getnum_two _ _ (by omega) (by omega)]
      congr 3; omega
  · refine ⟨d, ',' :: rest, by omega, ?_, ?_⟩
    · rw [toDigits_small d (by omega)]; rfl
    · exact getnum_one d (by omega) rest

/-- Parsing the date string of a calendar date gives `time.Date` of that date. -/
theorem Parse_dateString (y m d : Nat) (hy : y ≤ 9999) (hv : Spec.validDate y m d) :
    Parse dateLayout (Spec.dateString y m d) = .ok (Date y m d 0 0 0 0) := by
  obtain ⟨m1, m12, d1, dle⟩ := hv
  have hm31 := Spec.daysInMonth_le y m
  obtain ⟨ky, ry, hky, hpad⟩ := pad4_cons y hy
  obtain ⟨kd, td, hkd, hdig, hget⟩ := parse_day d d1 (by omega) (' ' :: Spec.pad 4 y)
  have hstr : Spec.dateString y m d = Spec.monthName m ++ (' ' :: digitByte kd :: td) := by
    simp only [Spec.dateString, ← hdig, List.append_assoc]
    rfl
  have hlk := lookup_monthName m m1 m12 (' ' :: digitByte kd :: td)
  have hsk1 := skip_space kd hkd td
  have hsk2 : skip (',' :: ' ' :: Spec.pad 4 y) ", ".toList = (Spec.pad 4 y, false) := by
    rw [hpad]; exact skip_comma_space ky hky ry
  have hyear := parseElem_year y hy ⟨0, (m : Int), (d : Int)⟩
  simp only [parseElem] at hyear
  have hstrip : (if (digitByte kd :: td).length > 0 ∧ (digitByte kd :: td).head? = some ' '
      then (digitByte kd :: td).drop 1 else digitByte kd :: td) = digitByte kd :: td := by
    rw [if_neg]; simp [digitByte_ne_space kd hkd]
  have hmc : (((m - 1 : Nat) : Int) + 1) = (m : Int) := by omega
  have hmon : ¬ (((m - 1 : Nat) : Int) + 1 < 0) := by omega
  have hday : ¬ ((d : Int) < 0) := by omega
  have hrange : ¬ ((d : Int) < 1 ∨ (d : Int) > daysIn (m : Int) (y : Int)) := by
    rw [daysIn_spec y m m1 m12]; omega
  rw [hstr]
  simp only [Parse, parse, dateLayout, parseLoop, parseElem, skip_nil, hlk, hsk1, hstrip, hget,
    hsk2, hmc]
  simp only [hyear, List.length_nil, ne_eq, not_true_eq_false, if_false, hday, hrange]
  have hmon' : ¬ ((m : Int) < 0) := by omega
  simp only [hmon', if_false, hday, hrange]

/-! ## Proofs: `strconv.ParseInt` -/

theorem foldl_dec_ge (s : GoString) : ∀ a : Nat,
    a ≤ s.foldl (fun a c => 10 * a + (c.toNat - 48)) a := by
  induction s with
  | nil => intro a; exact Nat.le_refl _
  | cons c s ih =>
    intro a
    simp only [List.foldl_cons]
    have := ih (10 * a + (c.toNat - 48))
    omega

theorem parseUintLoop_digits (s0 : GoString) (s : GoString) :
    ∀ acc : Nat, acc < 18446744073709551616 → (∀ c ∈ s, 48 ≤ c.toNat ∧ c.toNat ≤ 57) →
      parseUintLoop s0 10 1844674407370955162 18446744073709551615 s acc =
        if s.foldl (fun a c => 10 * a + (c.toNat - 48)) acc < 18446744073709551616 then
          (s.foldl (fun a c => 10 * a + (c.toNat - 48)) acc, none)
        else (18446744073709551615, some ⟨"ParseUint".toList, s0, .rangeErr⟩) := by
  induction s with
  | nil => intro acc h _; simp [parseUintLoop, h]
  | cons c s ih =>
    intro acc hacc hall
    have hc := hall c (List.mem_cons_self _ _)
    have hs : ∀ c ∈ s, 48 ≤ c.toNat ∧ c.toNat ≤ 57 := fun x hx => hall x (List.mem_cons_of_mem _ hx)
    have hge := foldl_dec_ge s (10 * acc + (c.toNat - 48))
    simp only [parseUintLoop, List.foldl_cons]
    rw [if_pos (Or.inl hc), if_pos hc, if_neg (by omega)]
    by_cases h1 : acc ≥ 1844674407370955162
    · rw [if_pos h1, if_neg (by omega)]
    · rw [if_neg h1]
      by_cases h2 : 10 * acc + (c.toNat - 48) < 18446744073709551616
      · have e : (acc * 10 + (c.toNat - 48)) % 18446744073709551616 = 10 * acc + (c.toNat - 48) := by
          omega
        simp only [e]
        rw [if_neg (by omega)]
        exact ih _ h2 hs
      · rw [if_pos (by omega), if_neg (by omega)]

/-- `ParseInt` on a non-empty run of decimal digits: the value when it fits in 63 bits,
a range error otherwise. -/
theorem ParseInt_digits (s : GoString) (h : Spec.isDigits s) :
    ParseInt s 10 64 =
      if Spec.decimalValue s < 9223372036854775808 then ((Spec.decimalValue s : Int), none)
      else (9223372036854775807, some ⟨"ParseInt".toList, s, .rangeErr⟩) := by
  obtain ⟨hne, hall⟩ := h
  obtain ⟨c, rest, rfl⟩ : ∃ c rest, s = c :: rest := by
    cases s with
    | nil => exact absurd rfl hne
    | cons c rest => exact ⟨c, rest, rfl⟩
  have hc := hall c (List.mem_cons_self _ _)
  have hsign : ¬ (c = '+') ∧ ¬ (c = '-') := by
    constructor <;> (rintro rfl; simp at hc)
  have hloop := parseUintLoop_digits (c :: rest) (c :: rest) 0 (by omega) hall
  unfold ParseInt ParseUint
  simp only [hne, if_false, List.head?_cons, Option.some.injEq, hsign.1, hsign.2, or_self,
    Nat.reduceDiv, Nat.reduceAdd, Nat.reducePow, Nat.reduceSub, hloop, Spec.decimalValue]
  by_cases h1 : List.foldl (fun a c => 10 * a + (c.toNat - 48)) 0 (c :: rest) < 18446744073709551616
  · rw [if_pos h1]
    simp only [Bool.not_false, true_and, decide_True, Bool.false_eq_true, false_and, if_false]
    by_cases h2 : List.foldl (fun a c => 10 * a + (c.toNat - 48)) 0 (c :: rest) < 9223372036854775808
    · rw [if_neg (by omega), if_pos h2]
      simp only [wrap64, Prod.mk.injEq, and_true]
      omega
    · rw [if_pos ⟨by simp, by omega⟩, if_neg h2]
      norm_num
  · simp only [h1, if_false]
    rw [if_pos ⟨by simp, by omega⟩, if_neg (by omega)]
    norm_num

theorem toDigits_digits (n : Nat) :
    Spec.isDigits (Nat.toDigits 10 n) ∧ Spec.decimalValue (Nat.toDigits 10 n) = n := by
  induction n using Nat.strongRecOn with
  | _ n ih =>
    by_cases h : 10 ≤ n
    · obtain ⟨⟨hne, hall⟩, hval⟩ := ih (n / 10) (by omega)
      have ht := digitByte_toNat (n % 10) (by omega)
      rw [toDigits_step n h]
      refine ⟨⟨by simp, ?_⟩, ?_⟩
      · intro c hc
        rcases List.mem_append.mp hc with hc | hc
        · exact hall c hc
        · simp only [List.mem_singleton] at hc
          rw [hc, ht]; omega
      · unfold Spec.decimalValue at hval ⊢
        rw [List.foldl_append, hval]
        simp only [List.foldl_cons, List.foldl_nil, ht]
        omega
    · have ht := digitByte_toNat n (by omega)
      rw [toDigits_small n (by omega)]
      refine ⟨⟨by simp, ?_⟩, ?_⟩
      · intro c hc
        simp only [List.mem_singleton] at hc
        rw [hc, ht]; omega
      · simp only [Spec.decimalValue, List.foldl_cons, List.foldl_nil, ht]
        omega

/-- `ParseInt` reads the decimal text of a number below `2^63` back as that number. -/
theorem ParseInt_toDigits (n : Nat) (h : n < 9223372036854775808) :
    ParseInt (Nat.toDigits 10 n) 10 64 = ((n : Int), none) := by
  obtain ⟨hd, hv⟩ := toDigits_digits n
  rw [ParseInt_digits _ hd, hv, if_pos h]

theorem lor_small (c : Nat) (h : c < 64) : c ||| 32 < 64 :=
  Nat.or_lt_two_pow (n := 6) h (by omega)

/-- `ParseInt` rejects a string that starts with a letter. -/
theorem ParseInt_letter (c : Char) (rest : GoString)
    (h : 97 ≤ c.toNat ||| 32 ∧ c.toNat ||| 32 ≤ 122) :
    ParseInt (c :: rest) 10 64 = (0, some ⟨"ParseInt".toList, c :: rest, .syntaxErr⟩) := by
  have h64 : ¬ c.toNat < 64 := fun hlt => by have := lor_small _ hlt; omega
  have hsign : ¬ (c = '+') ∧ ¬ (c = '-') := by
    constructor <;> (rintro rfl; simp at h64)
  have hnd : ¬ (48 ≤ c.toNat ∧ c.toNat ≤ 57) := by omega
  unfold ParseInt ParseUint
  simp only [List.cons_ne_nil, if_false, List.head?_cons, Option.some.injEq, hsign.1, hsign.2,
    or_self, parseUintLoop, lower, hnd, h, false_or, and_self, if_true]
  rw [if_pos (by omega)]

theorem match_head (c L : Char) (s1 s2 : GoString) (h : match_ (c :: s1) (L :: s2) = true)
    (hL : 97 ≤ L.toNat ||| 32 ∧ L.toNat ||| 32 ≤ 122) :
    97 ≤ c.toNat ||| 32 ∧ c.toNat ||| 32 ≤ 122 := by
  unfold match_ at h
  by_cases hc : c = L
  · rw [hc]; exact hL
  · rw [if_pos hc] at h
    simp only at h
    split_ifs at h with h1
    omega

theorem lookupFrom_mem (tab : List GoString) : ∀ (k : Nat) (s : GoString) (i : Nat)
    (v : GoString), lookupFrom k tab s = some (i, v) →
      ∃ w ∈ tab, s.length ≥ w.length ∧ match_ (s.take w.length) w = true := by
  induction tab with
  | nil => intro k s i v h; simp [lookupFrom] at h
  | cons x tab ih =>
    intro k s i v h
    unfold lookupFrom at h
    split_ifs at h with hx
    · exact ⟨x, List.mem_cons_self _ _, hx.1, hx.2⟩
    · obtain ⟨w, hw, h'⟩ := ih _ _ _ _ h
      exact ⟨w, List.mem_cons_of_mem _ hw, h'⟩

theorem lookup_head (s : GoString) (i : Nat) (v : GoString)
    (h : lookup longMonthNames s = some (i, v)) :
    ∃ c rest, s = c :: rest ∧ 97 ≤ c.toNat ||| 32 ∧ c.toNat ||| 32 ≤ 122 := by
  obtain ⟨w, hw, hlen, hm⟩ := lookupFrom_mem _ _ _ _ _ h
  have hw' : ∃ L tail, w = L :: tail ∧ 97 ≤ L.toNat ||| 32 ∧ L.toNat ||| 32 ≤ 122 := by
    simp only [longMonthNames, List.mem_cons, List.mem_singleton, List.not_mem_nil, or_false] at hw
    rcases hw with rfl | rfl | rfl | rfl | rfl | rfl | rfl | rfl | rfl | rfl | rfl | rfl <;>
      exact ⟨_, _, rfl, by decide⟩
  obtain ⟨L, tail, rfl, hL⟩ := hw'
  cases s with
  | nil => simp at hlen
  | cons c rest =>
    refine ⟨c, rest, rfl, ?_⟩
    simp only [List.length_cons, List.take_succ_cons] at hm
    exact match_head c L _ _ hm hL

/-- A string that `Parse` accepts with the date layout is not accepted by `ParseInt`. -/
theorem ParseInt_of_Parse_ok (s : GoString) (t : Time) (h : Parse dateLayout s = .ok t) :
    ParseInt s 10 64 = (0, some ⟨"ParseInt".toList, s, .syntaxErr⟩) := by
  obtain ⟨i, day, year, v1, v2, v3, v4, hlk, -⟩ := Parse_ok_inv s t h
  obtain ⟨c, rest, rfl, hc⟩ := lookup_head s i v1 hlk
  exact ParseInt_letter c rest hc

/-! ## Proofs: the strings `time.Parse` reads -/

theorem lor32 : ∀ n : Nat, n < 128 →
    n ||| 32 = if n / 32 % 2 = 1 then n else n + 32 := by decide

theorem le_lor (n m : Nat) : n ≤ n ||| m :=
  Nat.le_of_testBit (fun i h => by rw [Nat.testBit_or, h]; rfl)

theorem match_cons (c1 c2 : Char) (s1 s2 : GoString) :
    match_ (c1 :: s1) (c2 :: s2) =
      if c1 ≠ c2 then
        if c1.toNat ||| 32 ≠ c2.toNat ||| 32 ∨ c1.toNat ||| 32 < 97 ∨ c1.toNat ||| 32 > 122 then false
        else match_ s1 s2
      else match_ s1 s2 := by
  rw [match_]

theorem Char.eq_of_toNat (a b : Char) (h : a.toNat = b.toNat) : a = b := by
  rw [← Char.ofNat_toNat a, ← Char.ofNat_toNat b, h]

/-- The test of `match` on one pair of bytes is equality up to letter case. -/
theorem match_byte (c1 c2 : Char) :
    (c1 = c2 ∨ ¬ (c1.toNat ||| 32 ≠ c2.toNat ||| 32 ∨ c1.toNat ||| 32 < 97 ∨
      c1.toNat ||| 32 > 122)) ↔ Spec.lowerCode c1 = Spec.lowerCode c2 := by
  unfold Spec.lowerCode
  constructor
  · rintro (rfl | h)
    · rfl
    · have h1 : c1.toNat ≤ c1.toNat ||| 32 := le_lor _ _
      have h2 : c2.toNat ≤ c2.toNat ||| 32 := le_lor _ _
      have e1 := lor32 c1.toNat (by omega)
      have e2 := lor32 c2.toNat (by omega)
      split_ifs at e1 e2 ⊢ <;> omega
  · intro h
    by_cases hc : c1 = c2
    · exact Or.inl hc
    · right
      have hne : c1.toNat ≠ c2.toNat := fun e => hc (Char.eq_of_toNat _ _ e)
      have b1 : c1.toNat < 128 := by split_ifs at h <;> omega
      have b2 : c2.toNat < 128 := by split_ifs at h <;> omega
      have e1 := lor32 c1.toNat b1
      have e2 := lor32 c2.toNat b2
      split_ifs at h e1 e2 <;> omega

theorem match_sameLetters : ∀ (a b : GoString), a.length = b.length →
    (match_ a b = true ↔ Spec.sameLetters a b) := by
  intro a
  induction a with
  | nil =>
    intro b h
    cases b with
    | nil => simp [match_, Spec.sameLetters]
    | cons c b => simp at h
  | cons c1 a ih =>
    intro b h
    cases b with
    | nil => simp at h
    | cons c2 b =>
      simp only [List.length_cons, Nat.add_right_cancel_iff] at h
      have hb := match_byte c1 c2
      have ih' := ih b h
      unfold Spec.sameLetters at ih' ⊢
      simp only [List.map_cons, List.cons.injEq]
      rw [← ih', ← hb, match_cons]
      by_cases hc : c1 = c2
      · simp [hc]
      · simp only [ne_eq, hc, not_false_eq_true, if_true, false_or]
        split_ifs with h1
        · simp only [Bool.false_eq_true, false_iff, not_and]
          intro hn; exact absurd h1 hn
        · simp only [iff_and_self]
          intro _; exact h1

theorem lookupFrom_inv (tab : List GoString) : ∀ (k : Nat) (s : GoString) (i : Nat)
    (v : GoString), lookupFrom k tab s = some (i, v) →
      ∃ w, tab.get? (i - k) = some w ∧ k ≤ i ∧ w.length ≤ s.length ∧
        match_ (s.take w.length) w = true ∧ v = s.drop w.length := by
  induction tab with
  | nil => intro k s i v h; simp [lookupFrom] at h
  | cons x tab ih =>
    intro k s i v h
    unfold lookupFrom at h
    split_ifs at h with hx
    · simp only [Option.some.injEq, Prod.mk.injEq] at h
      obtain ⟨rfl, rfl⟩ := h
      exact ⟨x, by simp, Nat.le_refl _, hx.1, hx.2, rfl⟩
    · obtain ⟨w, hw, hk, h'⟩ := ih _ _ _ _ h
      refine ⟨w, ?_, by omega, h'⟩
      have e : i - k = (i - (k + 1)) + 1 := by omega
      rw [e, List.get?_cons_succ]; exact hw

theorem longMonthNames_get (i : Nat) (w : GoString) (h : longMonthNames.get? i = some w) :
    i < 12 ∧ w = Spec.monthName (i + 1) := by
  have hi : i < 12 := by
    by_contra hge
    have : longMonthNames.get? i = none := List.get?_eq_none.mpr (by simp [longMonthNames]; omega)
    rw [this] at h; simp at h
  refine ⟨hi, ?_⟩
  have hc : i = 0 ∨ i = 1 ∨ i = 2 ∨ i = 3 ∨ i = 4 ∨ i = 5 ∨ i = 6 ∨ i = 7 ∨ i = 8 ∨
      i = 9 ∨ i = 10 ∨ i = 11 := by omega
  rcases hc with rfl | rfl | rfl | rfl | rfl | rfl | rfl | rfl | rfl | rfl | rfl | rfl <;>
    (simp only [longMonthNames, List.get?_cons_succ, List.get?_cons_zero, Option.some.injEq] at h
     exact h.symm)

/-- A month name found by `lookup`: the value starts with that month name, in any
letter case. -/
theorem lookup_inv (s : GoString) (i : Nat) (v : GoString)
    (h : lookup longMonthNames s = some (i, v)) :
    ∃ name, i < 12 ∧ Spec.sameLetters name (Spec.monthName (i + 1)) ∧ s = name ++ v := by
  obtain ⟨w, hw, -, hlen, hm, rfl⟩ := lookupFrom_inv _ _ _ _ _ h
  rw [Nat.sub_zero] at hw
  obtain ⟨hi, rfl⟩ := longMonthNames_get _ _ hw
  refine ⟨s.take (Spec.monthName (i + 1)).length, hi, ?_, (List.take_append_drop _ _).symm⟩
  exact (match_sameLetters _ _ (by rw [List.length_take]; omega)).mp hm

theorem lookupFrom_skip (s : GoString) (post : List GoString) : ∀ (pre : List GoString) (k : Nat),
    (∀ u ∈ pre, ¬ (s.length ≥ u.length ∧ match_ (s.take u.length) u = true)) →
      lookupFrom k (pre ++ post) s = lookupFrom (k + pre.length) post s := by
  intro pre
  induction pre with
  | nil => intro k _; rfl
  | cons x pre ih =>
    intro k h
    rw [List.cons_append, lookupFrom, if_neg (h x (List.mem_cons_self _ _)),
      ih (k + 1) (fun u hu => h u (List.mem_cons_of_mem _ hu))]
    simp only [List.length_cons]
    congr 1; omega

theorem lowerCode_take (s : GoString) (n : Nat) :
    (s.take n).map Spec.lowerCode = (s.map Spec.lowerCode).take n := by
  rw [List.map_take]

/-- A value that starts with a month name in some letter case does not start with any
name that is not comparable with it. -/
theorem no_match (name tail W u : GoString) (hs : Spec.sameLetters name W)
    (h1 : ¬ (u.map Spec.lowerCode <+: W.map Spec.lowerCode))
    (h2 : ¬ (W.map Spec.lowerCode <+: u.map Spec.lowerCode)) :
    ¬ ((name ++ tail).length ≥ u.length ∧ match_ ((name ++ tail).take u.length) u = true) := by
  rintro ⟨hlen, hm⟩
  have hsl := (match_sameLetters _ _ (by rw [List.length_take]; omega)).mp hm
  unfold Spec.sameLetters at hsl hs
  rw [List.map_take, List.map_append, hs] at hsl
  have p1 : u.map Spec.lowerCode <+: W.map Spec.lowerCode ++ tail.map Spec.lowerCode := by
    rw [← hsl]; exact List.take_prefix _ _
  have p2 : W.map Spec.lowerCode <+: W.map Spec.lowerCode ++ tail.map Spec.lowerCode :=
    List.prefix_append _ _
  rcases List.prefix_or_prefix_of_prefix p1 p2 with h | h
  · exact h1 h
  · exact h2 h

theorem lookup_run_aux (pre post : List GoString) (W name tail : GoString)
    (htab : longMonthNames = pre ++ W :: post)
    (hpre : ∀ u ∈ pre, ¬ (u.map Spec.lowerCode <+: W.map Spec.lowerCode) ∧
      ¬ (W.map Spec.lowerCode <+: u.map Spec.lowerCode))
    (hs : Spec.sameLetters name W) :
    lookup longMonthNames (name ++ tail) = some (pre.length, tail) := by
  have hl : name.length = W.length := by
    have := congrArg List.length hs
    simpa using this
  unfold lookup
  rw [htab, lookupFrom_skip _ _ pre 0
    (fun u hu => no_match name tail W u hs (hpre u hu).1 (hpre u hu).2)]
  have htake : (name ++ tail).take W.length = name := by
    rw [← hl]; exact List.take_left _ _
  have hdrop : (name ++ tail).drop W.length = tail := by
    rw [← hl]; exact List.drop_left _ _
  have hm : match_ name W = true := (match_sameLetters _ _ hl).mpr hs
  rw [lookupFrom, htake, hdrop, if_pos ⟨by rw [List.length_append]; omega, hm⟩]
  simp

set_option maxRecDepth 100000 in
/-- The value `name ++ tail`, where `name` is a month name in any letter case, is found
by `lookup` under that month, and `tail` is what remains. -/
theorem lookup_run (m : Nat) (h1 : 1 ≤ m) (h2 : m ≤ 12) (name tail : GoString)
    (hs : Spec.sameLetters name (Spec.monthName m)) :
    lookup longMonthNames (name ++ tail) = some (m - 1, tail) := by
  have hm : m = 1 ∨ m = 2 ∨ m = 3 ∨ m = 4 ∨ m = 5 ∨ m = 6 ∨ m = 7 ∨ m = 8 ∨ m = 9 ∨
      m = 10 ∨ m = 11 ∨ m = 12 := by omega
  rcases hm with rfl | rfl | rfl | rfl | rfl | rfl | rfl | rfl | rfl | rfl | rfl | rfl
  · exact lookup_run_aux [] (longMonthNames.drop 1) _ name tail rfl (by decide) hs
  · exact lookup_run_aux (longMonthNames.take 1) (longMonthNames.drop 2) _ name tail rfl
      (by decide) hs
  · exact lookup_run_aux (longMonthNames.take 2) (longMonthNames.drop 3) _ name tail rfl
      (by decide) hs
  · exact lookup_run_aux (longMonthNames.take 3) (longMonthNames.drop 4) _ name tail rfl
      (by decide) hs
  · exact lookup_run_aux (longMonthNames.take 4) (longMonthNames.drop 5) _ name tail rfl
      (by decide) hs
  · exact lookup_run_aux (longMonthNames.take 5) (longMonthNames.drop 6) _ name tail rfl
      (by decide) hs
  · exact lookup_run_aux (longMonthNames.take 6) (longMonthNames.drop 7) _ name tail rfl
      (by decide) hs
  · exact lookup_run_aux (longMonthNames.take 7) (longMonthNames.drop 8) _ name tail rfl
      (by decide) hs
  · exact lookup_run_aux (longMonthNames.take 8) (longMonthNames.drop 9) _ name tail rfl
      (by decide) hs
  · exact lookup_run_aux (longMonthNames.take 9) (longMonthNames.drop 10) _ name tail rfl
      (by decide) hs
  · exact lookup_run_aux (longMonthNames.take 10) (longMonthNames.drop 11) _ name tail rfl
      (by decide) hs
  · exact lookup_run_aux (longMonthNames.take 11) (longMonthNames.drop 12) _ name tail rfl
      (by decide) hs

theorem skip_space_eq (v : GoString) :
    skip v " ".toList =
      if v.length > 0 ∧ v.head? ≠ some ' ' then (v, true) else (cutspace v, false) := by
  simp only [skip, String.toList, List.length_cons, List.length_nil, skipLoop, if_true]

theorem skip_comma_eq (v : GoString) :
    skip v ", ".toList =
      if v.length = 0 ∨ v.head? ≠ some ',' then (v, true) else skip (v.drop 1) " ".toList := by
  simp only [skip, String.toList, List.length_cons, List.length_nil, skipLoop]
  rw [if_neg (by decide)]

theorem cutspace_spec (v : GoString) :
    (∃ j, v = List.replicate j ' ' ++ cutspace v) ∧ (cutspace v).head? ≠ some ' ' := by
  induction v with
  | nil => exact ⟨⟨0, rfl⟩, by simp [cutspace]⟩
  | cons c v ih =>
    unfold cutspace
    split_ifs with hc
    · obtain ⟨⟨j, hj⟩, hh⟩ := ih
      refine ⟨⟨j + 1, ?_⟩, hh⟩
      rw [List.replicate_succ, List.cons_append, ← hj, hc]
    · exact ⟨⟨0, rfl⟩, by simpa using hc⟩

theorem cutspace_run (j : Nat) (x : GoString) (hx : x.head? ≠ some ' ') :
    cutspace (List.replicate j ' ' ++ x) = x := by
  induction j with
  | zero =>
    cases x with
    | nil => rfl
    | cons c x =>
      have hc : c ≠ ' ' := by simpa using hx
      simp [cutspace, hc]
  | succ j ih =>
    rw [List.replicate_succ, List.cons_append, cutspace, if_pos rfl, ih]

/-- What `skip` removes for the literal text of one space: a run of one or more
spaces, or nothing at the end of the value. -/
theorem skip_space_inv (v v2 : GoString) (h : skip v " ".toList = (v2, false)) :
    v2.head? ≠ some ' ' ∧ ((v = [] ∧ v2 = []) ∨ ∃ j, 1 ≤ j ∧ v = List.replicate j ' ' ++ v2) := by
  rw [skip_space_eq] at h
  by_cases hc : v.length > 0 ∧ v.head? ≠ some ' '
  · rw [if_pos hc] at h; simp at h
  rw [if_neg hc] at h
  simp only [Prod.mk.injEq, and_true] at h
  subst h
  obtain ⟨⟨j, hj⟩, hh⟩ := cutspace_spec v
  refine ⟨hh, ?_⟩
  cases v with
  | nil => exact Or.inl ⟨rfl, rfl⟩
  | cons c v =>
    right
    have hcs : c = ' ' := by
      by_contra hne
      exact hc ⟨by simp, by simpa using hne⟩
    refine ⟨j, ?_, hj⟩
    by_contra hj0
    have : j = 0 := by omega
    subst this
    simp only [List.replicate_zero, List.nil_append] at hj
    rw [← hj] at hh
    simp [hcs] at hh

theorem skip_space_run (j : Nat) (hj : 1 ≤ j) (x : GoString) (hx : x.head? ≠ some ' ') :
    skip (List.replicate j ' ' ++ x) " ".toList = (x, false) := by
  rw [skip_space_eq, cutspace_run j x hx, if_neg]
  obtain ⟨k, rfl⟩ : ∃ k, j = k + 1 := ⟨j - 1, by omega⟩
  simp [List.replicate_succ]

theorem skip_comma_inv (v v4 : GoString) (h : skip v ", ".toList = (v4, false)) :
    v4.head? ≠ some ' ' ∧
      ((v = [','] ∧ v4 = []) ∨ ∃ k, 1 ≤ k ∧ v = ',' :: (List.replicate k ' ' ++ v4)) := by
  rw [skip_comma_eq] at h
  by_cases hc : v.length = 0 ∨ v.head? ≠ some ','
  · rw [if_pos hc] at h; simp at h
  rw [if_neg hc] at h
  cases v with
  | nil => simp at hc
  | cons c v =>
    have hcc : c = ',' := by
      by_contra hne
      exact hc (Or.inr (by simpa using hne))
    subst hcc
    simp only [List.drop_succ_cons, List.drop_zero] at h
    obtain ⟨hh, hv⟩ := skip_space_inv v v4 h
    refine ⟨hh, ?_⟩
    rcases hv with ⟨rfl, rfl⟩ | ⟨k, hk, rfl⟩
    · exact Or.inl ⟨rfl, rfl⟩
    · exact Or.inr ⟨k, hk, rfl⟩

theorem skip_comma_run (k : Nat) (hk : 1 ≤ k) (x : GoString) (hx : x.head? ≠ some ' ') :
    skip (',' :: (List.replicate k ' ' ++ x)) ", ".toList = (x, false) := by
  rw [skip_comma_eq, if_neg (by simp)]
  exact skip_space_run k hk x hx

theorem digit_eq (c : Char) (h : 48 ≤ c.toNat ∧ c.toNat ≤ 57) :
    c = digitByte (c.toNat - 48) := by
  unfold digitByte
  rw [show 48 + (c.toNat - 48) = c.toNat by omega, Char.ofNat_toNat]

theorem isDigit_cons_zero (c : Char) (s : GoString) :
    isDigit (c :: s) 0 = true ↔ 48 ≤ c.toNat ∧ c.toNat ≤ 57 := by
  simp [isDigit]

theorem isDigit_cons_succ (c : Char) (s : GoString) (i : Nat) :
    isDigit (c :: s) (i + 1) = isDigit s i := by
  simp [isDigit]

theorem isDigit_nil (i : Nat) : isDigit [] i = false := by
  simp [isDigit]

/-- What `getnum` reads: one or two digits at the front of the value. -/
theorem getnum_inv (v : GoString) (day : Int) (v3 : GoString)
    (h : getnum v false = some (day, v3)) :
    ∃ dd, Spec.isDigits dd ∧ dd.length ≤ 2 ∧ v = dd ++ v3 := by
  unfold getnum at h
  cases v with
  | nil => simp [isDigit_nil] at h
  | cons c v =>
    by_cases h0 : isDigit (c :: v) 0 = true
    · have hc := (isDigit_cons_zero c v).mp h0
      simp only [h0, Bool.not_true, Bool.false_eq_true, if_false, isDigit_cons_succ] at h
      by_cases h1 : isDigit v 0 = true
      · cases v with
        | nil => simp [isDigit_nil] at h1
        | cons c' v =>
          have hc' := (isDigit_cons_zero c' v).mp h1
          simp only [h1, Bool.not_true, Bool.false_eq_true, if_false, Option.some.injEq,
            Prod.mk.injEq, List.drop_succ_cons, List.drop_zero] at h
          refine ⟨[c, c'], ⟨by simp, ?_⟩, by simp, ?_⟩
          · intro x hx
            simp only [List.mem_cons, List.mem_singleton, List.not_mem_nil, or_false] at hx
            rcases hx with rfl | rfl
            · exact hc
            · exact hc'
          · rw [← h.2]; rfl
      · simp only [h1, Bool.not_false, if_true, Option.some.injEq, Prod.mk.injEq,
          List.drop_succ_cons, List.drop_zero] at h
        refine ⟨[c], ⟨by simp, ?_⟩, by simp, ?_⟩
        · intro x hx
          simp only [List.mem_singleton] at hx
          rw [hx]; exact hc
        · rw [← h.2]; rfl
    · simp [h0] at h

theorem getnum_run (dd : GoString) (hd : Spec.isDigits dd) (hl : dd.length ≤ 2)
    (rest : GoString) :
    (dd ++ ',' :: rest).head? ≠ some ' ' ∧
      ∃ n : Int, getnum (dd ++ ',' :: rest) false = some (n, ',' :: rest) := by
  obtain ⟨hne, hall⟩ := hd
  cases dd with
  | nil => exact absurd rfl hne
  | cons a dd =>
    have ha := hall a (List.mem_cons_self _ _)
    have hns : a ≠ ' ' := by rintro rfl; simp at ha
    refine ⟨by simpa using hns, ?_⟩
    rw [digit_eq a ha]
    cases dd with
    | nil => exact ⟨_, getnum_one _ (by omega) rest⟩
    | cons b dd =>
      have hb := hall b (List.mem_cons_of_mem _ (List.mem_cons_self _ _))
      have : dd = [] := by
        simp only [List.length_cons] at hl
        exact List.length_eq_zero.mp (by omega)
      subst this
      rw [digit_eq b hb]
      exact ⟨_, getnum_two _ _ (by omega) (by omega) _⟩

theorem leadingIntLoop_nil : ∀ (s : GoString) (x q : Nat),
    leadingIntLoop s x = some (q, []) → ∀ c ∈ s, 48 ≤ c.toNat ∧ c.toNat ≤ 57 := by
  intro s
  induction s with
  | nil => intro x q _ c hc; simp at hc
  | cons a s ih =>
    intro x q h c hc
    unfold leadingIntLoop at h
    simp only at h
    split_ifs at h with h1 h2 h3
    · simp at h
    · rcases List.mem_cons.mp hc with rfl | hc
      · omega
      · exact ih _ _ h c hc

/-- What the year element reads: four digits at the front of the value. -/
theorem year_inv (v : GoString) (year : Int)
    (h1 : ¬ (v.length < 4 ∨ (!isDigit v 0) = true)) (h2 : atoi (v.take 4) = some year) :
    Spec.isDigits (v.take 4) ∧ (v.take 4).length = 4 := by
  have hlen : (v.take 4).length = 4 := by rw [List.length_take]; omega
  obtain ⟨c, rest, rfl⟩ : ∃ c rest, v = c :: rest := by
    cases v with
    | nil => simp at h1
    | cons c rest => exact ⟨c, rest, rfl⟩
  have hd : 48 ≤ c.toNat ∧ c.toNat ≤ 57 := by
    simp [isDigit] at h1; exact h1.2
  have hsign : ¬ (c = '-') ∧ ¬ (c = '+') := by
    constructor <;> (rintro rfl; simp at hd)
  refine ⟨⟨by simp, ?_⟩, hlen⟩
  unfold atoi at h2
  simp only [List.take_succ_cons, List.head?_cons, Option.some.injEq, hsign.1, hsign.2, or_self,
    if_false] at h2
  rcases hl : leadingInt (c :: List.take 3 rest) with _ | ⟨q, rem⟩
  · simp [hl] at h2
  simp only [hl] at h2
  split_ifs at h2 with hrem
  have hrem' : rem = [] := by simpa using hrem
  subst hrem'
  exact leadingIntLoop_nil _ _ _ hl

theorem year_run (yr : GoString) (hd : Spec.isDigits yr) (hl : yr.length = 4) (rest : GoString) :
    (yr ++ rest).head? ≠ some ' ' ∧
      ¬ ((yr ++ rest).length < 4 ∨ (!isDigit (yr ++ rest) 0) = true) ∧
      (yr ++ rest).drop 4 = rest ∧
      ∃ y : Int, atoi ((yr ++ rest).take 4) = some y := by
  obtain ⟨-, hall⟩ := hd
  have htake : (yr ++ rest).take 4 = yr := by rw [← hl]; exact List.take_left _ _
  have hdrop : (yr ++ rest).drop 4 = rest := by rw [← hl]; exact List.drop_left _ _
  rw [htake, hdrop]
  match yr, hl, hall with
  | [a, b, c, e], _, hall =>
    have ha := hall a (by simp)
    have hb := hall b (by simp)
    have hc := hall c (by simp)
    have he := hall e (by simp)
    have hns : a ≠ ' ' := by rintro rfl; simp at ha
    have hsign : ¬ (a = '-') ∧ ¬ (a = '+') := by
      constructor <;> (rintro rfl; simp at ha)
    refine ⟨by simpa using hns, ?_, rfl, ?_⟩
    · simp only [List.cons_append, List.length_cons, isDigit_cons_zero a, not_or]
      exact ⟨by omega, by
        rw [Bool.not_eq_true', Bool.not_eq_false]; exact (isDigit_cons_zero a _).mpr ha⟩
    · have hli := leadingInt_four (a.toNat - 48) (b.toNat - 48) (c.toNat - 48) (e.toNat - 48)
        (by omega) (by omega) (by omega) (by omega)
      rw [← digit_eq a ha, ← digit_eq b hb, ← digit_eq c hc, ← digit_eq e he] at hli
      unfold atoi
      simp only [List.head?_cons, Option.some.injEq, hsign.1, hsign.2, or_self, if_false, hli]
      simp

/-- The result of `Parse` once every element of the date layout has been read. -/
theorem Parse_of_steps (s : GoString) (i : Nat) (day year : Int) (v1 v2 v3 v4 : GoString)
    (hlk : lookup longMonthNames s = some (i, v1))
    (hsk : skip v1 " ".toList = (v2, false))
    (hgn : getnum (if v2.length > 0 ∧ v2.head? = some ' ' then v2.drop 1 else v2) false
      = some (day, v3))
    (hsk2 : skip v3 ", ".toList = (v4, false))
    (hlen : ¬ (v4.length < 4 ∨ (!isDigit v4 0) = true))
    (hat : atoi (v4.take 4) = some year) :
    Parse dateLayout s =
      if (v4.drop 4).length ≠ 0 then
        .error ⟨"January _2, 2006".toList, s, [], v4.drop 4,
          ": extra text: ".toList ++ quote (v4.drop 4)⟩
      else if day < 1 ∨ day > daysIn ((i : Int) + 1) year then
        .error ⟨"January _2, 2006".toList, s, [], v4.drop 4, ": day out of range".toList⟩
      else .ok (Date year ((i : Int) + 1) day 0 0 0 0) := by
  obtain ⟨k, hk⟩ := getnum_bound _ _ _ _ hgn
  have hm : ¬ ((i : Int) + 1 < 0) := by omega
  have hd : ¬ (day < 0) := by omega
  simp only [Parse, parse, dateLayout, parseLoop, parseElem, skip_nil, hlk, hsk, hgn, hsk2, hlen,
    hat, if_false, hm, hd]

/-- Either `Parse` fails at an element of the date layout, or every element is read. -/
theorem Parse_steps (s : GoString) :
    (∃ e : ParseError, Parse dateLayout s = .error e ∧ e.Message = []) ∨
    ∃ (i : Nat) (day year : Int) (v1 v2 v3 v4 : GoString),
      lookup longMonthNames s = some (i, v1) ∧
      skip v1 " ".toList = (v2, false) ∧
      getnum (if v2.length > 0 ∧ v2.head? = some ' ' then v2.drop 1 else v2) false
        = some (day, v3) ∧
      skip v3 ", ".toList = (v4, false) ∧
      ¬ (v4.length < 4 ∨ (!isDigit v4 0) = true) ∧
      atoi (v4.take 4) = some year := by
  rcases hlk : lookup longMonthNames s with _ | ⟨i, v1⟩
  · left
    simp only [Parse, parse, dateLayout, parseLoop, parseElem, skip_nil, hlk]
    exact ⟨_, rfl, rfl⟩
  rcases hsk : skip v1 " ".toList with ⟨v2, b⟩
  cases b
  swap
  · left
    simp only [Parse, parse, dateLayout, parseLoop, parseElem, skip_nil, hlk, hsk]
    exact ⟨_, rfl, rfl⟩
  rcases hgn : getnum (if v2.length > 0 ∧ v2.head? = some ' ' then v2.drop 1 else v2) false
    with _ | ⟨day, v3⟩
  · left
    simp only [Parse, parse, dateLayout, parseLoop, parseElem, skip_nil, hlk, hsk, hgn]
    exact ⟨_, rfl, rfl⟩
  rcases hsk2 : skip v3 ", ".toList with ⟨v4, b⟩
  cases b
  swap
  · left
    simp only [Parse, parse, dateLayout, parseLoop, parseElem, skip_nil, hlk, hsk, hgn, hsk2]
    exact ⟨_, rfl, rfl⟩
  by_cases hlen : v4.length < 4 ∨ (!isDigit v4 0) = true
  · left
    simp only [Parse, parse, dateLayout, parseLoop, parseElem, skip_nil, hlk, hsk, hgn, hsk2, hlen,
      if_true]
    exact ⟨_, rfl, rfl⟩
  rcases hat : atoi (v4.take 4) with _ | year
  · left
    simp only [Parse, parse, dateLayout, parseLoop, parseElem, skip_nil, hlk, hsk, hgn, hsk2, hlen,
      hat, if_false]
    exact ⟨_, rfl, rfl⟩
  · exact Or.inr ⟨i, day, year, v1, v2, v3, v4, rfl, hsk, hgn, hsk2, hlen, hat⟩

/-- When every element of the date layout is read, the part of the value that was read
has the date layout. -/
theorem steps_reads (s : GoString) (i : Nat) (day year : Int) (v1 v2 v3 v4 : GoString)
    (hlk : lookup longMonthNames s = some (i, v1))
    (hsk : skip v1 " ".toList = (v2, false))
    (hgn : getnum (if v2.length > 0 ∧ v2.head? = some ' ' then v2.drop 1 else v2) false
      = some (day, v3))
    (hsk2 : skip v3 ", ".toList = (v4, false))
    (hlen : ¬ (v4.length < 4 ∨ (!isDigit v4 0) = true))
    (hat : atoi (v4.take 4) = some year) :
    ∃ g, Spec.readsAsDate g ∧ s = g ++ v4.drop 4 := by
  obtain ⟨name, hi, hname, rfl⟩ := lookup_inv s i v1 hlk
  obtain ⟨hh2, hv1⟩ := skip_space_inv v1 v2 hsk
  have hstrip : (if v2.length > 0 ∧ v2.head? = some ' ' then v2.drop 1 else v2) = v2 := by
    rw [if_neg]; exact fun h => hh2 h.2
  rw [hstrip] at hgn
  obtain ⟨dd, hdd, hddl, rfl⟩ := getnum_inv v2 day v3 hgn
  obtain ⟨j, hj, rfl⟩ : ∃ j, 1 ≤ j ∧ v1 = List.replicate j ' ' ++ (dd ++ v3) := by
    rcases hv1 with ⟨-, h0⟩ | h
    · exact absurd (List.append_eq_nil.mp h0).1 hdd.1
    · exact h
  obtain ⟨-, hv3⟩ := skip_comma_inv v3 v4 hsk2
  obtain ⟨k, hk, rfl⟩ : ∃ k, 1 ≤ k ∧ v3 = ',' :: (List.replicate k ' ' ++ v4) := by
    rcases hv3 with ⟨-, h0⟩ | h
    · subst h0; simp at hlen
    · exact h
  obtain ⟨hyd, hyl⟩ := year_inv v4 year hlen hat
  refine ⟨name ++ List.replicate j ' ' ++ dd ++ [','] ++ List.replicate k ' ' ++ v4.take 4,
    ⟨i + 1, name, j, k, dd, v4.take 4, by omega, by omega, hname, hj, hk, hdd, hddl, hyd, hyl,
      rfl⟩, ?_⟩
  conv_lhs => rw [← List.take_append_drop 4 v4]
  simp only [List.append_assoc, List.cons_append, List.nil_append]

/-- A value that starts with a string of the date layout: every element of the layout
is read, and what follows the string remains. -/
theorem reads_steps (g : GoString) (hg : Spec.readsAsDate g) (rest : GoString) :
    ∃ (i : Nat) (day year : Int) (v1 v2 v3 v4 : GoString),
      lookup longMonthNames (g ++ rest) = some (i, v1) ∧
      skip v1 " ".toList = (v2, false) ∧
      getnum (if v2.length > 0 ∧ v2.head? = some ' ' then v2.drop 1 else v2) false
        = some (day, v3) ∧
      skip v3 ", ".toList = (v4, false) ∧
      ¬ (v4.length < 4 ∨ (!isDigit v4 0) = true) ∧
      atoi (v4.take 4) = some year ∧ v4.drop 4 = rest := by
  obtain ⟨m, name, j, k, dd, yr, m1, m12, hname, hj, hk, hdd, hddl, hyd, hyl, rfl⟩ := hg
  obtain ⟨hy1, hy2, hy3, y, hy4⟩ := year_run yr hyd hyl rest
  obtain ⟨hd1, n, hd2⟩ := getnum_run dd hdd hddl (List.replicate k ' ' ++ (yr ++ rest))
  have hstr : name ++ List.replicate j ' ' ++ dd ++ [','] ++ List.replicate k ' ' ++ yr ++ rest =
      name ++ (List.replicate j ' ' ++ (dd ++ ',' :: (List.replicate k ' ' ++ (yr ++ rest)))) := by
    simp only [List.append_assoc, List.cons_append, List.nil_append]
  refine ⟨m - 1, n, y, _, _, _, _, ?_, skip_space_run j hj _ hd1, ?_,
    skip_comma_run k hk _ hy1, hy2, hy4, hy3⟩
  · rw [hstr]; exact lookup_run m m1 m12 name _ hname
  · rw [if_neg (fun h => hd1 h.2)]; exact hd2

/-- A string of the date layout followed by further text: `Parse` reports the text as
extra text. -/
theorem Parse_extra_text (g : GoString) (hg : Spec.readsAsDate g) (rest : GoString)
    (hr : rest ≠ []) :
    Parse dateLayout (g ++ rest) =
      .error ⟨"January _2, 2006".toList, g ++ rest, [], rest,
        ": extra text: ".toList ++ quote rest⟩ := by
  obtain ⟨i, day, year, v1, v2, v3, v4, hlk, hsk, hgn, hsk2, hlen, hat, hrest⟩ :=
    reads_steps g hg rest
  rw [Parse_of_steps _ i day year v1 v2 v3 v4 hlk hsk hgn hsk2 hlen hat, hrest, if_pos]
  exact fun h => hr (List.length_eq_zero.mp h)

/-- An error of `Parse` at an element of the layout: no string of the date layout
starts the value. -/
theorem Parse_element_error (s : GoString) (e : ParseError)
    (h : Parse dateLayout s = .error e) (hm : e.Message = []) :
    ∀ g rest, Spec.readsAsDate g → s ≠ g ++ rest := by
  intro g rest hg hs
  subst hs
  obtain ⟨i, day, year, v1, v2, v3, v4, hlk, hsk, hgn, hsk2, hlen, hat, -⟩ :=
    reads_steps g hg rest
  rw [Parse_of_steps _ i day year v1 v2 v3 v4 hlk hsk hgn hsk2 hlen hat] at h
  split_ifs at h
  · simp only [Except.error.injEq] at h
    rw [← h] at hm; simp at hm
  · simp only [Except.error.injEq] at h
    rw [← h] at hm; simp at hm

/-- A value that no string of the date layout starts: `Parse` fails at an element of
the layout. -/
theorem Parse_no_layout (s : GoString) (h : ∀ g rest, Spec.readsAsDate g → s ≠ g ++ rest) :
    ∃ e : ParseError, Parse dateLayout s = .error e ∧ e.Message = [] := by
  rcases Parse_steps s with he | ⟨i, day, year, v1, v2, v3, v4, hlk, hsk, hgn, hsk2, hlen, hat⟩
  · exact he
  · obtain ⟨g, hg, hs⟩ := steps_reads s i day year v1 v2 v3 v4 hlk hsk hgn hsk2 hlen hat
    exact absurd hs (h g _ hg)

/-- A string that `Parse` accepts has the date layout. -/
theorem Parse_ok_reads (s : GoString) (t : Time) (h : Parse dateLayout s = .ok t) :
    Spec.readsAsDate s := by
  obtain ⟨i, day, year, v1, v2, v3, v4, hlk, hsk, hgn, hsk2, hlen, hat, hnil, -⟩ :=
    Parse_ok_inv s t h
  obtain ⟨g, hg, hs⟩ := steps_reads s i day year v1 v2 v3 v4 hlk hsk hgn hsk2 hlen hat
  rw [hnil, List.append_nil] at hs
  rw [hs]; exact hg

/-- The spelling `<Month> <day>, <year>` is one of the strings of the date layout. -/
theorem Spec.reads_of_isDateLayout (s : GoString) (h : Spec.isDateLayout s) :
    Spec.readsAsDate s := by
  obtain ⟨y, m, d, hy, m1, m12, d1, d99, rfl⟩ := h
  have hday : (Nat.toDigits 10 d).length ≤ 2 := by
    by_cases h10 : 10 ≤ d
    · rw [toDigits_two d h10 (by omega)]; simp
    · rw [toDigits_small d (by omega)]; simp
  have hyear : Spec.isDigits (Spec.pad 4 y) ∧ (Spec.pad 4 y).length = 4 := by
    rw [pad4 y (by omega)]
    refine ⟨⟨by simp, ?_⟩, rfl⟩
    intro c hc
    simp only [List.mem_cons, List.mem_singleton, List.not_mem_nil, or_false] at hc
    rcases hc with rfl | rfl | rfl | rfl
    · rw [digitByte_toNat _ (by omega)]; omega
    · rw [digitByte_toNat _ (by omega)]; omega
    · rw [digitByte_toNat _ (by omega)]; omega
    · rw [digitByte_toNat _ (by omega)]; omega
  refine ⟨m, Spec.monthName m, 1, 1, Nat.toDigits 10 d, Spec.pad 4 y, m1, m12, rfl,
    Nat.le_refl _, Nat.le_refl _, (toDigits_digits d).1, hday, hyear.1, hyear.2, ?_⟩
  simp only [Spec.dateString, String.toList, List.replicate, List.append_assoc, List.cons_append,
    List.nil_append]

/-! ## Proofs: the calendar of the specification -/

theorem Spec.daysBeforeYear_mono (y k : Nat) :
    Spec.daysBeforeYear y + 365 * k ≤ Spec.daysBeforeYear (y + k) := by
  induction k with
  | zero => simp
  | succ k ih =>
    have : Spec.daysBeforeYear (y + (k + 1)) = Spec.daysBeforeYear (y + k) + Spec.daysInYear (y + k) :=
      rfl
    have h365 : 365 ≤ Spec.daysInYear (y + k) := by unfold Spec.daysInYear; split <;> omega
    omega

theorem Spec.daysInMonths_mono (y k j : Nat) :
    Spec.daysInMonths y k ≤ Spec.daysInMonths y (k + j) := by
  induction j with
  | zero => simp
  | succ j ih =>
    have : Spec.daysInMonths y (k + (j + 1)) =
        Spec.daysInMonths y (k + j) + Spec.daysInMonth y (k + j + 1) := rfl
    omega

theorem Spec.daysInMonths_twelve (y : Nat) : Spec.daysInMonths y 12 = Spec.daysInYear y := by
  cases hl : Spec.isLeapYear y <;> simp [Spec.daysInMonths, Spec.daysInMonth, Spec.daysInYear, hl]

/-- Day of the year of a calendar date lies inside the year. -/
theorem Spec.dayOfYear_lt (y m d : Nat) (hv : Spec.validDate y m d) :
    Spec.daysInMonths y (m - 1) + (d - 1) < Spec.daysInMonths y m ∧
      Spec.daysInMonths y m ≤ Spec.daysInYear y := by
  obtain ⟨m1, m12, d1, dle⟩ := hv
  obtain ⟨k, rfl⟩ : ∃ k, m = k + 1 := ⟨m - 1, by omega⟩
  have e : Spec.daysInMonths y (k + 1) = Spec.daysInMonths y k + Spec.daysInMonth y (k + 1) := rfl
  have hmono := Spec.daysInMonths_mono y (k + 1) (12 - (k + 1))
  rw [show k + 1 + (12 - (k + 1)) = 12 by omega, Spec.daysInMonths_twelve] at hmono
  simp only [Nat.add_sub_cancel]
  omega

theorem Spec.dayNumber_inj (y m d y' m' d' : Nat) (hv : Spec.validDate y m d)
    (hv' : Spec.validDate y' m' d') (h : Spec.dayNumber y m d = Spec.dayNumber y' m' d') :
    y = y' ∧ m = m' ∧ d = d' := by
  obtain ⟨a1, a2⟩ := Spec.dayOfYear_lt y m d hv
  obtain ⟨b1, b2⟩ := Spec.dayOfYear_lt y' m' d' hv'
  unfold Spec.dayNumber at h
  have hy : y = y' := by
    by_contra hne
    rcases Nat.lt_or_gt_of_ne hne with hlt | hlt
    · have hm := Spec.daysBeforeYear_mono (y + 1) (y' - (y + 1))
      rw [show y + 1 + (y' - (y + 1)) = y' by omega] at hm
      have : Spec.daysBeforeYear (y + 1) = Spec.daysBeforeYear y + Spec.daysInYear y := rfl
      omega
    · have hm := Spec.daysBeforeYear_mono (y' + 1) (y - (y' + 1))
      rw [show y' + 1 + (y - (y' + 1)) = y by omega] at hm
      have : Spec.daysBeforeYear (y' + 1) = Spec.daysBeforeYear y' + Spec.daysInYear y' := rfl
      omega
  subst hy
  have hm : m = m' := by
    by_contra hne
    rcases Nat.lt_or_gt_of_ne hne with hlt | hlt
    · have hm := Spec.daysInMonths_mono y m (m' - 1 - m)
      rw [show m + (m' - 1 - m) = m' - 1 by omega] at hm
      omega
    · have hm := Spec.daysInMonths_mono y m' (m - 1 - m')
      rw [show m' + (m - 1 - m') = m - 1 by omega] at hm
      omega
  subst hm
  have := hv.2.2.1
  have := hv'.2.2.1
  exact ⟨rfl, rfl, by omega⟩

/-- A UTC instant has one calendar date and clock time. -/
theorem Spec.epochSeconds_inj (y m d H M S y' m' d' H' M' S' : Nat)
    (hv : Spec.validDate y m d) (hv' : Spec.validDate y' m' d')
    (hH : H < 24) (hM : M < 60) (hS : S < 60) (hH' : H' < 24) (hM' : M' < 60) (hS' : S' < 60)
    (h : Spec.epochSeconds y m d H M S = Spec.epochSeconds y' m' d' H' M' S') :
    y = y' ∧ m = m' ∧ d = d' ∧ H = H' ∧ M = M' ∧ S = S' := by
  simp only [Spec.epochSeconds, Spec.daysSinceUnixEpoch] at h
  have hdn : Spec.dayNumber y m d = Spec.dayNumber y' m' d' := by omega
  obtain ⟨rfl, rfl, rfl⟩ := Spec.dayNumber_inj _ _ _ _ _ _ hv hv' hdn
  refine ⟨rfl, rfl, rfl, ?_, ?_, ?_⟩ <;> omega

/-! ## Proofs: `parseTimestamp`, `parseTimestring` and the resolve step -/

theorem parseTimestamp_spec (n : Int) (h0 : 0 ≤ n) (h1 : n < 9223372036854775808) :
    ∃ y m d H M S : Nat, Spec.validDate y m d ∧ H < 24 ∧ M < 60 ∧ S < 60 ∧
      Spec.epochSeconds y m d H M S = n ∧
      parseTimestamp n = (⟨some n, some (Spec.render y m d H M S)⟩, none) ∧
      (n < 253402300800 → y ≤ 9999) := by
  obtain ⟨y, m, d, H, M, S, hv, hH, hM, hS, he, hs, hy⟩ := String_unix n (by omega) h1
  refine ⟨y, m, d, H, M, S, hv, hH, hM, hS, he, ?_, hy⟩
  unfold parseTimestamp
  rw [if_neg (by omega)]
  simp only [time.Unix, Time.UTC, hs, unixTime_Unix n (by omega) h1]

theorem Spec.dayNumber_lt (y m d : Nat) (hv : Spec.validDate y m d) :
    Spec.dayNumber y m d < 366 * (y + 1) := by
  obtain ⟨a1, a2⟩ := Spec.dayOfYear_lt y m d hv
  have hc := Spec.daysBeforeYear_closed y
  have : Spec.daysInYear y ≤ 366 := by unfold Spec.daysInYear; split <;> omega
  unfold Spec.dayNumber
  omega

/-- The time at midnight UTC of a calendar date of the years 0 to 9999: its Unix time
and its text. -/
theorem midnight_spec (y m d : Nat) (hy : y ≤ 9999) (hv : Spec.validDate y m d) :
    -62167219200 ≤ 86400 * Spec.daysSinceUnixEpoch y m d ∧
      86400 * Spec.daysSinceUnixEpoch y m d < 253402300800 ∧
      (unixTime (86400 * Spec.daysSinceUnixEpoch y m d) 0).Unix =
        86400 * Spec.daysSinceUnixEpoch y m d ∧
      (unixTime (86400 * Spec.daysSinceUnixEpoch y m d) 0).String = Spec.render y m d 0 0 0 := by
  have hlo : -62167219200 ≤ 86400 * Spec.daysSinceUnixEpoch y m d := by
    simp only [Spec.daysSinceUnixEpoch, Spec.dayNumber_epoch]; omega
  have hhi : 86400 * Spec.daysSinceUnixEpoch y m d < 253402300800 := by
    have hb := Spec.daysBeforeYear_mono (y + 1) (10000 - (y + 1))
    rw [show y + 1 + (10000 - (y + 1)) = 10000 by omega] at hb
    have h10 := Spec.daysBeforeYear_closed 10000
    obtain ⟨a1, a2⟩ := Spec.dayOfYear_lt y m d hv
    have : Spec.daysBeforeYear (y + 1) = Spec.daysBeforeYear y + Spec.daysInYear y := rfl
    simp only [Spec.daysSinceUnixEpoch, Spec.dayNumber_epoch]
    unfold Spec.dayNumber
    omega
  obtain ⟨y', m', d', H, M, S, hv', hH, hM, hS, he, hs, -⟩ :=
    String_unix (86400 * Spec.daysSinceUnixEpoch y m d) hlo (by omega)
  have he0 : Spec.epochSeconds y m d 0 0 0 = 86400 * Spec.daysSinceUnixEpoch y m d := by
    simp [Spec.epochSeconds]
  obtain ⟨rfl, rfl, rfl, rfl, rfl, rfl⟩ := Spec.epochSeconds_inj _ _ _ _ _ _ _ _ _ _ _ _ hv' hv
    hH hM hS (by omega) (by omega) (by omega) (he.trans he0.symm)
  exact ⟨hlo, hhi, unixTime_Unix _ (by omega) (by omega), hs⟩

theorem parseTimestring_spec (s : GoString) (t : Time) (h : Parse dateLayout s = .ok t) :
    ∃ y m d : Nat, y ≤ 9999 ∧ Spec.validDate y m d ∧
      t = unixTime (86400 * Spec.daysSinceUnixEpoch y m d) 0 ∧
      -62167219200 ≤ 86400 * Spec.daysSinceUnixEpoch y m d ∧
      86400 * Spec.daysSinceUnixEpoch y m d < 253402300800 ∧
      parseTimestring s =
        (⟨some (86400 * Spec.daysSinceUnixEpoch y m d), some (Spec.render y m d 0 0 0)⟩,
          none) := by
  obtain ⟨y, m, d, hy, hv, ht⟩ := Parse_ok_spec s t h
  obtain ⟨hlo, hhi, hU, hs⟩ := midnight_spec y m d hy hv
  refine ⟨_, _, _, hy, hv, ht, hlo, hhi, ?_⟩
  unfold parseTimestring
  simp only [h, ht, Time.UTC, hs, hU]

theorem parseTimestring_error (s : GoString) (e : ParseError)
    (h : Parse dateLayout s = .error e) :
    parseTimestring s = (⟨none, none⟩, some (.parseError e)) := by
  unfold parseTimestring
  simp only [h]

theorem wrap64_range (x : Int) :
    -9223372036854775808 ≤ wrap64 x ∧ wrap64 x < 9223372036854775808 := by
  unfold wrap64; omega

theorem ParseInt_range (s : GoString) (v : Int) (h : ParseInt s 10 64 = (v, none)) :
    -9223372036854775808 ≤ v ∧ v < 9223372036854775808 := by
  unfold ParseInt at h
  by_cases h1 : s = []
  · rw [if_pos h1] at h; simp at h
  · rw [if_neg h1] at h
    simp only at h
    generalize (if s.head? = some '+' ∨ s.head? = some '-' then s.drop 1 else s) = s1 at h
    generalize ParseUint s1 10 64 = r at h
    rcases r with ⟨un, _ | ⟨f, nm, _ | _⟩⟩
    · simp only at h
      split_ifs at h
      all_goals simp only [Prod.mk.injEq, reduceCtorEq, and_false, and_true] at h
      all_goals (rw [← h]; exact wrap64_range _)
    · simp at h
    · simp only at h
      split_ifs at h
      all_goals simp only [Prod.mk.injEq, reduceCtorEq, and_false, and_true] at h
      all_goals (rw [← h]; exact wrap64_range _)

theorem resolve_of_ParseInt (s : GoString) (v : Int) (h : ParseInt s 10 64 = (v, none)) :
    resolve s = parseTimestamp v := by
  unfold resolve; rw [h]

theorem resolve_of_ParseInt_error (s : GoString) (v : Int) (e : NumError)
    (h : ParseInt s 10 64 = (v, some e)) : resolve s = parseTimestring s := by
  unfold resolve; rw [h]

theorem resolve_of_Parse_ok (s : GoString) (t : Time) (h : Parse dateLayout s = .ok t) :
    resolve s = parseTimestring s :=
  resolve_of_ParseInt_error s _ _ (ParseInt_of_Parse_ok s t h)

theorem Spec.daysSinceUnixEpoch_example : Spec.daysSinceUnixEpoch 2015 12 15 = 16784 := by
  have h := Spec.daysBeforeYear_closed 2015
  have hm : Spec.daysInMonths 2015 11 = 334 := by decide
  simp only [Spec.daysSinceUnixEpoch, Spec.dayNumber_epoch]
  simp only [Spec.dayNumber, hm]
  omega

theorem Spec.epochSeconds_example : Spec.epochSeconds 2015 12 15 0 0 0 = 1450137600 := by
  simp only [Spec.epochSeconds, Spec.daysSinceUnixEpoch_example]
  decide

theorem Spec.fixedShape_length (s : GoString) (h : Spec.fixedShape s) : s.length = 29 := by
  obtain ⟨Y, Mo, D, hh, mi, se, -, -, -, -, -, -, -, -, rfl⟩ := h
  rfl

theorem Spec.render_shape (y m d H M S : Nat) (hy : y ≤ 9999) (hv : Spec.validDate y m d)
    (hH : H < 24) (hM : M < 60) (hS : S < 60) : Spec.fixedShape (Spec.render y m d H M S) := by
  have hm31 := Spec.daysInMonth_le y m
  obtain ⟨m1, m12, d1, dle⟩ := hv
  refine ⟨y, m, d, H, M, S, hy, m1, m12, d1, by omega, by omega, by omega, by omega, ?_⟩
  unfold Spec.render
  rw [pad4 y (by omega), pad2 m (by omega), pad2 d (by omega), pad2 H (by omega),
    pad2 M (by omega), pad2 S (by omega)]
  rfl

/-! ## The claims -/

/-- C1, as stated, fails: `parseTimestamp 9223372036854775807` returns no error and
Unix `9223372036854775807`, but its Natural string
`292277026596-12-04 15:30:07 +0000 UTC` has a 12-digit year and so is not of the form
`YYYY-MM-DD HH:MM:SS +0000 UTC`. -/
theorem parseTimestamp_form_counterexample :
    parseTimestamp 9223372036854775807 =
        (⟨some 9223372036854775807, some "292277026596-12-04 15:30:07 +0000 UTC".toList⟩,
          none) ∧
      ¬ Spec.fixedShape "292277026596-12-04 15:30:07 +0000 UTC".toList :=
  ⟨by decide, fun h => absurd (Spec.fixedShape_length _ h) (by decide)⟩

/-- C1, amended: for every 64-bit integer `n ≥ 0`, `parseTimestamp n` returns no error
and a Timestamp whose Unix field is `n` and whose Natural field is the rendering of the
UTC calendar date and clock time of the instant `n` seconds after the epoch: such a date
and time exists, and the Natural field is the rendering of any date and time whose
epoch seconds are `n`.  The rendering has the form `YYYY-MM-DD HH:MM:SS +0000 UTC` when
`n < 253402300800`; from there on the year is 10000 or more and is written with all
its digits. -/
theorem parseTimestamp_nonneg (n : Int) (h0 : 0 ≤ n) (h1 : n < 9223372036854775808) :
    (∃ y m d H M S : Nat, Spec.validDate y m d ∧ H < 24 ∧ M < 60 ∧ S < 60 ∧
        Spec.epochSeconds y m d H M S = n) ∧
      ∀ y m d H M S : Nat, Spec.validDate y m d → H < 24 → M < 60 → S < 60 →
        Spec.epochSeconds y m d H M S = n →
        parseTimestamp n = (⟨some n, some (Spec.render y m d H M S)⟩, none) ∧
        (n < 253402300800 → Spec.fixedShape (Spec.render y m d H M S)) ∧
        (253402300800 ≤ n → 10000 ≤ y) := by
  obtain ⟨y, m, d, H, M, S, hv, hH, hM, hS, he, hp, hy⟩ := parseTimestamp_spec n h0 h1
  refine ⟨⟨y, m, d, H, M, S, hv, hH, hM, hS, he⟩, ?_⟩
  intro y' m' d' H' M' S' hv' hH' hM' hS' he'
  obtain ⟨rfl, rfl, rfl, rfl, rfl, rfl⟩ := Spec.epochSeconds_inj _ _ _ _ _ _ _ _ _ _ _ _ hv hv'
    hH hM hS hH' hM' hS' (he.trans he'.symm)
  refine ⟨hp, fun hn => Spec.render_shape y m d H M S (hy hn) hv hH hM hS, ?_⟩
  intro hn
  by_contra hlt
  obtain ⟨-, hhi, -, -⟩ := midnight_spec y m d (by omega) hv
  simp only [Spec.epochSeconds] at he
  omega

/-- Witness for the amended C1: `n = 1450137600` gives `2015-12-15 00:00:00 +0000 UTC`,
which has the fixed form. -/
theorem parseTimestamp_nonneg_witness :
    parseTimestamp 1450137600 =
        (⟨some 1450137600, some "2015-12-15 00:00:00 +0000 UTC".toList⟩, none) ∧
      Spec.fixedShape "2015-12-15 00:00:00 +0000 UTC".toList :=
  have h := (parseTimestamp_nonneg 1450137600 (by decide) (by decide)).2 2015 12 15 0 0 0
    ⟨by decide, by decide, by decide, by decide⟩ (by decide) (by decide) (by decide)
    Spec.epochSeconds_example
  ⟨h.1, h.2.1 (by decide)⟩

/-- C2: for every string `<full English month name> <day>, <4-digit year>` that names a
calendar date, `parseTimestring` returns no error and a Timestamp whose Unix field is
86400 times the number of days from 1970-01-01 to that date and whose Natural field is
`YYYY-MM-DD 00:00:00 +0000 UTC` for the same date. -/
theorem parseTimestring_date (y m d : Nat) (hy : y ≤ 9999) (hv : Spec.validDate y m d) :
    parseTimestring (Spec.dateString y m d) =
      (⟨some (86400 * Spec.daysSinceUnixEpoch y m d), some (Spec.render y m d 0 0 0)⟩,
        none) := by
  have hp := Parse_dateString y m d hy hv
  rw [Date_spec y m d (by omega) hv] at hp
  obtain ⟨-, -, hU, hs⟩ := midnight_spec y m d hy hv
  unfold parseTimestring
  simp only [hp, Time.UTC, hs, hU]

/-- Witness for C2: `December 15, 2015` gives Unix `1450137600` and Natural
`2015-12-15 00:00:00 +0000 UTC`. -/
theorem parseTimestring_date_witness :
    parseTimestring "December 15, 2015".toList =
      (⟨some 1450137600, some "2015-12-15 00:00:00 +0000 UTC".toList⟩, none) :=
  (parseTimestring_date 2015 12 15 (by decide) ⟨by decide, by decide, by decide, by decide⟩).trans
    (by rw [Spec.daysSinceUnixEpoch_example]; rfl)

/-- C3: for every integer `n < 0` (in particular every negative 64-bit integer),
`parseTimestamp n` returns the empty Timestamp and an error whose message is exactly
`Invalid Timestamp: less than 0`. -/
theorem parseTimestamp_negative (n : Int) (h : n < 0) :
    ∃ e : GoError, parseTimestamp n = (⟨none, none⟩, some e) ∧
      e.Error = "Invalid Timestamp: less than 0".toList := by
  refine ⟨.errorString "Invalid Timestamp: less than 0".toList, ?_, rfl⟩
  unfold parseTimestamp
  rw [if_pos h]

/-- Witness for C3: `n = -1`. -/
theorem parseTimestamp_negative_witness :
    ∃ e : GoError, parseTimestamp (-1) = (⟨none, none⟩, some e) ∧
      e.Error = "Invalid Timestamp: less than 0".toList :=
  parseTimestamp_negative (-1) (by decide)

/-- C7: the Timestamp produced by `parseTimestamp`, by `parseTimestring` and by the
resolve step has either both fields present or both absent, and both are present
exactly when no error is returned. -/
theorem timestamp_all_or_nothing :
    (∀ n : Int, ((parseTimestamp n).1.Unix.isSome = (parseTimestamp n).1.Natural.isSome) ∧
      ((parseTimestamp n).2 = none ↔
        (parseTimestamp n).1.Unix.isSome = true ∧ (parseTimestamp n).1.Natural.isSome = true)) ∧
    (∀ s : GoString,
      ((parseTimestring s).1.Unix.isSome = (parseTimestring s).1.Natural.isSome) ∧
      ((parseTimestring s).2 = none ↔
        (parseTimestring s).1.Unix.isSome = true ∧
          (parseTimestring s).1.Natural.isSome = true)) ∧
    (∀ s : GoString, ((resolve s).1.Unix.isSome = (resolve s).1.Natural.isSome) ∧
      ((resolve s).2 = none ↔
        (resolve s).1.Unix.isSome = true ∧ (resolve s).1.Natural.isSome = true)) := by
  have h1 : ∀ n : Int, ((parseTimestamp n).1.Unix.isSome = (parseTimestamp n).1.Natural.isSome) ∧
      ((parseTimestamp n).2 = none ↔
        (parseTimestamp n).1.Unix.isSome = true ∧ (parseTimestamp n).1.Natural.isSome = true) := by
    intro n
    unfold parseTimestamp
    split_ifs <;> simp
  have h2 : ∀ s : GoString,
      ((parseTimestring s).1.Unix.isSome = (parseTimestring s).1.Natural.isSome) ∧
      ((parseTimestring s).2 = none ↔
        (parseTimestring s).1.Unix.isSome = true ∧
          (parseTimestring s).1.Natural.isSome = true) := by
    intro s
    unfold parseTimestring
    rcases hP : Parse dateLayout s with e | t <;> simp [hP]
  refine ⟨h1, h2, ?_⟩
  intro s
  rcases hP : ParseInt s 10 64 with ⟨v, _ | e⟩
  · rw [resolve_of_ParseInt s v hP]; exact h1 v
  · rw [resolve_of_ParseInt_error s v e hP]; exact h2 s

/-- C10, as stated, fails: `parseTimestamp 253402300800` succeeds and its Natural
string `10000-01-01 00:00:00 +0000 UTC` has a 5-digit year and 30 characters. -/
theorem natural_shape_counterexample :
    parseTimestamp 253402300800 =
        (⟨some 253402300800, some "10000-01-01 00:00:00 +0000 UTC".toList⟩, none) ∧
      "10000-01-01 00:00:00 +0000 UTC".toList.length = 30 ∧
      ¬ Spec.fixedShape "10000-01-01 00:00:00 +0000 UTC".toList :=
  ⟨by decide, by decide, fun h => absurd (Spec.fixedShape_length _ h) (by decide)⟩

/-- C10, amended: every successful result of `parseTimestring`, and every successful
result of `parseTimestamp n` with `n < 253402300800` (before year 10000), has a Natural
string of exactly the fixed shape `YYYY-MM-DD HH:MM:SS +0000 UTC`, 29 characters. -/
theorem natural_fixed_shape (t : Timestamp)
    (h : (∃ n : Int, n < 253402300800 ∧ parseTimestamp n = (t, none)) ∨
      (∃ str : GoString, parseTimestring str = (t, none))) :
    ∃ s : GoString, t.Natural = some s ∧ Spec.fixedShape s ∧ s.length = 29 := by
  rcases h with ⟨n, hn, hp⟩ | ⟨str, hp⟩
  · by_cases h0 : n < 0
    · unfold parseTimestamp at hp; rw [if_pos h0] at hp; simp at hp
    · obtain ⟨y, m, d, H, M, S, hv, hH, hM, hS, -, hr, hy⟩ :=
        parseTimestamp_spec n (by omega) (by omega)
      rw [hr] at hp
      simp only [Prod.mk.injEq, and_true] at hp
      have hs := Spec.render_shape y m d H M S (hy hn) hv hH hM hS
      exact ⟨_, by rw [← hp], hs, Spec.fixedShape_length _ hs⟩
  · rcases hP : Parse dateLayout str with e | t'
    · rw [parseTimestring_error str e hP] at hp; simp at hp
    · obtain ⟨y, m, d, hy, hv, -, -, -, hr⟩ := parseTimestring_spec str t' hP
      rw [hr] at hp
      simp only [Prod.mk.injEq, and_true] at hp
      have hs := Spec.render_shape y m d 0 0 0 hy hv (by omega) (by omega) (by omega)
      exact ⟨_, by rw [← hp], hs, Spec.fixedShape_length _ hs⟩

/-- Witness for the amended C10: the Timestamp of `parseTimestamp 1450137600`. -/
theorem natural_fixed_shape_witness :
    ∃ s : GoString,
      (⟨some 1450137600, some "2015-12-15 00:00:00 +0000 UTC".toList⟩ : Timestamp).Natural
        = some s ∧ Spec.fixedShape s ∧ s.length = 29 :=
  natural_fixed_shape _ (Or.inl ⟨1450137600, by decide, by decide⟩)

theorem resolve_decimal_spec (n : Nat) (h : n < 9223372036854775808) :
    resolve (Nat.toDigits 10 n) = parseTimestamp n :=
  resolve_of_ParseInt _ _ (ParseInt_toDigits n h)

/-- C5, as stated, fails: `January 1, 1969` matches the date layout and resolves to
Unix `-31536000`, but the decimal string `-31536000` of that value does not resolve:
`parseTimestamp` rejects negative values. -/
theorem roundtrip_counterexample :
    Spec.dateString 1969 1 1 = "January 1, 1969".toList ∧ Spec.validDate 1969 1 1 ∧
      resolve "January 1, 1969".toList =
        (⟨some (-31536000), some "1969-01-01 00:00:00 +0000 UTC".toList⟩, none) ∧
      Spec.decimal (-31536000) = "-31536000".toList ∧
      resolve "-31536000".toList =
        (⟨none, none⟩, some (.errorString "Invalid Timestamp: less than 0".toList)) :=
  ⟨by decide, ⟨by decide, by decide, by decide, by decide⟩, by decide, by decide, by decide⟩

/-- C5, amended: for every string `s` that the date parser accepts, `resolve s`
succeeds with some Unix value `u`, and when `u ≥ 0` (a date on or after 1970-01-01)
the decimal string of `u` resolves successfully to the identical Timestamp. -/
theorem resolve_roundtrip (s : GoString) (t : Time) (h : Parse dateLayout s = .ok t) :
    ∃ (u : Int) (natural : GoString), resolve s = (⟨some u, some natural⟩, none) ∧
      (0 ≤ u → resolve (Spec.decimal u) = (⟨some u, some natural⟩, none)) := by
  obtain ⟨y, m, d, hy, hv, -, hlo, hhi, hr⟩ := parseTimestring_spec s t h
  refine ⟨_, _, by rw [resolve_of_Parse_ok s t h, hr], ?_⟩
  intro h0
  obtain ⟨k, hk⟩ := Int.eq_ofNat_of_zero_le h0
  have hdec : Spec.decimal (86400 * Spec.daysSinceUnixEpoch y m d) = Nat.toDigits 10 k := by
    unfold Spec.decimal; rw [if_neg (by omega), hk]; rfl
  obtain ⟨y', m', d', H, M, S, hv', hH, hM, hS, he, hp, -⟩ :=
    parseTimestamp_spec (86400 * Spec.daysSinceUnixEpoch y m d) h0 (by omega)
  have he0 : Spec.epochSeconds y m d 0 0 0 = 86400 * Spec.daysSinceUnixEpoch y m d := by
    simp [Spec.epochSeconds]
  obtain ⟨rfl, rfl, rfl, rfl, rfl, rfl⟩ := Spec.epochSeconds_inj _ _ _ _ _ _ _ _ _ _ _ _ hv' hv
    hH hM hS (by omega) (by omega) (by omega) (he.trans he0.symm)
  rw [hdec, resolve_decimal_spec k (by omega), ← hk, hp]

/-- Witness for the amended C5: `December 15, 2015` and `1450137600`. -/
theorem resolve_roundtrip_witness :
    ∃ (u : Int) (natural : GoString),
      resolve "December 15, 2015".toList = (⟨some u, some natural⟩, none) ∧
      (0 ≤ u → resolve (Spec.decimal u) = (⟨some u, some natural⟩, none)) :=
  resolve_roundtrip "December 15, 2015".toList (Date 2015 12 15 0 0 0 0)
    (Parse_dateString 2015 12 15 (by decide) ⟨by decide, by decide, by decide, by decide⟩)

/-- C6, as stated, fails: the decimal string of `2^63` does not resolve; `ParseInt`
reports a range error and the date parser rejects the digits. -/
theorem resolve_unbounded_counterexample :
    Nat.toDigits 10 9223372036854775808 = "9223372036854775808".toList ∧
      (resolve (Nat.toDigits 10 9223372036854775808)).1 = ⟨none, none⟩ ∧
      (resolve (Nat.toDigits 10 9223372036854775808)).2 ≠ none :=
  ⟨by decide, by decide, by decide⟩

/-- C6, amended: for every non-negative integer `n` below `2^63`, resolving the decimal
string of `n` succeeds with `unix = n` and `natural` equal to the UTC rendering of epoch
`n`: a calendar date and time with epoch seconds `n` exists, and `natural` is the
rendering of any such date and time. -/
theorem resolve_decimal (n : Nat) (h : n < 9223372036854775808) :
    (∃ y m d H M S : Nat, Spec.validDate y m d ∧ H < 24 ∧ M < 60 ∧ S < 60 ∧
        Spec.epochSeconds y m d H M S = n) ∧
      ∀ y m d H M S : Nat, Spec.validDate y m d → H < 24 → M < 60 → S < 60 →
        Spec.epochSeconds y m d H M S = n →
        resolve (Nat.toDigits 10 n) = (⟨some n, some (Spec.render y m d H M S)⟩, none) := by
  obtain ⟨y, m, d, H, M, S, hv, hH, hM, hS, he, hp, -⟩ :=
    parseTimestamp_spec n (by omega) (by omega)
  refine ⟨⟨y, m, d, H, M, S, hv, hH, hM, hS, he⟩, ?_⟩
  intro y' m' d' H' M' S' hv' hH' hM' hS' he'
  obtain ⟨rfl, rfl, rfl, rfl, rfl, rfl⟩ := Spec.epochSeconds_inj _ _ _ _ _ _ _ _ _ _ _ _ hv hv'
    hH hM hS hH' hM' hS' (he.trans he'.symm)
  rw [resolve_decimal_spec n h, hp]

/-- Witness for the amended C6: `1450137600`. -/
theorem resolve_decimal_witness :
    resolve "1450137600".toList =
      (⟨some 1450137600, some "2015-12-15 00:00:00 +0000 UTC".toList⟩, none) :=
  (resolve_decimal 1450137600 (by decide)).2 2015 12 15 0 0 0
    ⟨by decide, by decide, by decide, by decide⟩ (by decide) (by decide) (by decide)
    Spec.epochSeconds_example

theorem Error_cannot_parse (e : ParseError) (h : e.Message = []) :
    "cannot parse".toList <:+: e.Error := by
  unfold ParseError.Error
  rw [if_pos h]
  refine ⟨"parsing time ".toList ++ quote e.Value ++ " as ".toList ++ quote e.Layout ++
    ": ".toList, " ".toList ++ quote e.ValueElem ++ " as ".toList ++ quote e.LayoutElem, ?_⟩
  simp [List.append_assoc]

theorem Spec.dateString_last (y m d : Nat) (hy : y ≤ 9999) :
    (Spec.dateString y m d).getLast? = some (digitByte (y % 10)) := by
  have h : Spec.dateString y m d =
      (Spec.monthName m ++ " ".toList ++ Nat.toDigits 10 d ++ ", ".toList ++
        [digitByte (y / 1000), digitByte (y / 100 % 10), digitByte (y / 10 % 10)]) ++
        [digitByte (y % 10)] := by
    unfold Spec.dateString
    rw [pad4 y (by omega)]
    simp only [List.append_assoc, List.cons_append, List.nil_append]
  rw [h, List.getLast?_concat]

/-- C4, as stated, fails.  `December 15, 2015x` is neither an integer nor of the date
layout, and `parseTimestring` rejects it with the message
`parsing time "December 15, 2015x": extra text: "x"`, which does not contain
`cannot parse`.  And with the layout taken to the letter, as the spelling
`<Month> <day>, <year>` of C2, `december 15, 2015` is neither an integer nor of that
spelling, yet the resolve step succeeds on it: the date parser ignores the case of
letters. -/
theorem cannot_parse_counterexample :
    ((ParseInt "December 15, 2015x".toList 10 64).2 ≠ none ∧
      ¬ Spec.isDateLayout "December 15, 2015x".toList ∧
      ¬ Spec.readsAsDate "December 15, 2015x".toList ∧
      ∃ e : GoError,
        parseTimestring "December 15, 2015x".toList = (⟨none, none⟩, some e) ∧
        e.Error = "parsing time \"December 15, 2015x\": extra text: \"x\"".toList ∧
        ¬ ("cannot parse".toList <:+: e.Error)) ∧
    ((ParseInt "december 15, 2015".toList 10 64).2 ≠ none ∧
      ¬ Spec.isDateLayout "december 15, 2015".toList ∧
      resolve "december 15, 2015".toList =
        (⟨some 1450137600, some "2015-12-15 00:00:00 +0000 UTC".toList⟩, none)) := by
  refine ⟨⟨by decide, ?_, ?_, ?_⟩, by decide, ?_, by decide⟩
  · rintro ⟨y, m, d, hy, -, -, -, -, h⟩
    have hl := Spec.dateString_last y m d hy
    rw [← h] at hl
    have ht := digitByte_toNat (y % 10) (by omega)
    simp only [String.toList, List.getLast?_cons_cons, List.getLast?_singleton,
      Option.some.injEq] at hl
    rw [← hl] at ht
    simp at ht
    omega
  · rintro ⟨m, name, j, k, dd, yr, -, -, -, -, -, -, -, hyd, hyl, hs⟩
    have hlast : ("December 15, 2015x".toList).getLast? = yr.getLast? := by
      rw [hs]
      cases yr with
      | nil => simp at hyl
      | cons c yr => rw [List.getLast?_append_cons]
    have hmem : 'x' ∈ yr := by
      have : yr.getLast? = some 'x' := by rw [← hlast]; rfl
      exact List.mem_of_mem_getLast? this
    have := hyd.2 'x' hmem
    simp at this
  · exact ⟨_, rfl, by decide, by decide⟩
  · rintro ⟨y, m, d, -, m1, m12, -, -, h⟩
    have hm : m = 1 ∨ m = 2 ∨ m = 3 ∨ m = 4 ∨ m = 5 ∨ m = 6 ∨ m = 7 ∨ m = 8 ∨ m = 9 ∨
        m = 10 ∨ m = 11 ∨ m = 12 := by omega
    rcases hm with rfl | rfl | rfl | rfl | rfl | rfl | rfl | rfl | rfl | rfl | rfl | rfl <;>
      simp [Spec.dateString, Spec.monthName] at h

/-- C4, amended: for every input string on which `strconv.ParseInt` fails and which is
not of the date layout `<full month name> <day>, <4-digit year>` as the date parser
reads it (letter case of the month name ignored, one or more spaces for each space of
the layout, a day of one or two digits), the date parser fails, and the resolve step
and `parseTimestring` return the empty Timestamp and the parser's error.  When the
string is a date of that layout followed by further text, the message is
`parsing time "<s>": extra text: "<rest>"`; in every other case the message contains
`cannot parse`. -/
theorem resolve_invalid_format (s : GoString) (hint : (ParseInt s 10 64).2 ≠ none)
    (hl : ¬ Spec.readsAsDate s) :
    ∃ e : ParseError, Parse dateLayout s = .error e ∧
      resolve s = (⟨none, none⟩, some (.parseError e)) ∧
      parseTimestring s = (⟨none, none⟩, some (.parseError e)) ∧
      (∀ g rest, Spec.readsAsDate g → s = g ++ rest →
        (GoError.parseError e).Error =
          "parsing time ".toList ++ quote s ++ ": extra text: ".toList ++ quote rest) ∧
      ((∀ g rest, Spec.readsAsDate g → s ≠ g ++ rest) →
        "cannot parse".toList <:+: (GoError.parseError e).Error) := by
  have hrest : ∀ g rest, Spec.readsAsDate g → s = g ++ rest → rest ≠ [] := by
    rintro g rest hg hs rfl
    rw [List.append_nil] at hs
    exact hl (hs ▸ hg)
  have hres : ∀ e, Parse dateLayout s = .error e →
      resolve s = (⟨none, none⟩, some (.parseError e)) ∧
      parseTimestring s = (⟨none, none⟩, some (.parseError e)) := by
    intro e he
    have hts := parseTimestring_error s e he
    refine ⟨?_, hts⟩
    rcases hP : ParseInt s 10 64 with ⟨v, _ | ne⟩
    · rw [hP] at hint; exact absurd rfl hint
    · rw [resolve_of_ParseInt_error s v ne hP, hts]
  have hextra : ∀ g rest, Spec.readsAsDate g → s = g ++ rest →
      Parse dateLayout s = .error ⟨"January _2, 2006".toList, s, [], rest,
        ": extra text: ".toList ++ quote rest⟩ := by
    intro g rest hg hs
    have := Parse_extra_text g hg rest (hrest g rest hg hs)
    rw [← hs] at this
    exact this
  by_cases hdec : ∃ g rest, Spec.readsAsDate g ∧ s = g ++ rest
  · obtain ⟨g, rest, hg, hs⟩ := hdec
    have he := hextra g rest hg hs
    refine ⟨_, he, (hres _ he).1, (hres _ he).2, ?_, fun hno => absurd hs (hno g rest hg)⟩
    intro g' rest' hg' hs'
    have he' := hextra g' rest' hg' hs'
    rw [he] at he'
    simp only [Except.error.injEq, ParseError.mk.injEq, true_and] at he'
    rw [← he'.1]
    simp only [GoError.Error, ParseError.Error]
    rw [if_neg (by simp)]
    simp only [List.append_assoc]
  · have hno : ∀ g rest, Spec.readsAsDate g → s ≠ g ++ rest :=
      fun g rest hg hs => hdec ⟨g, rest, hg, hs⟩
    obtain ⟨e, he, hm⟩ := Parse_no_layout s hno
    exact ⟨e, he, (hres e he).1, (hres e he).2, fun g rest hg hs => absurd hs (hno g rest hg),
      fun _ => Error_cannot_parse e hm⟩

/-- Witness for the amended C4: `Dec 15, 2015`, an abbreviated month name. -/
theorem resolve_invalid_format_witness :
    resolve "Dec 15, 2015".toList =
        (⟨none, none⟩, some (.parseError ⟨"January _2, 2006".toList, "Dec 15, 2015".toList,
          "January".toList, "Dec 15, 2015".toList, []⟩)) ∧
      "cannot parse".toList <:+: (GoError.parseError ⟨"January _2, 2006".toList,
        "Dec 15, 2015".toList, "January".toList, "Dec 15, 2015".toList, []⟩).Error := by
  have hP : Parse dateLayout "Dec 15, 2015".toList =
      .error ⟨"January _2, 2006".toList, "Dec 15, 2015".toList, "January".toList,
        "Dec 15, 2015".toList, []⟩ := rfl
  have hno := Parse_element_error _ _ hP rfl
  obtain ⟨e, he, hr, -, -, hc⟩ := resolve_invalid_format "Dec 15, 2015".toList (by decide)
    (fun hg => hno _ [] hg (List.append_nil _).symm)
  rw [hP] at he
  simp only [Except.error.injEq] at he
  subst he
  exact ⟨hr, hc hno⟩

/-! ## Proofs: JSON encoding and the routes -/

theorem stringLoop_safe (fuel : Nat) : ∀ s : GoString, s.length ≤ fuel →
    (∀ c ∈ s, json.htmlSafeSet c.toNat = true) → json.stringLoop fuel s = s := by
  induction fuel with
  | zero =>
    intro s hl _
    have : s = [] := List.length_eq_zero.mp (by omega)
    subst this; rfl
  | succ fuel ih =>
    intro s hl hs
    cases s with
    | nil => rfl
    | cons c s =>
      have hc := hs c (List.mem_cons_self _ _)
      have hlt : c.toNat < 128 := by
        simp only [json.htmlSafeSet, Bool.and_eq_true, decide_eq_true_eq] at hc
        exact hc.1.1.1.1.1.2
      simp only [json.stringLoop, hlt, hc, if_true]
      rw [ih s (by simp only [List.length_cons] at hl; omega)
        (fun x hx => hs x (List.mem_cons_of_mem _ hx))]

theorem encodeString_safe (s : GoString) (hs : ∀ c ∈ s, json.htmlSafeSet c.toNat = true) :
    json.encodeString s = [Char.ofNat 34] ++ s ++ [Char.ofNat 34] := by
  unfold json.encodeString
  rw [stringLoop_safe s.length s (Nat.le_refl _) hs]

theorem pad_safe (w n : Nat) : ∀ c ∈ Spec.pad w n, json.htmlSafeSet c.toNat = true := by
  intro c hc
  unfold Spec.pad at hc
  rcases List.mem_append.mp hc with h | h
  · rw [List.eq_of_mem_replicate h]; decide
  · have := (toDigits_digits n).1.2 c h
    simp only [json.htmlSafeSet, Bool.and_eq_true, decide_eq_true_eq, bne_iff_ne, ne_eq]
    omega

theorem safe_append (a b : GoString) (ha : ∀ c ∈ a, json.htmlSafeSet c.toNat = true)
    (hb : ∀ c ∈ b, json.htmlSafeSet c.toNat = true) :
    ∀ c ∈ a ++ b, json.htmlSafeSet c.toNat = true := by
  intro c hc
  rcases List.mem_append.mp hc with h | h
  · exact ha c h
  · exact hb c h

theorem render_safe (y m d H M S : Nat) :
    ∀ c ∈ Spec.render y m d H M S, json.htmlSafeSet c.toNat = true := by
  unfold Spec.render
  repeat' apply safe_append
  all_goals first
    | exact pad_safe _ _
    | exact fun c h => pad_safe 0 _ c (by simpa [Spec.pad] using h)
    | (intro c h; rw [List.eq_of_mem_replicate h]; decide)
    | decide

theorem FormatInt_eq (u : Int) (h1 : -9223372036854775808 ≤ u) (h2 : u < 9223372036854775808) :
    FormatInt u = Spec.decimal u := by
  unfold FormatInt formatBits Spec.decimal
  by_cases hneg : u < 0
  · have e : toUint64 (-u) = u.natAbs := by unfold toUint64; omega
    simp only [hneg, if_true, decide_True, e]
    rw [← toDigits_eq_decimalLoop 19 _ (by omega)]
    rfl
  · have e : toUint64 u = u.natAbs := by unfold toUint64; omega
    simp only [hneg, if_false, decide_False, e]
    rw [← toDigits_eq_decimalLoop 19 _ (by omega)]
    rfl

/-- A successful resolve step yields a 64-bit Unix value and a Natural string that is the
natural rendering of a calendar date and time. -/
theorem resolve_ok_inv (seg : GoString) (h : (resolve seg).2 = none) :
    ∃ (u : Int) (y m d H M S : Nat), -9223372036854775808 ≤ u ∧ u < 9223372036854775808 ∧
      resolve seg = (⟨some u, some (Spec.render y m d H M S)⟩, none) := by
  rcases hP : ParseInt seg 10 64 with ⟨v, _ | ne⟩
  · obtain ⟨r1, r2⟩ := ParseInt_range seg v hP
    rw [resolve_of_ParseInt seg v hP] at h ⊢
    by_cases h0 : v < 0
    · unfold parseTimestamp at h; rw [if_pos h0] at h; simp at h
    · obtain ⟨y, m, d, H, M, S, -, -, -, -, -, hp, -⟩ := parseTimestamp_spec v (by omega) r2
      exact ⟨v, y, m, d, H, M, S, r1, r2, hp⟩
  · rw [resolve_of_ParseInt_error seg v ne hP] at h ⊢
    rcases hQ : Parse dateLayout seg with e | t
    · rw [parseTimestring_error seg e hQ] at h; simp at h
    · obtain ⟨y, m, d, -, -, -, hlo, hhi, hr⟩ := parseTimestring_spec seg t hQ
      exact ⟨_, y, m, d, 0, 0, 0, by omega, by omega, hr⟩

theorem marshal_ok (u : Int) (y m d H M S : Nat) (h1 : -9223372036854775808 ≤ u)
    (h2 : u < 9223372036854775808) :
    Timestamp.marshal ⟨some u, some (Spec.render y m d H M S)⟩ =
      Spec.successBody u (Spec.render y m d H M S) := by
  simp only [Timestamp.marshal, Spec.successBody, FormatInt_eq u h1 h2,
    encodeString_safe _ (render_safe y m d H M S), List.append_assoc]
  rfl

theorem marshal_empty : Timestamp.marshal ⟨none, none⟩ = Spec.nullBody := by decide

theorem serveWith_error (h : HandlerFunc) (seg : GoString)
    (herr : seg = [] ∨ (resolve seg).2 ≠ none) :
    serveWith (jsonMiddleware (dateParserMiddleware h)) seg = some Spec.errorResponse := by
  unfold serveWith jsonMiddleware dateParserMiddleware
  by_cases hs : seg = []
  · subst hs; rfl
  · have he : (resolve seg).2 ≠ none := herr.resolve_left hs
    simp only [hs, if_false, he, ne_eq, not_false_eq_true, if_true]
    rfl

theorem serveWith_ok (h : HandlerFunc) (hh : h = unixTimeStamp ∨ h = naturalTimeStamp)
    (seg : GoString) (hs : seg ≠ []) (hok : (resolve seg).2 = none) :
    ∃ (u : Int) (s : GoString), resolve seg = (⟨some u, some s⟩, none) ∧
      serveWith (jsonMiddleware (dateParserMiddleware h)) seg = some (Spec.okResponse u s) := by
  obtain ⟨u, y, m, d, H, M, S, h1, h2, hr⟩ := resolve_ok_inv seg hok
  refine ⟨u, _, hr, ?_⟩
  have hm := marshal_ok u y m d H M S h1 h2
  unfold serveWith jsonMiddleware dateParserMiddleware
  rcases hh with rfl | rfl
  · simp only [hs, if_false, hr, ne_eq, not_true_eq_false, unixTimeStamp, ResponseWriter.Encode,
      ResponseWriter.WriteHeader, ResponseWriter.Set, hm]
    rfl
  · simp only [hs, if_false, hr, ne_eq, not_true_eq_false, naturalTimeStamp,
      ResponseWriter.Encode, ResponseWriter.WriteHeader, ResponseWriter.Set, hm]
    rfl

/-- C8, as stated, fails: for the path segment `Dec 15, 2015` the response has status
400 and its body is the null object followed by a line feed, not the null object
exactly. -/
theorem json_body_counterexample :
    ∃ w : ResponseWriter,
      serveWith (jsonMiddleware (dateParserMiddleware naturalTimeStamp)) "Dec 15, 2015".toList
        = some w ∧ w.status = 400 ∧
      w.body = "\x7b\"unix\":null,\"natural\":null\x7d\n".toList ∧
      w.body ≠ "\x7b\"unix\":null,\"natural\":null\x7d".toList :=
  ⟨Spec.errorResponse, by decide, by decide, by decide, by decide⟩

/-- C8, amended: for every path segment, including the empty one, and for either JSON
handler, the response is status 200 with body `\x7b"unix":<n>,"natural":"<s>"\x7d`
followed by a line feed, carrying the resolved values, when the segment is not empty
and the resolve step succeeds, and otherwise status 400 with body
`\x7b"unix":null,"natural":null\x7d` followed by a line feed. -/
theorem json_route (h : HandlerFunc) (hh : h = unixTimeStamp ∨ h = naturalTimeStamp)
    (seg : GoString) :
    (seg ≠ [] ∧ (resolve seg).2 = none ∧
      ∃ (u : Int) (s : GoString), resolve seg = (⟨some u, some s⟩, none) ∧
        serveWith (jsonMiddleware (dateParserMiddleware h)) seg =
          some ⟨[("Content-Type".toList, "application/json; charset=UTF-8".toList)], 200,
            Spec.successBody u s ++ ['\n']⟩) ∨
    ((seg = [] ∨ (resolve seg).2 ≠ none) ∧
      serveWith (jsonMiddleware (dateParserMiddleware h)) seg =
        some ⟨[("Content-Type".toList, "application/json; charset=UTF-8".toList),
            ("X-Status-Reason".toList,
              "Invalid date time format, refer to documentation.".toList)], 400,
          Spec.nullBody ++ ['\n']⟩) := by
  by_cases hs : seg = []
  · exact Or.inr ⟨Or.inl hs, serveWith_error h seg (Or.inl hs)⟩
  · by_cases he : (resolve seg).2 = none
    · obtain ⟨u, s, hr, hw⟩ := serveWith_ok h hh seg hs he
      exact Or.inl ⟨hs, he, u, s, hr, hw⟩
    · exact Or.inr ⟨Or.inr he, serveWith_error h seg (Or.inr he)⟩

theorem resolve_example :
    resolve "1450137600".toList =
      (⟨some 1450137600, some "2015-12-15 00:00:00 +0000 UTC".toList⟩, none) := by
  decide

/-- Witness for the amended C8: the segment `1450137600` on the integer route. -/
theorem json_route_witness :
    serveWith (jsonMiddleware (dateParserMiddleware unixTimeStamp)) "1450137600".toList =
      some ⟨[("Content-Type".toList, "application/json; charset=UTF-8".toList)], 200,
        "\x7b\"unix\":1450137600,\"natural\":\"2015-12-15 00:00:00 +0000 UTC\"\x7d\n".toList⟩ := by
  rcases json_route unixTimeStamp (Or.inl rfl) "1450137600".toList with
    ⟨-, -, u, s, hr, hw⟩ | ⟨he, -⟩
  · rw [resolve_example] at hr
    simp only [Prod.mk.injEq, Timestamp.mk.injEq, Option.some.injEq, and_true] at hr
    obtain ⟨rfl, rfl⟩ := hr
    rw [hw]; rfl
  · rcases he with he | he
    · exact absurd he (by decide)
    · exact absurd (by rw [resolve_example]) he

theorem app_of_isDigits (seg : GoString) (h : Spec.isDigits seg) : app seg = .unixRoute := by
  obtain ⟨hne, hall⟩ := h
  have hdot : ∀ c ∈ seg, c ≠ '.' ∧ c ≠ '/' := by
    intro c hc
    have := hall c hc
    constructor <;> (rintro rfl; simp at this)
  unfold app
  have h1 : ¬ (seg = ".".toList ∨ seg = "..".toList ∨ seg.any (fun c => c = '/') = true) := by
    rintro (rfl | rfl | h)
    · exact (hdot '.' (by simp)).1 rfl
    · exact (hdot '.' (by simp)).1 rfl
    · simp only [List.any_eq_true, decide_eq_true_eq] at h
      obtain ⟨c, hc, rfl⟩ := h
      exact (hdot '/' hc).2 rfl
  have h3 : seg.all (fun c => 48 ≤ c.toNat ∧ c.toNat ≤ 57) = true := by
    simp only [List.all_eq_true, decide_eq_true_eq]; exact hall
  rw [if_neg h1, if_neg hne, if_pos h3]

theorem serve_eq (seg : GoString) (h : app seg = .unixRoute ∨ app seg = .naturalRoute) :
    serve seg = serveWith (jsonMiddleware (dateParserMiddleware unixTimeStamp)) seg := by
  unfold serve
  rcases h with h | h
  · rw [h]; rfl
  · rw [h]; rfl

/-- Every non-empty segment other than `.` and `..` that has no slash and is not a run
of digits is served by the natural-language route. -/
theorem app_naturalRoute (seg : GoString) (hne : seg ≠ []) (h1 : seg ≠ ".".toList)
    (h2 : seg ≠ "..".toList) (hs : ∀ c ∈ seg, c ≠ '/') (hd : ¬ Spec.isDigits seg) :
    app seg = .naturalRoute := by
  unfold app
  have g1 : ¬ (seg = ".".toList ∨ seg = "..".toList ∨ seg.any (fun c => c = '/') = true) := by
    rintro (h | h | h)
    · exact h1 h
    · exact h2 h
    · simp only [List.any_eq_true, decide_eq_true_eq] at h
      obtain ⟨c, hc, rfl⟩ := h
      exact hs '/' hc rfl
  have g3 : ¬ (seg.all (fun c => 48 ≤ c.toNat ∧ c.toNat ≤ 57) = true) := by
    simp only [List.all_eq_true, decide_eq_true_eq]
    exact fun hall => hd ⟨hne, hall⟩
  rw [if_neg g1, if_neg hne, if_neg g3]

/-- `ParseInt` accepts a run of digits with a plus sign in front. -/
theorem ParseInt_plus (ds : GoString) (hd : Spec.isDigits ds)
    (hv : Spec.decimalValue ds < 9223372036854775808) :
    ParseInt ('+' :: ds) 10 64 = ((Spec.decimalValue ds : Int), none) := by
  obtain ⟨hne, hall⟩ := hd
  have hloop := parseUintLoop_digits ds ds 0 (by omega) hall
  unfold Spec.decimalValue at hv ⊢
  rw [if_pos (by omega)] at hloop
  unfold ParseInt ParseUint
  simp only [List.cons_ne_nil, if_false, List.head?_cons, Option.some.injEq, true_or, if_true,
    List.drop_succ_cons, List.drop_zero, hne, Nat.reduceDiv, Nat.reduceAdd, Nat.reducePow,
    Nat.reduceSub, hloop]
  rw [if_neg (by simp; omega), if_neg (by simp)]
  simp only [wrap64, Prod.mk.injEq, and_true]
  simp
  omega

/-- A segment made of a plus sign and a run of digits with a value below `2^63` is
served by the natural-language route, and its response is the success response for
`parseTimestamp` on the value, although `parseTimestring` rejects the segment. -/
theorem plus_segment (ds : GoString) (hd : Spec.isDigits ds)
    (hv : Spec.decimalValue ds < 9223372036854775808) :
    app ('+' :: ds) = .naturalRoute ∧
      resolve ('+' :: ds) = parseTimestamp (Spec.decimalValue ds) ∧
      (∃ s : GoString,
        parseTimestamp (Spec.decimalValue ds) = (⟨some (Spec.decimalValue ds), some s⟩, none) ∧
        serve ('+' :: ds) = some (Spec.okResponse (Spec.decimalValue ds) s)) ∧
      ∃ e : ParseError, parseTimestring ('+' :: ds) = (⟨none, none⟩, some (.parseError e)) := by
  have hP := ParseInt_plus ds hd hv
  have hres := resolve_of_ParseInt _ _ hP
  have happ : app ('+' :: ds) = .naturalRoute := by
    apply app_naturalRoute
    · simp
    · intro h; simp at h
    · intro h; simp at h
    · intro c hc
      rcases List.mem_cons.mp hc with rfl | hc
      · decide
      · rintro rfl
        have := hd.2 '/' hc
        simp at this
    · rintro ⟨-, h⟩
      have := h '+' (List.mem_cons_self _ _)
      simp at this
  obtain ⟨y, m, d, H, M, S, -, -, -, -, -, hp, -⟩ :=
    parseTimestamp_spec (Spec.decimalValue ds) (by omega) (by omega)
  refine ⟨happ, hres, ⟨_, hp, ?_⟩, ?_⟩
  · rw [serve_eq _ (Or.inr happ)]
    obtain ⟨u, s, hr, hw⟩ := serveWith_ok unixTimeStamp (Or.inl rfl) ('+' :: ds) (by simp)
      (by rw [hres, hp])
    rw [hres, hp] at hr
    simp only [Prod.mk.injEq, Timestamp.mk.injEq, Option.some.injEq, and_true] at hr
    rw [hw, ← hr.1, ← hr.2]
  · rcases hQ : Parse dateLayout ('+' :: ds) with e | t
    · exact ⟨e, parseTimestring_error _ e hQ⟩
    · have := ParseInt_of_Parse_ok _ t hQ
      rw [hP] at this
      simp at this

/-- C9, the defect: the path segment `+5` does not match `[0-9]+` and is served by the
route `/{date}`, whose handler `naturalTimeStamp` is documented to process a human
readable timestamp.  The claim gives it the result of `parseTimestring`, which rejects
`+5`, so the failure response; the code resolves it in integer mode and answers with
status 200 and the Timestamp of `parseTimestamp 5`. -/
theorem natural_route_plus_five :
    ¬ Spec.isDigits "+5".toList ∧ app "+5".toList = .naturalRoute ∧
      (app "+5".toList).handler =
        some (jsonMiddleware (dateParserMiddleware naturalTimeStamp)) ∧
      parseTimestring "+5".toList =
        (⟨none, none⟩, some (.parseError ⟨"January _2, 2006".toList, "+5".toList,
          "January".toList, "+5".toList, []⟩)) ∧
      resolve "+5".toList = parseTimestamp 5 ∧
      resolve "+5".toList ≠ parseTimestring "+5".toList ∧
      serve "+5".toList = some (Spec.okResponse 5 "1970-01-01 00:00:05 +0000 UTC".toList) ∧
      serve "+5".toList ≠ some Spec.errorResponse := by
  have h := plus_segment "5".toList ⟨by decide, by decide⟩ (by decide)
  have happ : app "+5".toList = .naturalRoute := h.1
  have hres : resolve "+5".toList = parseTimestamp 5 := h.2.1
  obtain ⟨s, hp0, hs0⟩ := h.2.2.1
  have hp : parseTimestamp 5 = (⟨some 5, some s⟩, none) := hp0
  have hs : serve "+5".toList = some (Spec.okResponse 5 s) := hs0
  have h5 : parseTimestamp 5 =
      (⟨some 5, some "1970-01-01 00:00:05 +0000 UTC".toList⟩, none) := by decide
  rw [h5] at hp
  simp only [Prod.mk.injEq, Timestamp.mk.injEq, Option.some.injEq, true_and, and_true] at hp
  subst hp
  have hts : parseTimestring "+5".toList =
      (⟨none, none⟩, some (.parseError ⟨"January _2, 2006".toList, "+5".toList,
        "January".toList, "+5".toList, []⟩)) := by decide
  refine ⟨?_, happ, by rw [happ]; rfl, hts, hres, ?_, hs, ?_⟩
  · rintro ⟨-, h⟩
    have := h '+' (by simp)
    simp at this
  · rw [hres, h5, hts]; simp
  · rw [hs]; decide

end Timestampms
